import Mathlib

/-!
# MiraboHorse fireworks engine: a shallow embedding of `public/fireworks.js`

The class `FireworksCanvas` is embedded as a record together with the part of the
host environment it talks to (timers, animation frames, the random source and the
drawing surface).  JavaScript numbers are embedded as elements of an arbitrary
linearly ordered field `α` with a floor function (`ℚ` for evaluation, `ℝ` for the
trigonometric statements), i.e. arithmetic is exact; the library functions of `Math`
that have no field-theoretic definition are a parameter `JSMath α`.

Two statements name the tick at which an entity leaves its collection, and that tick
depends on how JavaScript rounds: for them the per-tick updates are repeated with the
rounding of IEEE 754 binary64 applied to every operation (`stepRocketFl`,
`stepParticleFl`, `fl64`), and the statements are proved for every rounding with
relative error at most `2^-53`.
-/

namespace Fireworks

/-! ## Data model -/

/-- The functions and constants of the JavaScript `Math` object used by the engine
that are not field operations. -/
structure JSMath (α : Type) where
  PI : α
  cos : α → α
  sin : α → α
  sqrt : α → α
  atan2 : α → α → α

/-- An entry `{ x, y }` of a rocket trail. -/
structure Pos (α : Type) where
  x : α
  y : α
  deriving DecidableEq, Repr

/-- An entry `{ x, y, alpha }` of a particle trail. -/
structure TrailPt (α : Type) where
  x : α
  y : α
  alpha : α
  deriving DecidableEq, Repr

/-- The object pushed on `this.rockets` by `launchRocket`. -/
structure Rocket (α : Type) where
  x : α
  y : α
  vx : α
  vy : α
  targetY : α
  color : String
  trail : List (Pos α)
  exploded : Bool
  isHeart : Bool
  deriving DecidableEq, Repr

/-- The object pushed on `this.particles` by `createExplosion`. -/
structure Particle (α : Type) where
  x : α
  y : α
  vx : α
  vy : α
  color : String
  alpha : α
  decay : α
  size : α
  trail : List (TrailPt α)
  deriving DecidableEq, Repr

/-- What has been painted on the 2D context since the last full `clearRect`:
a stroked poly-line, or a filled disc (`arc` over a full turn followed by `fill`).
`glow` is the shadow colour when the disc is drawn with a non-zero `shadowBlur`. -/
inductive DrawOp (α : Type) where
  | stroke (style : String) (lineWidth : α) (path : List (Pos α))
  | disc (style : String) (x y radius : α) (shadowBlur : α) (glow : Option String)
  deriving DecidableEq, Repr

/-- The arguments of one call of `createExplosion`. -/
structure ExplosionCall (α : Type) where
  x : α
  y : α
  color : String
  forceHeart : Bool
  deriving DecidableEq, Repr

/-- The fields of a `FireworksCanvas` instance and the host state it acts on.

* `width`, `height`, `display`: `canvas.width`, `canvas.height`, `canvas.style.display`;
* `surface`: the content of the canvas, empty after a `clearRect` of the whole canvas;
* `animationFrame`, `launchInterval`: timer handles, `none` for `null`.  The host hands
  out non-zero handles, so a stored handle is truthy exactly when it is `some _`;
* `rnd`, `cursor`: the values returned by successive calls of `Math.random()` and the
  number of calls made so far;
* `nextHandle`, `intervals`, `frames`, `timeouts`: the host's timer table: the next
  fresh handle, the live `setInterval` timers, the pending `requestAnimationFrame`
  callbacks and the delays (ms) of the pending `setTimeout(() => this.launchRocket())`
  calls, in firing order;
* `explosionLog`: a ghost trace of the calls of `createExplosion`, oldest first. -/
structure FireworksCanvas (α : Type) where
  width : α
  height : α
  display : String
  surface : List (DrawOp α)
  particles : List (Particle α)
  rockets : List (Rocket α)
  active : Bool
  animationFrame : Option Nat
  launchInterval : Option Nat
  gravity : α
  friction : α
  colors : List String
  rnd : Nat → α
  cursor : Nat
  nextHandle : Nat
  intervals : List Nat
  frames : List Nat
  timeouts : List Nat
  explosionLog : List (ExplosionCall α)

variable {α : Type} [LinearOrderedField α] [FloorRing α]

/-! ## Constructor -/

/-- The palette `this.colors` set by the constructor. -/
def palette : List String :=
  ["#FFD700", "#FFF700", "#FFAA00",
   "#FF1744", "#FF0055", "#FF6E40",
   "#00E5FF", "#00BCD4", "#2196F3",
   "#76FF03", "#00E676", "#69F0AE",
   "#E040FB", "#D500F9", "#EA80FC",
   "#FF4081", "#F50057", "#FF80AB"]

/-- The local `heartColors` of `launchRocket`. -/
def heartColors : List String :=
  ["#FF1493", "#FF69B4", "#FF1744", "#FF0055", "#FF4081", "#F50057"]

/-- The state built by `new FireworksCanvas(..)` on a window of size `w` by `h`, with
`rnd` the future values of `Math.random()` and an empty timer table. -/
def FireworksCanvas.init (w h : α) (rnd : Nat → α) : FireworksCanvas α :=
  { width := w, height := h, display := "", surface := [],
    particles := [], rockets := [], active := false,
    animationFrame := none, launchInterval := none,
    gravity := 0.05, friction := 0.98, colors := palette,
    rnd := rnd, cursor := 0, nextHandle := 1,
    intervals := [], frames := [], timeouts := [], explosionLog := [] }

/-! ## `launchRocket` -/

/-- Array indexing `l[k]` by a JavaScript number holding the integer `k`. -/
def jsIndex (l : List String) (k : ℤ) : String :=
  if 0 ≤ k then l.getD k.toNat "undefined" else "undefined"

/-- The method `launchRocket()`: six draws of `Math.random()`, one rocket pushed. -/
def launchRocket (s : FireworksCanvas α) : FireworksCanvas α :=
  let x := s.rnd s.cursor * s.width * 0.6 + s.width * 0.2
  let targetY := s.rnd (s.cursor + 1) * s.height * 0.1 + s.height * 0.01
  let willBeHeart : Bool := decide (s.rnd (s.cursor + 2) < 0.33)
  let normalColors := s.colors
  let color :=
    if willBeHeart then
      jsIndex heartColors ⌊s.rnd (s.cursor + 3) * (heartColors.length : α)⌋
    else
      jsIndex normalColors ⌊s.rnd (s.cursor + 3) * (normalColors.length : α)⌋
  { s with
    cursor := s.cursor + 6
    rockets := s.rockets ++
      [{ x := x, y := s.height,
         vx := (s.rnd (s.cursor + 4) - 0.5) * 2,
         vy := -(s.rnd (s.cursor + 5) * 3.9 + 18.6),
         targetY := targetY, color := color, trail := [],
         exploded := false, isHeart := willBeHeart }] }

/-! ## `createExplosion` -/

/-- The `switch (explosionType)` of `createExplosion` for particle `i` of
`particleCount`, reading `Math.random()` from position `k` on: the pair
`(angle, speed)` and the position of the next unread draw. -/
def explosionShape (M : JSMath α) (rnd : Nat → α) (explosionType : ℤ) (particleCount : ℤ)
    (i : Nat) (k : Nat) : (α × α) × Nat :=
  if explosionType = 0 then
    (((M.PI * 2 * (i : α)) / (particleCount : α), rnd k * 3 + 3), k + 1)
  else if explosionType = 1 then
    (((M.PI * 2 * (i : α)) / (particleCount : α), rnd k * 1 + 5), k + 1)
  else if explosionType = 2 then
    let angle_deg := (360 * (i : α)) / (particleCount : α)
    let angle_rad := (angle_deg * M.PI) / 180
    let x_heart := M.cos angle_rad
    let y_heart := M.sin angle_rad
    let y_heart := y_heart + |x_heart| * M.sqrt ((8.0 - |x_heart|) / 50.0)
    let y_heart := -y_heart
    let angle := M.atan2 y_heart x_heart
    let dist := M.sqrt (x_heart * x_heart + y_heart * y_heart)
    ((angle, dist * 3.0), k)
  else if explosionType = 3 then
    let starPoint := i % 10
    (((M.PI * 2 * (starPoint : α)) / 10,
      (if starPoint % 2 = 0 then 5 else 2) + rnd k), k + 1)
  else
    ((rnd k * M.PI * 2, rnd (k + 1) * 4 + 2), k + 2)

/-- The object literal pushed for particle `i` by `createExplosion`, reading
`Math.random()` from position `k` on. -/
def newParticle (M : JSMath α) (rnd : Nat → α) (x y : α) (color : String)
    (explosionType particleCount : ℤ) (i : Nat) (k : Nat) : Particle α :=
  let as := explosionShape M rnd explosionType particleCount i k
  let angle := as.1.1
  let speed := as.1.2
  { x := x, y := y,
    vx := M.cos angle * speed,
    vy := M.sin angle * speed,
    color := color, alpha := 1,
    decay := rnd as.2 * 0.02 + 0.015,
    size := rnd (as.2 + 1) * 2 + 1.5,
    trail := [] }

/-- One iteration of the `for` loop of `createExplosion`: particle `i` is pushed. -/
def pushParticle (M : JSMath α) (x y : α) (color : String) (explosionType particleCount : ℤ)
    (i : Nat) (s : FireworksCanvas α) : FireworksCanvas α :=
  { s with
    cursor := (explosionShape M s.rnd explosionType particleCount i s.cursor).2 + 2
    particles := s.particles ++
      [newParticle M s.rnd x y color explosionType particleCount i s.cursor] }

/-- The loop `for (let i = ..; i < particleCount; i++)` with `todo` iterations left. -/
def explosionLoop (M : JSMath α) (x y : α) (color : String) (explosionType particleCount : ℤ) :
    Nat → Nat → FireworksCanvas α → FireworksCanvas α
  | 0, _, s => s
  | todo + 1, i, s =>
    explosionLoop M x y color explosionType particleCount todo (i + 1)
      (pushParticle M x y color explosionType particleCount i s)

/-- The method `createExplosion(x, y, color, forceHeart)`. -/
def createExplosion (M : JSMath α) (s : FireworksCanvas α) (x y : α) (color : String)
    (forceHeart : Bool) : FireworksCanvas α :=
  let particleCount : ℤ := ⌊s.rnd s.cursor * 20⌋ + 30
  let s1 := { s with cursor := s.cursor + 1,
                     explosionLog := s.explosionLog ++ [⟨x, y, color, forceHeart⟩] }
  let explosionType : ℤ := if forceHeart then 2 else ⌊s1.rnd s1.cursor * 6⌋
  let s2 := if forceHeart then s1 else { s1 with cursor := s1.cursor + 1 }
  explosionLoop M x y color explosionType particleCount particleCount.toNat 0 s2

/-! ## `updateRockets` -/

/-- The trail update `trail.push(e); if (trail.length > cap) trail.shift()`. -/
def pushTrail {β : Type} (cap : Nat) (trail : List β) (e : β) : List β :=
  let t := trail ++ [e]
  if t.length > cap then t.tail else t

/-- The in-place update of one rocket in `updateRockets` (position, velocity, trail)
on a canvas of height `height` under gravity `gravity`. -/
def stepRocket (height gravity : α) (rocket : Rocket α) : Rocket α :=
  let distanceToTarget := rocket.y - rocket.targetY
  let progressRatio := max 0 (min 1 (distanceToTarget / (height * 0.5)))
  let deceleration := (1 - progressRatio) * 0.15
  let x := rocket.x + rocket.vx
  let y := rocket.y + rocket.vy
  let vy := rocket.vy + gravity * 1
  let vy := vy * (1 - deceleration)
  { rocket with x := x, y := y, vy := vy, trail := pushTrail 8 rocket.trail ⟨x, y⟩ }

/-- The call `this.createExplosion(rocket.x, rocket.y, rocket.color, rocket.isHeart)`
as it is recorded in the ghost trace. -/
def Rocket.explosion (rocket : Rocket α) : ExplosionCall α :=
  ⟨rocket.x, rocket.y, rocket.color, rocket.isHeart⟩

/-- The test `rocket.y <= rocket.targetY || rocket.vy > 0` of `updateRockets`. -/
def rocketDone (rocket : Rocket α) : Bool :=
  decide (rocket.y ≤ rocket.targetY) || decide (rocket.vy > 0)

/-- The body of the loop of `updateRockets` at index `i`. -/
def updateRocketAt (M : JSMath α) (i : Nat) (s : FireworksCanvas α) : FireworksCanvas α :=
  match s.rockets.get? i with
  | none => s
  | some rocket0 =>
    let rocket := stepRocket s.height s.gravity rocket0
    let s1 := { s with rockets := s.rockets.set i rocket }
    if rocketDone rocket then
      let s2 :=
        if !rocket.exploded then
          let s' := createExplosion M s1 rocket.x rocket.y rocket.color rocket.isHeart
          { s' with rockets := s'.rockets.set i { rocket with exploded := true } }
        else s1
      { s2 with rockets := s2.rockets.eraseIdx i }
    else s1

/-- The loop `for (let i = ..; i >= 0; i--)` of `updateRockets`, with indices
`n - 1, .., 0` still to be visited. -/
def updateRocketsFrom (M : JSMath α) : Nat → FireworksCanvas α → FireworksCanvas α
  | 0, s => s
  | n + 1, s => updateRocketsFrom M n (updateRocketAt M n s)

/-- The method `updateRockets()`. -/
def updateRockets (M : JSMath α) (s : FireworksCanvas α) : FireworksCanvas α :=
  updateRocketsFrom M s.rockets.length s

/-! ## `updateParticles` -/

/-- The in-place update of one particle in `updateParticles`. -/
def stepParticle (gravity friction : α) (p : Particle α) : Particle α :=
  let x := p.x + p.vx
  let y := p.y + p.vy
  let vx := p.vx * friction
  let vy := p.vy * friction
  let vy := vy + gravity
  { p with x := x, y := y, vx := vx, vy := vy,
           trail := pushTrail 15 p.trail ⟨x, y, p.alpha⟩,
           alpha := p.alpha - p.decay }

/-- The body of the loop of `updateParticles` at index `i`. -/
def updateParticleAt (i : Nat) (s : FireworksCanvas α) : FireworksCanvas α :=
  match s.particles.get? i with
  | none => s
  | some p0 =>
    let p := stepParticle s.gravity s.friction p0
    let s1 := { s with particles := s.particles.set i p }
    if p.alpha ≤ 0 then { s1 with particles := s1.particles.eraseIdx i } else s1

/-- The loop of `updateParticles`, with indices `n - 1, .., 0` still to be visited. -/
def updateParticlesFrom : Nat → FireworksCanvas α → FireworksCanvas α
  | 0, s => s
  | n + 1, s => updateParticlesFrom n (updateParticleAt n s)

/-- The method `updateParticles()`. -/
def updateParticles (s : FireworksCanvas α) : FireworksCanvas α :=
  updateParticlesFrom s.particles.length s

/-! ## `draw` -/

/-- The string `Math.floor(..).toString(16).padStart(2, '0')` for the integer `v`
returned by `Math.floor`. -/
def hexByte (v : ℤ) : String :=
  let str := if 0 ≤ v then String.mk (Nat.toDigits 16 v.toNat)
             else "-" ++ String.mk (Nat.toDigits 16 v.natAbs)
  String.mk (List.replicate (2 - str.length) '0') ++ str

/-- What `draw` paints for one rocket: its trail and its head. -/
def drawRocket (rocket : Rocket α) : List (DrawOp α) :=
  [DrawOp.stroke rocket.color 2 rocket.trail,
   DrawOp.disc "#ffffff" rocket.x rocket.y 2 0 none]

/-- What `draw` paints for trail entry `index` of particle `p`. -/
def drawTrailPt (p : Particle α) (index : Nat) (pos : TrailPt α) : DrawOp α :=
  let trailAlpha := ((index : α) / (p.trail.length : α)) * p.alpha
  let alpha := hexByte ⌊trailAlpha * 255⌋
  let trailSize := p.size * (0.6 + trailAlpha * 0.4)
  DrawOp.disc (p.color ++ alpha) pos.x pos.y trailSize 0 none

/-- What `draw` paints for one particle: its trail, then the particle with its glow. -/
def drawParticle (p : Particle α) : List (DrawOp α) :=
  (p.trail.enum.map fun e => drawTrailPt p e.1 e.2) ++
    [DrawOp.disc (p.color ++ hexByte ⌊p.alpha * 255⌋) p.x p.y p.size 40 (some p.color)]

/-- The keys of `particlesByColor`, in insertion order. -/
def colorKeys (ps : List (Particle α)) : List String :=
  ps.foldl (fun keys p => if p.color ∈ keys then keys else keys ++ [p.color]) []

/-- The method `draw()`: the canvas is cleared, then rockets and particles (batched by
colour) are painted.  Nothing but the surface changes. -/
def draw (s : FireworksCanvas α) : FireworksCanvas α :=
  { s with
    surface :=
      s.rockets.flatMap drawRocket ++
        (colorKeys s.particles).flatMap fun color =>
          (s.particles.filter fun p => p.color = color).flatMap drawParticle }

/-! ## `animate`, `start`, `stop` and the host callbacks -/

/-- The method `animate()`; the last line registers the next frame with the host. -/
def animate (M : JSMath α) (s : FireworksCanvas α) : FireworksCanvas α :=
  if !s.active then s
  else
    let s := updateRockets M s
    let s := updateParticles s
    let s := draw s
    { s with animationFrame := some s.nextHandle
             frames := s.frames ++ [s.nextHandle]
             nextHandle := s.nextHandle + 1 }

/-- The method `start()`; the last line registers the spawn timer with the host. -/
def start (M : JSMath α) (s : FireworksCanvas α) : FireworksCanvas α :=
  let s := { s with active := true, display := "block" }
  let s := animate M s
  { s with launchInterval := some s.nextHandle
           intervals := s.intervals ++ [s.nextHandle]
           nextHandle := s.nextHandle + 1 }

/-- The method `stop()`. -/
def stop (s : FireworksCanvas α) : FireworksCanvas α :=
  let s := { s with active := false }
  let s := match s.animationFrame with
    | some h => { s with frames := s.frames.filter (fun f => f ≠ h), animationFrame := none }
    | none => s
  let s := match s.launchInterval with
    | some h => { s with intervals := s.intervals.filter (fun f => f ≠ h), launchInterval := none }
    | none => s
  { s with particles := [], rockets := [], surface := [], display := "none" }

/-- The number `this.rockets.filter(r => !r.exploded).length`. -/
def activeRocketCount (s : FireworksCanvas α) : Nat :=
  (s.rockets.filter fun r => !r.exploded).length

/-- The callback given to `setInterval` by `start()`: one spawn-scheduler tick.  The
launches are queued with the host with delays `0, 150, 300, ..` ms. -/
def spawnTick (s : FireworksCanvas α) : FireworksCanvas α :=
  if s.active then
    let activeRockets := activeRocketCount s
    if activeRockets < 20 then
      let count : ℤ := min (⌊s.rnd s.cursor * 2⌋ + 2) (20 - (activeRockets : ℤ))
      { s with cursor := s.cursor + 1
               timeouts := s.timeouts ++ (List.range count.toNat).map fun i => i * 150 }
    else s
  else s

/-- What the host can run next: a pending staggered launch, a pending animation frame
or a live spawn timer. -/
inductive HostEvent where
  | timeout
  | frame
  | interval
  deriving DecidableEq, Repr

/-- The host runs one callback; an event with nothing registered for it does nothing. -/
def hostStep (M : JSMath α) (s : FireworksCanvas α) : HostEvent → FireworksCanvas α
  | HostEvent.timeout =>
    match s.timeouts with
    | [] => s
    | _ :: rest => launchRocket { s with timeouts := rest }
  | HostEvent.frame =>
    match s.frames with
    | [] => s
    | _ :: rest => animate M { s with frames := rest }
  | HostEvent.interval =>
    match s.intervals with
    | [] => s
    | _ :: _ => spawnTick s

/-- The host runs a sequence of callbacks. -/
def hostRun (M : JSMath α) (s : FireworksCanvas α) (evs : List HostEvent) : FireworksCanvas α :=
  evs.foldl (hostStep M) s

/-- A `Math` for evaluating the engine over `ℚ`: the functions are placeholders (every
angle is `0`), used only where the result does not depend on them. -/
def ratMath : JSMath ℚ :=
  { PI := 355 / 113, cos := fun _ => 1, sin := fun _ => 0, sqrt := fun x => x,
    atan2 := fun _ _ => 0 }

/-- The `Math` of the real numbers: `atan2 y x` is the argument of `x + y i`, in
`(-π, π]`. -/
noncomputable def realMath : JSMath ℝ :=
  { PI := Real.pi, cos := Real.cos, sin := Real.sin, sqrt := Real.sqrt,
    atan2 := fun y x => Complex.arg ⟨x, y⟩ }

/-- The abscissa `cos θ` of the point of the upright heart curve at parameter `θ`. -/
noncomputable def heartX (θ : ℝ) : ℝ := Real.cos θ

/-- The ordinate `-(sin θ + |cos θ| sqrt((8 - |cos θ|) / 50))` of the point of the
upright heart curve at parameter `θ`. -/
noncomputable def heartY (θ : ℝ) : ℝ :=
  -(Real.sin θ + |Real.cos θ| * Real.sqrt ((8 - |Real.cos θ|) / 50))

/-! ## Quantities of `updateRockets` and `draw` by name -/

/-- The local `progressRatio` of `updateRockets`, from the rocket before its update. -/
def progressRatio (height : α) (rocket : Rocket α) : α :=
  let distanceToTarget := rocket.y - rocket.targetY
  max 0 (min 1 (distanceToTarget / (height * 0.5)))

/-- The local `deceleration` of `updateRockets`. -/
def deceleration (height : α) (rocket : Rocket α) : α :=
  (1 - progressRatio height rocket) * 0.15

/-- A hexadecimal digit, in either case. -/
def isHexDigit (c : Char) : Bool :=
  ('0' ≤ c && c ≤ '9') || ('a' ≤ c && c ≤ 'f') || ('A' ≤ c && c ≤ 'F')

/-- The value of a hexadecimal digit (`0` for any other character). -/
def hexDigitValue (c : Char) : Nat :=
  if '0' ≤ c && c ≤ '9' then c.toNat - '0'.toNat
  else if 'a' ≤ c && c ≤ 'f' then c.toNat - 'a'.toNat + 10
  else if 'A' ≤ c && c ≤ 'F' then c.toNat - 'A'.toNat + 10
  else 0

/-- The number written by a string of hexadecimal digits. -/
def hexValue (s : String) : Nat :=
  s.data.foldl (fun acc c => 16 * acc + hexDigitValue c) 0

/-- A colour `#RRGGBB`: a hash sign followed by exactly six hexadecimal digits. -/
def isHexColor (s : String) : Bool :=
  match s.data with
  | '#' :: ds => ds.length == 6 && ds.all isHexDigit
  | _ => false

/-- Two hexadecimal digits. -/
def isHexPair (s : String) : Bool :=
  s.length == 2 && s.data.all isHexDigit

/-! ## The heart counter of the host page (`public/script.js`) -/

/-- The `clampedProgress` of the `init_state` handler: the left position, in percent, of
the heart counter for `state.progress`. -/
def heartLeftInit (progress : α) : α :=
  max 5 (min 98 (progress * 0.93 + 5))

/-- The `clampedProgress` of the `update_progress` handler. -/
def heartLeftUpdate (progress : α) : α :=
  max 5 (min 100 (progress * 0.95 + 5))

/-! ## The relay's game state (`server.js`) -/

/-- The values of `gameState.status`. -/
inductive GameStatus where
  | waiting
  | playing
  | finished
  deriving DecidableEq, Repr

/-- The object `gameState`; `isRaceFinished` is absent until `start_game` sets it. -/
structure GameState where
  progress : ℚ
  status : GameStatus
  players : Nat
  totalHearts : Nat
  isRaceFinished : Option Bool
  deriving DecidableEq, Repr

/-- The messages the relay sends to every client with `io.emit`; `update_progress`
carries the progress and, in its object form, the heart count. -/
inductive Broadcast where
  | game_started
  | update_progress (progress : ℚ) (totalHearts : Option Nat)
  | heart_received
  | game_over
  | reset_game
  deriving DecidableEq, Repr

/-- The constant `REQUIRED_HEARTS`. -/
def REQUIRED_HEARTS : Nat := 200

/-- The constant `WINNING_PROGRESS`. -/
def WINNING_PROGRESS : ℚ := 100

/-- The initial `gameState`. -/
def gameState0 : GameState :=
  { progress := 0, status := GameStatus.waiting, players := 0, totalHearts := 0,
    isRaceFinished := none }

/-- The handler of `start_game`. -/
def start_game (g : GameState) : GameState × List Broadcast :=
  if g.status = GameStatus.waiting ∨ g.status = GameStatus.finished then
    ({ g with status := GameStatus.playing, progress := 0, isRaceFinished := some false },
     [Broadcast.game_started, Broadcast.update_progress 0 none])
  else (g, [])

/-- The handler of `send_heart`. -/
def send_heart (g : GameState) : GameState × List Broadcast :=
  if g.status = GameStatus.playing then
    let g := { g with totalHearts := g.totalHearts + 1 }
    let progress : ℚ :=
      min WINNING_PROGRESS (((g.totalHearts : ℚ) / (REQUIRED_HEARTS : ℚ)) * WINNING_PROGRESS)
    let g := { g with progress := progress }
    let out := [Broadcast.heart_received,
                Broadcast.update_progress g.progress (some g.totalHearts)]
    if g.progress ≥ WINNING_PROGRESS then
      ({ g with status := GameStatus.finished, progress := WINNING_PROGRESS },
       out ++ [Broadcast.game_over])
    else (g, out)
  else (g, [])

/-- The handler of `reset_game`. -/
def reset_game (g : GameState) : GameState × List Broadcast :=
  ({ g with progress := 0, totalHearts := 0, status := GameStatus.waiting },
   [Broadcast.reset_game, Broadcast.update_progress 0 (some 0)])

/-- The three game events a client can send. -/
inductive GameEvent where
  | start_game
  | send_heart
  | reset_game
  deriving DecidableEq, Repr

/-- The relay handles one event. -/
def handleEvent (g : GameState) : GameEvent → GameState × List Broadcast
  | GameEvent.start_game => start_game g
  | GameEvent.send_heart => send_heart g
  | GameEvent.reset_game => reset_game g

/-- The state of the relay after a sequence of events. -/
def runGame (g : GameState) (evs : List GameEvent) : GameState :=
  evs.foldl (fun g e => (handleEvent g e).1) g

/-! ## Predicates on runs -/

/-- The engine `s`, holding one rocket aimed at `targetY = T`, is run through
`updateRockets` repeatedly: during the first `N` ticks (tick `0` being `s` itself) the
rocket is in the collection, has not reached its target (`y > T`), and no explosion is
generated; from tick `N` on the collection is empty and exactly the one call `c` of
`createExplosion` has been added to the trace. -/
def FliesThenExplodes (M : JSMath α) (s : FireworksCanvas α) (T : α) (N : Nat)
    (c : ExplosionCall α) : Prop :=
  (∀ k, k < N → ∃ r : Rocket α, ((updateRockets M)^[k] s).rockets = [r] ∧
      r.targetY = T ∧ T < r.y ∧
      ((updateRockets M)^[k] s).explosionLog = s.explosionLog) ∧
  (∀ k, N ≤ k → ((updateRockets M)^[k] s).rockets = [] ∧
      ((updateRockets M)^[k] s).explosionLog = s.explosionLog ++ [c])

/-- An invariant of the ascent of an unexploded rocket towards `targetY = 50` on a canvas
of height 600: with `d = y - 50` the distance left and `u = -vy` the upward speed,
`0 < d`, `0 ≤ u ≤ 20` and `u ≤ 0.145 d' - 0.00025 d'^2 - 1` for `d' = min d 300`. -/
def ascentInv (r : Rocket ℚ) : Prop :=
  r.targetY = 50 ∧ 50 < r.y ∧ -20 ≤ r.vy ∧ r.vy ≤ 0 ∧ r.exploded = false ∧
  -r.vy ≤ 29 / 200 * min (r.y - 50) 300 - 1 / 4000 * (min (r.y - 50) 300) ^ 2 - 1

/-! ## Sample inputs -/

/-- A rocket as `launchRocket` creates them on a canvas of height 600: at the bottom
edge, rising, with an empty trail. -/
def sampleRocket : Rocket ℚ :=
  { x := 400, y := 600, vx := 0, vy := -20, targetY := 50, color := "#FFD700",
    trail := [], exploded := false, isHeart := false }

/-- A particle as `createExplosion` creates them. -/
def sampleParticle : Particle ℚ :=
  { x := 100, y := 100, vx := 3, vy := 0, color := "#FFD700", alpha := 1,
    decay := 0.025, size := 2, trail := [] }

/-- An 800 by 600 engine holding one rocket and one particle, every draw of
`Math.random()` being `1/2`. -/
def sampleEngine : FireworksCanvas ℚ :=
  { FireworksCanvas.init 800 600 (fun _ => 1 / 2) with
    rockets := [sampleRocket], particles := [sampleParticle] }

/-- The engine of `sampleEngine` without entities, over the real numbers. -/
noncomputable def sampleRealEngine : FireworksCanvas ℝ :=
  FireworksCanvas.init 800 600 (fun _ => 1 / 2)

/-! ## Rounded arithmetic

JavaScript numbers are IEEE 754 binary64 values: the result of every arithmetic operation
is rounded to the nearest number with a 53-bit significand, and a decimal literal denotes
the nearest such number.  The definitions of this section repeat the per-tick updates
with a rounding function `fl` applied to the result of every operation; `fl64` is the
rounding of binary64 (round to nearest, ties to even).  Overflow and underflow are not
modelled: every value below lies between `2^-1022` and `2^1024` in magnitude or is zero.
Integers of small magnitude (`0`, `1`) are exact. -/

/-- The fraction `N / D` rounded to the nearest integer, ties to the even one. -/
def roundHalfEven (N D : Nat) : Nat :=
  let f := N / D
  let r := N % D
  if 2 * r < D then f else if D < 2 * r then f + 1 else if f % 2 = 0 then f else f + 1

/-- The number of binary digits of `n` (with enough fuel, `fuel = n` is enough). -/
def bitLength : Nat → Nat → Nat
  | 0, _ => 0
  | fuel + 1, n => if n = 0 then 0 else bitLength fuel (n / 2) + 1

/-- The exponent `e` with `2^e ≤ n / d < 2^(e + 1)`, for `n, d > 0`. -/
def binadeExp (n d : Nat) : ℤ :=
  let e0 : ℤ := (bitLength n n : ℤ) - (bitLength d d : ℤ)
  if (d : ℚ) * (2 : ℚ) ^ e0 ≤ (n : ℚ) then e0 else e0 - 1

/-- Rounding to binary64: the nearest number `m * 2^s` with `2^52 ≤ m ≤ 2^53`, ties to
even `m`. -/
def fl64 (x : ℚ) : ℚ :=
  if x = 0 then 0
  else
    let n := x.num.natAbs
    let d := x.den
    let s : ℤ := binadeExp n d - 52
    let N := if 0 ≤ s then n else n * 2 ^ (-s).toNat
    let D := if 0 ≤ s then d * 2 ^ s.toNat else d
    (if x < 0 then -1 else 1) * (roundHalfEven N D : ℚ) * (2 : ℚ) ^ s

/-- A rounding with relative error at most `2^-53`, the unit roundoff of binary64. -/
def IsRounding (fl : ℚ → ℚ) : Prop :=
  ∀ x : ℚ, |fl x - x| ≤ |x| / 2 ^ 53

/-- The in-place update of one particle in `updateParticles`, every operation rounded. -/
def stepParticleFl (fl : α → α) (gravity friction : α) (p : Particle α) : Particle α :=
  let x := fl (p.x + p.vx)
  let y := fl (p.y + p.vy)
  let vx := fl (p.vx * friction)
  let vy := fl (p.vy * friction)
  let vy := fl (vy + gravity)
  { p with x := x, y := y, vx := vx, vy := vy,
           trail := pushTrail 15 p.trail ⟨x, y, p.alpha⟩,
           alpha := fl (p.alpha - p.decay) }

/-- The body of the loop of `updateParticles` at index `i`, every operation rounded. -/
def updateParticleAtFl (fl : α → α) (i : Nat) (s : FireworksCanvas α) : FireworksCanvas α :=
  match s.particles.get? i with
  | none => s
  | some p0 =>
    let p := stepParticleFl fl s.gravity s.friction p0
    let s1 := { s with particles := s.particles.set i p }
    if p.alpha ≤ 0 then { s1 with particles := s1.particles.eraseIdx i } else s1

/-- The loop of `updateParticles` with rounded operations, indices `n - 1, .., 0` still
to be visited. -/
def updateParticlesFromFl (fl : α → α) : Nat → FireworksCanvas α → FireworksCanvas α
  | 0, s => s
  | n + 1, s => updateParticlesFromFl fl n (updateParticleAtFl fl n s)

/-- The method `updateParticles()` with rounded operations. -/
def updateParticlesFl (fl : α → α) (s : FireworksCanvas α) : FireworksCanvas α :=
  updateParticlesFromFl fl s.particles.length s

/-- The in-place update of one rocket in `updateRockets`, every operation rounded; the
literals `0.5` and `0.15` are rounded too. -/
def stepRocketFl (fl : α → α) (height gravity : α) (rocket : Rocket α) : Rocket α :=
  let distanceToTarget := fl (rocket.y - rocket.targetY)
  let progressRatio := max 0 (min 1 (fl (distanceToTarget / fl (height * fl 0.5))))
  let deceleration := fl (fl (1 - progressRatio) * fl 0.15)
  let x := fl (rocket.x + rocket.vx)
  let y := fl (rocket.y + rocket.vy)
  let vy := fl (rocket.vy + fl (gravity * 1))
  let vy := fl (vy * fl (1 - deceleration))
  { rocket with x := x, y := y, vy := vy, trail := pushTrail 8 rocket.trail ⟨x, y⟩ }

/-- The body of the loop of `updateRockets` at index `i`, the rocket's update rounded. -/
def updateRocketAtFl (fl : α → α) (M : JSMath α) (i : Nat) (s : FireworksCanvas α) :
    FireworksCanvas α :=
  match s.rockets.get? i with
  | none => s
  | some rocket0 =>
    let rocket := stepRocketFl fl s.height s.gravity rocket0
    let s1 := { s with rockets := s.rockets.set i rocket }
    if rocketDone rocket then
      let s2 :=
        if !rocket.exploded then
          let s' := createExplosion M s1 rocket.x rocket.y rocket.color rocket.isHeart
          { s' with rockets := s'.rockets.set i { rocket with exploded := true } }
        else s1
      { s2 with rockets := s2.rockets.eraseIdx i }
    else s1

/-- The loop of `updateRockets` with the rounded update, indices `n - 1, .., 0` still to
be visited. -/
def updateRocketsFromFl (fl : α → α) (M : JSMath α) :
    Nat → FireworksCanvas α → FireworksCanvas α
  | 0, s => s
  | n + 1, s => updateRocketsFromFl fl M n (updateRocketAtFl fl M n s)

/-- The method `updateRockets()` with the rounded update of the rockets. -/
def updateRocketsFl (fl : α → α) (M : JSMath α) (s : FireworksCanvas α) : FireworksCanvas α :=
  updateRocketsFromFl fl M s.rockets.length s

/-- The decay `Math.random() * 0.02 + 0.015` that `createExplosion` gives a particle,
computed with rounding from the draw `r`. -/
def decayFl (fl : α → α) (r : α) : α :=
  fl (fl (r * fl 0.02) + fl 0.015)

/-- The vertical velocity `-(Math.random() * 3.9 + 18.6)` that `launchRocket` gives a
rocket, computed with rounding from the draw `r`. -/
def launchVyFl (fl : α → α) (r : α) : α :=
  -(fl (fl (r * fl 3.9) + fl 18.6))

/-- A particle with `alpha = 1` whose decay is the binary64 value
`0.03333333333333334`. -/
def thirtiethParticle : Particle ℚ :=
  { x := 100, y := 100, vx := 0, vy := 0, color := "#FFD700", alpha := 1,
    decay := 2401919801264265 / 72057594037927936, size := 2, trail := [] }

/-- A rocket at the bottom edge of a canvas of height 600 whose `vy` is the binary64
value `-0.3`. -/
def slowRocket : Rocket ℚ :=
  { x := 400, y := 600, vx := 0, vy := -(5404319552844595 / 18014398509481984),
    targetY := 50, color := "#FFD700", trail := [], exploded := false, isHeart := false }

/-- The engine of `sampleEngine` in binary64 (gravity and friction are the rounded
literals) holding the rockets `rs` and the particles `ps`. -/
def engine64 (rs : List (Rocket ℚ)) (ps : List (Particle ℚ)) : FireworksCanvas ℚ :=
  { FireworksCanvas.init 800 600 (fun _ => 1 / 2) with
    gravity := fl64 0.05, friction := fl64 0.98, rockets := rs, particles := ps }

/-- A rocket so fast and so far below its target that binary64 absorbs both the gravity
added to `vy` and the `vy` added to `y`. -/
def absorbedRocket : Rocket ℚ :=
  { x := 400, y := 2 ^ 120, vx := 0, vy := -(2 ^ 60), targetY := 50, color := "#FFD700",
    trail := [], exploded := false, isHeart := false }

/-! ## Auxiliary lemmas: what each loop computes -/

set_option linter.unusedSectionVars false
set_option linter.deprecated false

/-! ### Explosions -/

theorem explosionLoop_eq (M : JSMath α) (x y : α) (color : String) (et n : ℤ) :
    ∀ (todo i : Nat) (s : FireworksCanvas α), ∃ (ps : List (Particle α)) (k : Nat),
      ps.length = todo ∧
      (∀ j, j < todo → ∃ k', ps.get? j = some (newParticle M s.rnd x y color et n (i + j) k')) ∧
      explosionLoop M x y color et n todo i s =
        { s with particles := s.particles ++ ps, cursor := k } := by
  intro todo
  induction todo with
  | zero =>
    intro i s
    exact ⟨[], s.cursor, rfl, by intro j hj; omega, by simp [explosionLoop]⟩
  | succ t ih =>
    intro i s
    obtain ⟨ps, k, hlen, hget, heq⟩ := ih (i + 1) (pushParticle M x y color et n i s)
    refine ⟨newParticle M s.rnd x y color et n i s.cursor :: ps, k, by simp [hlen], ?_, ?_⟩
    · intro j hj
      cases j with
      | zero => exact ⟨s.cursor, by simp⟩
      | succ j =>
        obtain ⟨k', hk'⟩ := hget j (by omega)
        refine ⟨k', ?_⟩
        simp only [List.get?_cons_succ]
        rw [hk']
        simp [pushParticle, Nat.add_assoc, Nat.add_comm 1 j]
    · rw [explosionLoop, heq]
      simp [pushParticle]



theorem createExplosion_eq (M : JSMath α) (s : FireworksCanvas α) (x y : α) (color : String)
    (forceHeart : Bool) : ∃ (ps : List (Particle α)) (k : Nat),
      ps.length = (⌊s.rnd s.cursor * 20⌋ + 30).toNat ∧
      (∀ j, j < ps.length → ∃ k', ps.get? j = some (newParticle M s.rnd x y color
          (if forceHeart then 2 else ⌊s.rnd (s.cursor + 1) * 6⌋)
          (⌊s.rnd s.cursor * 20⌋ + 30) j k')) ∧
      createExplosion M s x y color forceHeart =
        { s with particles := s.particles ++ ps, cursor := k,
                 explosionLog := s.explosionLog ++ [⟨x, y, color, forceHeart⟩] } := by
  unfold createExplosion
  cases forceHeart with
  | true =>
    obtain ⟨ps, k, hlen, hget, heq⟩ := explosionLoop_eq M x y color 2 (⌊s.rnd s.cursor * 20⌋ + 30)
      (⌊s.rnd s.cursor * 20⌋ + 30).toNat 0
      { s with cursor := s.cursor + 1,
               explosionLog := s.explosionLog ++ [⟨x, y, color, true⟩] }
    refine ⟨ps, k, hlen, ?_, ?_⟩
    · intro j hj
      obtain ⟨k', hk'⟩ := hget j (hlen ▸ hj)
      exact ⟨k', by simpa using hk'⟩
    · simpa using heq
  | false =>
    obtain ⟨ps, k, hlen, hget, heq⟩ := explosionLoop_eq M x y color (⌊s.rnd (s.cursor + 1) * 6⌋)
      (⌊s.rnd s.cursor * 20⌋ + 30)
      (⌊s.rnd s.cursor * 20⌋ + 30).toNat 0
      { s with cursor := s.cursor + 1 + 1,
               explosionLog := s.explosionLog ++ [⟨x, y, color, false⟩] }
    refine ⟨ps, k, hlen, ?_, ?_⟩
    · intro j hj
      obtain ⟨k', hk'⟩ := hget j (hlen ▸ hj)
      exact ⟨k', by simpa using hk'⟩
    · simpa using heq

/-! ### Particles -/

theorem updateParticlesFrom_eq : ∀ (n : Nat) (s : FireworksCanvas α) (pre post : List (Particle α)),
    s.particles = pre ++ post → pre.length = n →
    updateParticlesFrom n s =
      { s with particles :=
          ((pre.map (stepParticle s.gravity s.friction)).filter (fun p => decide (0 < p.alpha)))
            ++ post } := by
  intro n
  induction n with
  | zero =>
    intro s pre post hs hlen
    have : pre = [] := List.length_eq_zero.mp hlen
    subst this
    simp [updateParticlesFrom, ← hs]
  | succ n ih =>
    intro s pre post hs hlen
    obtain ⟨pre', p, rfl⟩ : ∃ pre' p, pre = pre' ++ [p] := by
      rcases List.eq_nil_or_concat pre with h | ⟨l, a, h⟩
      · simp [h] at hlen
      · exact ⟨l, a, by simpa using h⟩
    have hlen' : pre'.length = n := by simpa using hlen
    have hget : s.particles.get? n = some p := by
      rw [hs, List.append_assoc, List.get?_append_right (by omega)]
      simp [hlen']
    rw [updateParticlesFrom]
    unfold updateParticleAt
    rw [hget]
    simp only
    have hset : s.particles.set n (stepParticle s.gravity s.friction p)
        = pre' ++ (stepParticle s.gravity s.friction p :: post) := by
      rw [hs, List.append_assoc, ← hlen']
      simp
    by_cases hdead : (stepParticle s.gravity s.friction p).alpha ≤ 0
    · rw [if_pos hdead]
      have herase : (s.particles.set n (stepParticle s.gravity s.friction p)).eraseIdx n
          = pre' ++ post := by
        rw [hset, ← hlen']
        simp [List.eraseIdx_append_of_length_le]
      rw [ih _ pre' post (by simpa using herase) hlen']
      simp [List.filter_append, not_lt.mpr hdead]
    · rw [if_neg hdead]
      rw [ih _ pre' (stepParticle s.gravity s.friction p :: post) (by simpa using hset) hlen']
      simp [List.filter_append, not_le.mp hdead]

theorem updateParticles_eq (s : FireworksCanvas α) :
    updateParticles s =
      { s with particles :=
          (s.particles.map (stepParticle s.gravity s.friction)).filter (fun p => decide (0 < p.alpha)) } := by
  unfold updateParticles
  rw [updateParticlesFrom_eq s.particles.length s s.particles [] (by simp) rfl]
  simp

theorem createExplosion_frame (M : JSMath α) (s : FireworksCanvas α) (x y : α) (color : String)
    (forceHeart : Bool) : ∃ (ps : List (Particle α)) (k : Nat),
      createExplosion M s x y color forceHeart =
        { s with particles := s.particles ++ ps, cursor := k,
                 explosionLog := s.explosionLog ++ [⟨x, y, color, forceHeart⟩] } := by
  obtain ⟨ps, k, _, _, h⟩ := createExplosion_eq M s x y color forceHeart
  exact ⟨ps, k, h⟩

/-! ### Rockets -/

theorem updateRocketsFrom_eq (M : JSMath α) :
    ∀ (n : Nat) (s : FireworksCanvas α) (pre post : List (Rocket α)),
    s.rockets = pre ++ post → pre.length = n →
    ∃ (ps : List (Particle α)) (k : Nat),
    updateRocketsFrom M n s =
      { s with
        rockets := ((pre.map (stepRocket s.height s.gravity)).filter (fun r => !rocketDone r)) ++ post
        particles := s.particles ++ ps
        cursor := k
        explosionLog := s.explosionLog ++
          (((pre.map (stepRocket s.height s.gravity)).reverse.filter
            (fun r => rocketDone r && !r.exploded)).map Rocket.explosion) } := by
  intro n
  induction n with
  | zero =>
    intro s pre post hs hlen
    have : pre = [] := List.length_eq_zero.mp hlen
    subst this
    exact ⟨[], s.cursor, by simp [updateRocketsFrom, ← hs]⟩
  | succ n ih =>
    intro s pre post hs hlen
    obtain ⟨pre', r, rfl⟩ : ∃ pre' r, pre = pre' ++ [r] := by
      rcases List.eq_nil_or_concat pre with h | ⟨l, a, h⟩
      · simp [h] at hlen
      · exact ⟨l, a, by simpa using h⟩
    have hlen' : pre'.length = n := by simpa using hlen
    have hget : s.rockets.get? n = some r := by
      rw [hs, List.append_assoc, List.get?_append_right (by omega)]
      simp [hlen']
    have hset : ∀ r' : Rocket α, (pre' ++ ([r] ++ post)).set n r' = pre' ++ (r' :: post) := by
      intro r'
      rw [← hlen']
      simp
    have herase : ∀ r' : Rocket α, (pre' ++ (r' :: post)).eraseIdx n = pre' ++ post := by
      intro r'
      rw [← hlen']
      simp [List.eraseIdx_append_of_length_le]
    have hset2 : ∀ r' r'' : Rocket α, (pre' ++ (r' :: post)).set n r'' = pre' ++ (r'' :: post) := by
      intro r' r''
      rw [← hlen']
      simp
    rw [updateRocketsFrom]
    unfold updateRocketAt
    rw [hget]
    simp only
    rw [hs, List.append_assoc, hset]
    by_cases hdone : rocketDone (stepRocket s.height s.gravity r) = true
    · rw [if_pos hdone]
      by_cases hexp : (stepRocket s.height s.gravity r).exploded = true
      · simp only [hexp, Bool.not_true, Bool.false_eq_true, if_false, herase]
        obtain ⟨ps, k, heq⟩ := ih { s with rockets := pre' ++ post } pre' post rfl hlen'
        refine ⟨ps, k, ?_⟩
        rw [heq]
        simp [List.filter_append, hdone, hexp]
      · simp only [Bool.not_eq_true] at hexp
        simp only [hexp, Bool.not_false, if_true]
        obtain ⟨ps1, k1, heq1⟩ := createExplosion_frame M
          { s with rockets := pre' ++ (stepRocket s.height s.gravity r :: post) }
          (stepRocket s.height s.gravity r).x (stepRocket s.height s.gravity r).y
          (stepRocket s.height s.gravity r).color (stepRocket s.height s.gravity r).isHeart
        rw [heq1]
        simp only [hset2, herase]
        obtain ⟨ps, k, heq⟩ := ih
          { s with rockets := pre' ++ post, particles := s.particles ++ ps1, cursor := k1,
                   explosionLog := s.explosionLog ++ [(stepRocket s.height s.gravity r).explosion] }
          pre' post rfl hlen'
        refine ⟨ps1 ++ ps, k, ?_⟩
        rw [Rocket.explosion] at heq
        rw [heq]
        simp [List.filter_append, hdone, hexp, Rocket.explosion]
    · rw [if_neg hdone]
      obtain ⟨ps, k, heq⟩ := ih
        { s with rockets := pre' ++ (stepRocket s.height s.gravity r :: post) }
        pre' (stepRocket s.height s.gravity r :: post) rfl hlen'
      refine ⟨ps, k, ?_⟩
      rw [heq]
      simp [List.filter_append, hdone]

theorem updateRockets_eq (M : JSMath α) (s : FireworksCanvas α) :
    ∃ (ps : List (Particle α)) (k : Nat),
    updateRockets M s =
      { s with
        rockets := (s.rockets.map (stepRocket s.height s.gravity)).filter (fun r => !rocketDone r)
        particles := s.particles ++ ps
        cursor := k
        explosionLog := s.explosionLog ++
          (((s.rockets.map (stepRocket s.height s.gravity)).reverse.filter
            (fun r => rocketDone r && !r.exploded)).map Rocket.explosion) } := by
  obtain ⟨ps, k, h⟩ := updateRocketsFrom_eq M s.rockets.length s s.rockets [] (by simp) rfl
  exact ⟨ps, k, by rw [updateRockets, h]; simp⟩

/-! ### Iterated particle updates -/

theorem stepParticle_iterate_alpha (g f : α) (p : Particle α) (j : Nat) :
    ((stepParticle g f)^[j] p).alpha = p.alpha - (j : α) * p.decay ∧
    ((stepParticle g f)^[j] p).decay = p.decay := by
  induction j with
  | zero => simp
  | succ j ih =>
    rw [Function.iterate_succ_apply']
    obtain ⟨h1, h2⟩ := ih
    refine ⟨?_, ?_⟩
    · simp only [stepParticle, h1, h2]
      push_cast
      ring
    · simp only [stepParticle, h2]

theorem updateParticles_iterate_eq (s : FireworksCanvas α)
    (hdecay : ∀ p ∈ s.particles, 0 ≤ p.decay) (k : Nat) :
    updateParticles^[k + 1] s =
      { s with particles :=
          (s.particles.filter (fun p => decide (0 < p.alpha - ((k : α) + 1) * p.decay))).map (stepParticle s.gravity s.friction)^[k + 1] } := by
  induction k with
  | zero =>
    simp only [Function.iterate_succ, Function.iterate_zero, Function.comp_apply, id_eq]
    rw [updateParticles_eq]
    congr 1
    rw [List.filter_map]
    congr 1
    apply List.filter_congr
    intro p _
    simp [stepParticle]
  | succ k ih =>
    rw [Function.iterate_succ_apply', ih, updateParticles_eq]
    simp only
    congr 1
    rw [List.map_map, List.filter_map, List.filter_filter]
    have hfun : (stepParticle s.gravity s.friction ∘ (stepParticle s.gravity s.friction)^[k + 1])
        = (stepParticle s.gravity s.friction)^[k + 1 + 1] := by
      funext p
      simp only [Function.comp_apply]
      exact (Function.iterate_succ_apply' _ _ _).symm
    rw [hfun]
    congr 1
    apply List.filter_congr
    intro p hp
    have hd := hdecay p hp
    have ha := (stepParticle_iterate_alpha s.gravity s.friction p (k + 1 + 1)).1
    simp only [Function.comp_apply, ha, Bool.and_eq_true, decide_eq_true_eq]
    push_cast
    rw [Bool.and_iff_left_iff_imp]
    simp only [decide_eq_true_eq]
    intro h
    nlinarith

/-! ### Trails -/

theorem pushTrail_drop {β : Type} (cap : Nat) (hcap : 1 ≤ cap) (l : List β) (e : β) :
    pushTrail cap (l.drop (l.length - cap)) e = (l ++ [e]).drop (l.length + 1 - cap) := by
  unfold pushTrail
  simp only [List.length_append, List.length_drop, List.length_singleton]
  by_cases h : cap ≤ l.length
  · rw [if_pos (by omega)]
    have hne : List.drop (l.length - cap) l ≠ [] := by
      intro hnil
      have := congrArg List.length hnil
      simp only [List.length_drop, List.length_nil] at this
      omega
    rw [List.tail_append_of_ne_nil hne, List.tail_drop,
      List.drop_append_of_le_length (by omega)]
    congr 2
    omega
  · rw [if_neg (by omega)]
    have h1 : l.length - cap = 0 := by omega
    have h2 : l.length + 1 - cap = 0 := by omega
    rw [h1, h2]
    simp

theorem iterate_trail {β γ : Type} (cap : Nat) (hcap : 1 ≤ cap) (step : β → β)
    (trail : β → List γ) (entry : β → β → γ)
    (hstep : ∀ b, trail (step b) = pushTrail cap (trail b) (entry b (step b)))
    (b : β) (hb : trail b = []) (k : Nat) :
    trail (step^[k] b) =
      ((List.range k).map (fun j => entry (step^[j] b) (step^[j + 1] b))).drop (k - cap) := by
  induction k with
  | zero => simp [hb]
  | succ k ih =>
    rw [Function.iterate_succ_apply', hstep, ih]
    have := pushTrail_drop cap hcap
      ((List.range k).map (fun j => entry (step^[j] b) (step^[j + 1] b)))
      (entry (step^[k] b) (step (step^[k] b)))
    simp only [List.length_map, List.length_range] at this
    rw [this, List.range_succ, List.map_append]
    simp [Function.iterate_succ_apply']

/-! ## Particle life cycle, trails and explosion size -/

/-- C2: for particles with `decay ≥ 0`, one tick of `updateParticles` replaces `alpha` by
`alpha - decay`, which is not larger; after `k + 1` ticks the collection holds exactly
the particles whose alpha after the `(k + 1)`-th decay is still positive (so a particle
leaves in the first tick whose post-decay alpha is `≤ 0`, not earlier); every particle
left after a tick has `alpha > 0`, and `draw` paints that same collection. -/
theorem particle_alpha_lifecycle (s : FireworksCanvas α)
    (hdecay : ∀ p ∈ s.particles, 0 ≤ p.decay) :
    (∀ p ∈ s.particles,
        (stepParticle s.gravity s.friction p).alpha = p.alpha - p.decay ∧
        (stepParticle s.gravity s.friction p).alpha ≤ p.alpha) ∧
    (∀ k : Nat, (updateParticles^[k + 1] s).particles =
        (s.particles.filter (fun p => decide (0 < p.alpha - ((k : α) + 1) * p.decay))).map
          (stepParticle s.gravity s.friction)^[k + 1]) ∧
    (∀ p ∈ (updateParticles s).particles, 0 < p.alpha) ∧
    (draw (updateParticles s)).particles = (updateParticles s).particles := by
  refine ⟨?_, ?_, ?_, rfl⟩
  · intro p hp
    have := hdecay p hp
    exact ⟨rfl, by simp only [stepParticle]; linarith⟩
  · intro k
    rw [updateParticles_iterate_eq s hdecay k]
  · intro p hp
    rw [updateParticles_eq] at hp
    simp only [List.mem_filter, decide_eq_true_eq] at hp
    exact hp.2

theorem particle_alpha_lifecycle_witness :
    (∀ p ∈ sampleEngine.particles, 0 ≤ p.decay) ∧
    (∀ p ∈ (updateParticles sampleEngine).particles, 0 < p.alpha) :=
  ⟨by norm_num [sampleEngine, sampleParticle],
   (particle_alpha_lifecycle sampleEngine (by norm_num [sampleEngine, sampleParticle])).2.2.1⟩

/-- C3: starting from an empty trail, after `k` ticks a rocket trail holds the last
`min k 8` and a particle trail the last `min k 15` recorded entries, oldest first; the
newest entry is the current position. -/
theorem trail_bounded_fifo (H g f : α) (r : Rocket α) (p : Particle α)
    (hr : r.trail = []) (hp : p.trail = []) (k : Nat) :
    ((stepRocket H g)^[k] r).trail =
      ((List.range k).map fun j =>
        (⟨((stepRocket H g)^[j + 1] r).x, ((stepRocket H g)^[j + 1] r).y⟩ : Pos α)).drop
          (k - min k 8) ∧
    ((stepParticle g f)^[k] p).trail =
      ((List.range k).map fun j =>
        (⟨((stepParticle g f)^[j + 1] p).x, ((stepParticle g f)^[j + 1] p).y,
          ((stepParticle g f)^[j] p).alpha⟩ : TrailPt α)).drop (k - min k 15) ∧
    ((stepRocket H g)^[k] r).trail.length = min k 8 ∧
    ((stepParticle g f)^[k] p).trail.length = min k 15 ∧
    ((stepRocket H g)^[k] r).trail.length ≤ 8 ∧
    ((stepParticle g f)^[k] p).trail.length ≤ 15 ∧
    (0 < k → ((stepRocket H g)^[k] r).trail.getLast? =
      some ⟨((stepRocket H g)^[k] r).x, ((stepRocket H g)^[k] r).y⟩) ∧
    (0 < k → (((stepParticle g f)^[k] p).trail.getLast?).map (fun e => (e.x, e.y)) =
      some (((stepParticle g f)^[k] p).x, ((stepParticle g f)^[k] p).y)) := by
  have hR := iterate_trail 8 (by norm_num) (stepRocket H g) Rocket.trail
    (fun _ b => (⟨b.x, b.y⟩ : Pos α)) (fun _ => rfl) r hr k
  have hP := iterate_trail 15 (by norm_num) (stepParticle g f) Particle.trail
    (fun a b => (⟨b.x, b.y, a.alpha⟩ : TrailPt α)) (fun _ => rfl) p hp k
  have e8 : k - min k 8 = k - 8 := by omega
  have e15 : k - min k 15 = k - 15 := by omega
  rw [e8, e15]
  refine ⟨hR, hP, ?_, ?_, ?_, ?_, ?_, ?_⟩
  · rw [hR]; simp; omega
  · rw [hP]; simp; omega
  · rw [hR]; simp; omega
  · rw [hP]; simp; omega
  · intro hk
    obtain ⟨k, rfl⟩ : ∃ k', k = k' + 1 := ⟨k - 1, by omega⟩
    rw [hR, List.range_succ, List.map_append, List.drop_append_of_le_length (by simp)]
    simp
  · intro hk
    obtain ⟨k, rfl⟩ : ∃ k', k = k' + 1 := ⟨k - 1, by omega⟩
    rw [hP, List.range_succ, List.map_append, List.drop_append_of_le_length (by simp)]
    simp

theorem trail_bounded_fifo_witness :
    sampleRocket.trail = [] ∧ sampleParticle.trail = [] ∧
    ((stepRocket 600 0.05)^[20] sampleRocket).trail.length ≤ 8 ∧
    ((stepParticle 0.05 0.98)^[20] sampleParticle).trail.length ≤ 15 :=
  ⟨rfl, rfl,
   (trail_bounded_fifo 600 0.05 0.98 sampleRocket sampleParticle rfl rfl 20).2.2.2.2.1,
   (trail_bounded_fifo 600 0.05 0.98 sampleRocket sampleParticle rfl rfl 20).2.2.2.2.2.1⟩

/-- C4: for a draw `r` in `[0, 1)`, `createExplosion` appends exactly `⌊20 r⌋ + 30` new
particles behind the ones already present, a number between 30 and 50. -/
theorem createExplosion_count (M : JSMath α) (s : FireworksCanvas α) (x y : α)
    (color : String) (forceHeart : Bool)
    (h0 : 0 ≤ s.rnd s.cursor) (h1 : s.rnd s.cursor < 1) :
    ∃ ps : List (Particle α),
      (createExplosion M s x y color forceHeart).particles = s.particles ++ ps ∧
      (ps.length : ℤ) = ⌊20 * s.rnd s.cursor⌋ + 30 ∧
      30 ≤ ps.length ∧ ps.length ≤ 50 := by
  obtain ⟨ps, k, hlen, _, heq⟩ := createExplosion_eq M s x y color forceHeart
  have hfl0 : 0 ≤ ⌊s.rnd s.cursor * 20⌋ := Int.floor_nonneg.mpr (by positivity)
  have hfl1 : ⌊s.rnd s.cursor * 20⌋ < 20 := by
    rw [Int.floor_lt]
    push_cast
    linarith
  refine ⟨ps, by rw [heq], ?_, ?_, ?_⟩
  · rw [hlen, mul_comm 20 (s.rnd s.cursor)]
    omega
  · omega
  · omega

theorem createExplosion_count_witness :
    (0 : ℚ) ≤ sampleEngine.rnd sampleEngine.cursor ∧
    sampleEngine.rnd sampleEngine.cursor < 1 ∧
    ∃ ps : List (Particle ℚ),
      (createExplosion ratMath sampleEngine 400 77 "#FFD700" true).particles =
        sampleEngine.particles ++ ps ∧
      (ps.length : ℤ) = ⌊20 * sampleEngine.rnd sampleEngine.cursor⌋ + 30 ∧
      30 ≤ ps.length ∧ ps.length ≤ 50 :=
  ⟨by norm_num [sampleEngine, FireworksCanvas.init],
   by norm_num [sampleEngine, FireworksCanvas.init],
   createExplosion_count ratMath sampleEngine 400 77 "#FFD700" true
     (by norm_num [sampleEngine, FireworksCanvas.init])
     (by norm_num [sampleEngine, FireworksCanvas.init])⟩

/-! ## The spawn scheduler -/

theorem stepRocket_exploded (H g : α) (r : Rocket α) :
    (stepRocket H g r).exploded = r.exploded := rfl

theorem activeRocketCount_updateRockets_le (M : JSMath α) (s : FireworksCanvas α) :
    activeRocketCount (updateRockets M s) ≤ activeRocketCount s := by
  obtain ⟨ps, k, h⟩ := updateRockets_eq M s
  rw [h]
  unfold activeRocketCount
  simp only
  calc ((List.filter (fun r => !rocketDone r)
          (List.map (stepRocket s.height s.gravity) s.rockets)).filter
            (fun r => !r.exploded)).length
      ≤ ((List.map (stepRocket s.height s.gravity) s.rockets).filter
            (fun r => !r.exploded)).length :=
        ((List.filter_sublist _).filter _).length_le
    _ = (s.rockets.filter (fun r => !r.exploded)).length := by
        rw [List.filter_map, List.length_map]
        rfl

theorem animate_rockets_timeouts (M : JSMath α) (s : FireworksCanvas α) :
    activeRocketCount (animate M s) ≤ activeRocketCount s ∧
    (animate M s).timeouts = s.timeouts := by
  unfold animate
  by_cases h : s.active = true
  · simp only [h, Bool.not_true, Bool.false_eq_true, if_false]
    have h1 := activeRocketCount_updateRockets_le M s
    obtain ⟨ps, k, h2⟩ := updateRockets_eq M s
    refine ⟨?_, ?_⟩
    · rw [updateParticles_eq]
      exact h1
    · rw [updateParticles_eq, h2]
      rfl
  · simp [h]

theorem launchRocket_rockets (s : FireworksCanvas α) :
    activeRocketCount (launchRocket s) = activeRocketCount s + 1 ∧
    (launchRocket s).rockets.length = s.rockets.length + 1 ∧
    (launchRocket s).timeouts = s.timeouts := by
  simp [launchRocket, activeRocketCount, List.filter_append]

theorem hostRun_pending_bound (M : JSMath α) (evs : List HostEvent)
    (hevs : HostEvent.interval ∉ evs) :
    ∀ s : FireworksCanvas α, activeRocketCount s + s.timeouts.length ≤ 20 →
      activeRocketCount (hostRun M s evs) + (hostRun M s evs).timeouts.length ≤ 20 := by
  induction evs with
  | nil => intro s h; simpa [hostRun] using h
  | cons e evs ih =>
    intro s h
    have hrest : HostEvent.interval ∉ evs := fun hm => hevs (List.mem_cons_of_mem _ hm)
    have hstep : activeRocketCount (hostStep M s e) + (hostStep M s e).timeouts.length ≤ 20 := by
      cases e with
      | timeout =>
        simp only [hostStep]
        cases hto : s.timeouts with
        | nil => simpa [hto] using h
        | cons d rest =>
          simp only
          obtain ⟨h1, _, h3⟩ := launchRocket_rockets { s with timeouts := rest }
          rw [h1, h3]
          rw [hto] at h
          simp only [List.length_cons] at h
          simp only [activeRocketCount] at h ⊢
          omega
      | frame =>
        simp only [hostStep]
        cases hfr : s.frames with
        | nil => simpa using h
        | cons d rest =>
          simp only
          obtain ⟨h1, h2⟩ := animate_rockets_timeouts M { s with frames := rest }
          rw [h2]
          simp only [activeRocketCount] at h h1 ⊢
          omega
      | interval => exact absurd (List.mem_cons_self _ _) hevs
    have := ih hrest (hostStep M s e) hstep
    simpa [hostRun] using this

/-- C1: one spawn-scheduler tick on an active engine with `n` unexploded rockets and
draw `r` in `[0, 1)` schedules nothing if `n ≥ 20` and exactly
`c = min (⌊2 r⌋ + 2) (20 - n)` launches (delays `0, 150, ..`) if `n < 20`, with
`1 ≤ c ≤ 3` and `n + c ≤ 20`; `launchRocket` adds one rocket and `updateRockets` adds
none, so with no launch pending from before and `n ≤ 20`, the number of unexploded
rockets stays at most 20 however the pending launches and frames are then run. -/
theorem spawnTick_keeps_cap (M : JSMath α) (s : FireworksCanvas α)
    (hact : s.active = true) (h0 : 0 ≤ s.rnd s.cursor) (h1 : s.rnd s.cursor < 1) :
    (20 ≤ activeRocketCount s → (spawnTick s).timeouts = s.timeouts) ∧
    (activeRocketCount s < 20 → ∃ c : Nat,
        (c : ℤ) = min (⌊2 * s.rnd s.cursor⌋ + 2) (20 - (activeRocketCount s : ℤ)) ∧
        1 ≤ c ∧ c ≤ 3 ∧ activeRocketCount s + c ≤ 20 ∧
        (spawnTick s).timeouts = s.timeouts ++ (List.range c).map (fun i => i * 150)) ∧
    (∀ t : FireworksCanvas α, (launchRocket t).rockets.length = t.rockets.length + 1) ∧
    (∀ t : FireworksCanvas α, activeRocketCount (updateRockets M t) ≤ activeRocketCount t) ∧
    (s.timeouts = [] → activeRocketCount s ≤ 20 →
      ∀ evs : List HostEvent, HostEvent.interval ∉ evs →
        activeRocketCount (hostRun M (spawnTick s) evs) ≤ 20) := by
  have hfl0 : 0 ≤ ⌊s.rnd s.cursor * 2⌋ := Int.floor_nonneg.mpr (by positivity)
  have hfl1 : ⌊s.rnd s.cursor * 2⌋ < 2 := by
    rw [Int.floor_lt]
    push_cast
    linarith
  have hA : 20 ≤ activeRocketCount s → (spawnTick s).timeouts = s.timeouts := by
    intro h
    simp [spawnTick, hact, Nat.not_lt.mpr h]
  have hB : activeRocketCount s < 20 → ∃ c : Nat,
        (c : ℤ) = min (⌊2 * s.rnd s.cursor⌋ + 2) (20 - (activeRocketCount s : ℤ)) ∧
        1 ≤ c ∧ c ≤ 3 ∧ activeRocketCount s + c ≤ 20 ∧
        (spawnTick s).timeouts = s.timeouts ++ (List.range c).map (fun i => i * 150) := by
    intro h
    refine ⟨(min (⌊s.rnd s.cursor * 2⌋ + 2) (20 - (activeRocketCount s : ℤ))).toNat,
      ?_, ?_, ?_, ?_, ?_⟩
    · rw [mul_comm 2 (s.rnd s.cursor)]
      omega
    · omega
    · omega
    · omega
    · simp [spawnTick, hact, h]
  refine ⟨hA, hB, fun t => (launchRocket_rockets t).2.1,
    activeRocketCount_updateRockets_le M, ?_⟩
  intro hto hn evs hevs
  have hinv : activeRocketCount (spawnTick s) + (spawnTick s).timeouts.length ≤ 20 := by
    have hcount : activeRocketCount (spawnTick s) = activeRocketCount s := by
      unfold spawnTick
      simp only [hact, if_true]
      split <;> rfl
    rw [hcount]
    by_cases h : activeRocketCount s < 20
    · obtain ⟨c, _, _, _, hc, htc⟩ := hB h
      rw [htc, hto]
      simpa using hc
    · rw [hA (by omega), hto]
      simpa using hn
  have := hostRun_pending_bound M evs hevs (spawnTick s) hinv
  omega

theorem spawnTick_keeps_cap_witness :
    ({ sampleEngine with active := true } : FireworksCanvas ℚ).active = true ∧
    activeRocketCount (hostRun ratMath (spawnTick { sampleEngine with active := true })
      [HostEvent.timeout, HostEvent.frame, HostEvent.timeout, HostEvent.timeout]) ≤ 20 :=
  ⟨rfl,
   (spawnTick_keeps_cap ratMath { sampleEngine with active := true } rfl
      (by norm_num [sampleEngine, FireworksCanvas.init])
      (by norm_num [sampleEngine, FireworksCanvas.init])).2.2.2.2
      rfl (by simp [activeRocketCount, sampleEngine, sampleRocket])
      [HostEvent.timeout, HostEvent.frame, HostEvent.timeout, HostEvent.timeout]
      (by decide)⟩

/-! ## The heart explosion -/

theorem heart_ne_origin (θ : ℝ) : heartX θ ≠ 0 ∨ heartY θ ≠ 0 := by
  by_cases h : Real.cos θ = 0
  · right
    have hs := Real.sin_sq_add_cos_sq θ
    rw [h] at hs
    simp only [heartY, h, abs_zero, zero_mul, add_zero]
    intro h0
    have : Real.sin θ = 0 := by linarith
    rw [this] at hs
    norm_num at hs
  · left
    exact h

theorem cos_sin_arg_mul_dist (X Y : ℝ) (h : X ≠ 0 ∨ Y ≠ 0) :
    Real.cos (Complex.arg ⟨X, Y⟩) * (3 * Real.sqrt (X * X + Y * Y)) = 3 * X ∧
    Real.sin (Complex.arg ⟨X, Y⟩) * (3 * Real.sqrt (X * X + Y * Y)) = 3 * Y := by
  have hz : (⟨X, Y⟩ : ℂ) ≠ 0 := by
    intro h0
    have h1 := congrArg Complex.re h0
    have h2 := congrArg Complex.im h0
    simp only [Complex.zero_re, Complex.zero_im] at h1 h2
    rcases h with h | h
    · exact h h1
    · exact h h2
  have habs : Complex.abs ⟨X, Y⟩ = Real.sqrt (X * X + Y * Y) := by
    rw [Complex.abs_apply, Complex.normSq_mk]
  have hpos : 0 < Complex.abs ⟨X, Y⟩ := Complex.abs.pos hz
  rw [Complex.cos_arg hz, Complex.sin_arg, ← habs]
  constructor
  · field_simp
    ring
  · field_simp
    ring

/-- C5: with `forceHeart = true`, whatever the draws, particle `i` of the `n` particles of
an explosion is built from the heart branch only: with `θ = 2πi/n` and `(x, y)` the point
of the upright heart curve at `θ`, its angle is `atan2 y x`, its speed `3 sqrt(x² + y²)`,
the point is not the origin, and its velocity is `3 (x, y)`. -/
theorem heart_explosion_velocity (s : FireworksCanvas ℝ) (x0 y0 : ℝ) (color : String)
    (i : Nat) (hi : i < (⌊s.rnd s.cursor * 20⌋ + 30).toNat) :
    ∃ p : Particle ℝ,
      (createExplosion realMath s x0 y0 color true).particles.get? (s.particles.length + i)
        = some p ∧
      ((createExplosion realMath s x0 y0 color true).particles.length : ℤ)
        = s.particles.length + (⌊s.rnd s.cursor * 20⌋ + 30) ∧
      (heartX (2 * Real.pi * i / (⌊s.rnd s.cursor * 20⌋ + 30 : ℤ)) ≠ 0 ∨
        heartY (2 * Real.pi * i / (⌊s.rnd s.cursor * 20⌋ + 30 : ℤ)) ≠ 0) ∧
      p.vx = Real.cos (realMath.atan2
              (heartY (2 * Real.pi * i / (⌊s.rnd s.cursor * 20⌋ + 30 : ℤ)))
              (heartX (2 * Real.pi * i / (⌊s.rnd s.cursor * 20⌋ + 30 : ℤ)))) *
            (3 * Real.sqrt
              (heartX (2 * Real.pi * i / (⌊s.rnd s.cursor * 20⌋ + 30 : ℤ)) ^ 2 +
               heartY (2 * Real.pi * i / (⌊s.rnd s.cursor * 20⌋ + 30 : ℤ)) ^ 2)) ∧
      p.vy = Real.sin (realMath.atan2
              (heartY (2 * Real.pi * i / (⌊s.rnd s.cursor * 20⌋ + 30 : ℤ)))
              (heartX (2 * Real.pi * i / (⌊s.rnd s.cursor * 20⌋ + 30 : ℤ)))) *
            (3 * Real.sqrt
              (heartX (2 * Real.pi * i / (⌊s.rnd s.cursor * 20⌋ + 30 : ℤ)) ^ 2 +
               heartY (2 * Real.pi * i / (⌊s.rnd s.cursor * 20⌋ + 30 : ℤ)) ^ 2)) ∧
      p.vx = 3 * heartX (2 * Real.pi * i / (⌊s.rnd s.cursor * 20⌋ + 30 : ℤ)) ∧
      p.vy = 3 * heartY (2 * Real.pi * i / (⌊s.rnd s.cursor * 20⌋ + 30 : ℤ)) := by
  obtain ⟨ps, k, hlen, hget, heq⟩ := createExplosion_eq realMath s x0 y0 color true
  obtain ⟨k', hk'⟩ := hget i (hlen ▸ hi)
  set n : ℤ := ⌊s.rnd s.cursor * 20⌋ + 30 with hn
  have hnpos : 0 < n := by omega
  have hθ : (360 * (i : ℝ)) / (n : ℝ) * Real.pi / 180 = 2 * Real.pi * i / (n : ℝ) := by
    have : (n : ℝ) ≠ 0 := by exact_mod_cast hnpos.ne'
    field_simp
    ring
  set θ : ℝ := 2 * Real.pi * i / (n : ℝ) with hθdef
  have hne := heart_ne_origin θ
  have hvel := cos_sin_arg_mul_dist (heartX θ) (heartY θ) hne
  have hsq : heartX θ ^ 2 + heartY θ ^ 2 = heartX θ * heartX θ + heartY θ * heartY θ := by
    ring
  refine ⟨newParticle realMath s.rnd x0 y0 color 2 n i k', ?_, ?_, hne, ?_, ?_, ?_, ?_⟩
  · rw [heq]
    simp only
    rw [List.get?_append_right (by omega)]
    simpa using hk'
  · rw [heq]
    simp only [List.length_append, hlen]
    push_cast
    rw [Int.toNat_of_nonneg hnpos.le]
  · simp only [newParticle, explosionShape, realMath, hθ, hsq]
    norm_num [heartX, heartY]
    left
    ring_nf
  · simp only [newParticle, explosionShape, realMath, hθ, hsq]
    norm_num [heartX, heartY]
    left
    ring_nf
  · rw [← hvel.1]
    simp only [newParticle, explosionShape, realMath, hθ]
    norm_num [heartX, heartY]
    left
    ring_nf
  · rw [← hvel.2]
    simp only [newParticle, explosionShape, realMath, hθ]
    norm_num [heartX, heartY]
    left
    ring_nf

theorem heart_explosion_velocity_witness :
    7 < (⌊sampleRealEngine.rnd sampleRealEngine.cursor * 20⌋ + 30).toNat ∧
    ∃ p : Particle ℝ,
      (createExplosion realMath sampleRealEngine 400 77 "#FF1493" true).particles.get?
        (sampleRealEngine.particles.length + 7) = some p ∧
      p.vx = 3 * heartX (2 * Real.pi * (7 : ℕ) /
        (⌊sampleRealEngine.rnd sampleRealEngine.cursor * 20⌋ + 30 : ℤ)) ∧
      p.vy = 3 * heartY (2 * Real.pi * (7 : ℕ) /
        (⌊sampleRealEngine.rnd sampleRealEngine.cursor * 20⌋ + 30 : ℤ)) := by
  have h : 7 < (⌊sampleRealEngine.rnd sampleRealEngine.cursor * 20⌋ + 30).toNat := by
    have : sampleRealEngine.rnd sampleRealEngine.cursor * 20 = ((10 : ℤ) : ℝ) := by
      norm_num [sampleRealEngine, FireworksCanvas.init]
    rw [this, Int.floor_intCast]
    decide
  obtain ⟨p, h1, _, _, _, _, h2, h3⟩ :=
    heart_explosion_velocity sampleRealEngine 400 77 "#FF1493" 7 h
  exact ⟨h, p, h1, h2, h3⟩

/-! ## `stop`, `start` and one tick of `updateRockets` -/

/-- C6: from every state, `stop()` leaves both collections empty, `active` false, both
stored handles null and no longer registered with the host, the surface cleared, the
physics constants and the palette untouched; a second `stop()` changes nothing. -/
theorem stop_clears_everything (s : FireworksCanvas α) :
    (stop s).rockets = [] ∧ (stop s).particles = [] ∧ (stop s).active = false ∧
    (stop s).animationFrame = none ∧ (stop s).launchInterval = none ∧
    (∀ h, s.animationFrame = some h → h ∉ (stop s).frames) ∧
    (∀ h, s.launchInterval = some h → h ∉ (stop s).intervals) ∧
    (stop s).surface = [] ∧
    (stop s).gravity = s.gravity ∧ (stop s).friction = s.friction ∧
    (stop s).colors = s.colors ∧
    stop (stop s) = stop s := by
  cases hf : s.animationFrame <;> cases hi : s.launchInterval <;>
    simp [stop, hf, hi]

/-- C8 (fails on the code): `launchRocket` pushes a rocket whatever `active` is; on a
fresh engine, after `start()`, one spawn tick, then `stop()`, the first pending staggered
launch still fires and leaves one rocket in the collection of the stopped engine. -/
theorem launch_after_stop_adds_rocket :
    (∀ s : FireworksCanvas ℚ, (launchRocket s).rockets.length = s.rockets.length + 1) ∧
    (stop (spawnTick (start ratMath (FireworksCanvas.init 800 600 (fun _ => 1 / 2))))).rockets
      = [] ∧
    (stop (spawnTick (start ratMath (FireworksCanvas.init 800 600 (fun _ => 1 / 2))))).timeouts
      = [0, 150, 300] ∧
    (hostStep ratMath
      (stop (spawnTick (start ratMath (FireworksCanvas.init 800 600 (fun _ => 1 / 2)))))
      HostEvent.timeout).active = false ∧
    (hostStep ratMath
      (stop (spawnTick (start ratMath (FireworksCanvas.init 800 600 (fun _ => 1 / 2)))))
      HostEvent.timeout).rockets.length = 1 := by
  refine ⟨fun s => (launchRocket_rockets s).2.1, ?_, ?_, ?_, ?_⟩ <;>
  simp [start, stop, animate, updateRockets, updateRocketsFrom, updateParticles,
    updateParticlesFrom, draw, colorKeys, FireworksCanvas.init, spawnTick, activeRocketCount,
    hostStep, launchRocket, List.range, List.range.loop]

/-- C9: one `updateRockets` tick keeps exactly the updated rockets for which neither
`y ≤ targetY` nor `vy > 0` holds, and calls `createExplosion` once for every removed
rocket that had not exploded (last index first), with the updated position, the colour
and the heart flag; no call is made for a rocket that stays. -/
theorem updateRockets_removal (M : JSMath α) (s : FireworksCanvas α) :
    (updateRockets M s).rockets =
      (s.rockets.map (stepRocket s.height s.gravity)).filter
        (fun r => !(decide (r.y ≤ r.targetY) || decide (r.vy > 0))) ∧
    (updateRockets M s).explosionLog = s.explosionLog ++
      ((s.rockets.map (stepRocket s.height s.gravity)).reverse.filter
        (fun r => (decide (r.y ≤ r.targetY) || decide (r.vy > 0)) && !r.exploded)).map
        (fun r => (⟨r.x, r.y, r.color, r.isHeart⟩ : ExplosionCall α)) := by
  obtain ⟨ps, k, h⟩ := updateRockets_eq M s
  rw [h]
  exact ⟨rfl, rfl⟩

/-! ## Runs of a single rocket -/

theorem updateRockets_nil (M : JSMath α) (s : FireworksCanvas α) (hs : s.rockets = []) :
    updateRockets M s = s := by
  simp [updateRockets, hs, updateRocketsFrom]

theorem updateRockets_iterate_nil (M : JSMath α) (s : FireworksCanvas α) (hs : s.rockets = [])
    (k : Nat) : (updateRockets M)^[k] s = s := by
  induction k with
  | zero => rfl
  | succ k ih => rw [Function.iterate_succ_apply', ih, updateRockets_nil M s hs]

theorem updateRockets_single (M : JSMath α) (s : FireworksCanvas α) (r : Rocket α)
    (hs : s.rockets = [r]) :
    (updateRockets M s).height = s.height ∧ (updateRockets M s).gravity = s.gravity ∧
    (rocketDone (stepRocket s.height s.gravity r) = false →
      (updateRockets M s).rockets = [stepRocket s.height s.gravity r] ∧
      (updateRockets M s).explosionLog = s.explosionLog) ∧
    (rocketDone (stepRocket s.height s.gravity r) = true →
      (stepRocket s.height s.gravity r).exploded = false →
      (updateRockets M s).rockets = [] ∧
      (updateRockets M s).explosionLog =
        s.explosionLog ++ [(stepRocket s.height s.gravity r).explosion]) := by
  obtain ⟨ps, k, h⟩ := updateRockets_eq M s
  rw [h, hs]
  refine ⟨rfl, rfl, ?_, ?_⟩
  · intro hd
    simp [hd]
  · intro hd he
    simp [hd, he]

/-- A rocket that is not done after its update prolongs the flight by one tick. -/
theorem FliesThenExplodes.step (M : JSMath α) (s : FireworksCanvas α) (r : Rocket α)
    (hs : s.rockets = [r]) (T : α) (ht : r.targetY = T) (hy : T < r.y)
    (hd : rocketDone (stepRocket s.height s.gravity r) = false)
    (N : Nat) (c : ExplosionCall α) (h : FliesThenExplodes M (updateRockets M s) T N c) :
    FliesThenExplodes M s T (N + 1) c := by
  obtain ⟨_, _, h3, _⟩ := updateRockets_single M s r hs
  obtain ⟨_, hlog⟩ := h3 hd
  obtain ⟨hA, hB⟩ := h
  constructor
  · intro k hk
    cases k with
    | zero => exact ⟨r, hs, ht, hy, rfl⟩
    | succ k =>
      obtain ⟨r', h1, h2, h2', h3⟩ := hA k (by omega)
      exact ⟨r', by rw [Function.iterate_succ_apply, h1], h2, h2',
        by rw [Function.iterate_succ_apply, h3, hlog]⟩
  · intro k hk
    obtain ⟨k, rfl⟩ : ∃ j, k = j + 1 := ⟨k - 1, by omega⟩
    obtain ⟨h1, h2⟩ := hB k (by omega)
    exact ⟨by rw [Function.iterate_succ_apply, h1],
      by rw [Function.iterate_succ_apply, h2, hlog]⟩

/-- A rocket that is done after its update explodes in this tick. -/
theorem FliesThenExplodes.done (M : JSMath α) (s : FireworksCanvas α) (r : Rocket α)
    (hs : s.rockets = [r]) (T : α) (ht : r.targetY = T) (hy : T < r.y)
    (hd : rocketDone (stepRocket s.height s.gravity r) = true)
    (he : (stepRocket s.height s.gravity r).exploded = false) :
    FliesThenExplodes M s T 1 (stepRocket s.height s.gravity r).explosion := by
  obtain ⟨_, _, _, h4⟩ := updateRockets_single M s r hs
  obtain ⟨hr, hlog⟩ := h4 hd he
  constructor
  · intro k hk
    obtain rfl : k = 0 := by omega
    exact ⟨r, hs, ht, hy, rfl⟩
  · intro k hk
    obtain ⟨k, rfl⟩ : ∃ j, k = j + 1 := ⟨k - 1, by omega⟩
    rw [Function.iterate_succ_apply, updateRockets_iterate_nil M _ hr]
    exact ⟨hr, hlog⟩

/-! ## The ascent towards `targetY = 50` on a canvas of height 600 -/

theorem stepRocket_fields (H g : α) (r : Rocket α) :
    (stepRocket H g r).y = r.y + r.vy ∧ (stepRocket H g r).targetY = r.targetY ∧
    (stepRocket H g r).exploded = r.exploded ∧
    (stepRocket H g r).vy = (r.vy + g * 1) *
      (1 - (1 - max 0 (min 1 ((r.y - r.targetY) / (H * 0.5)))) * 0.15) :=
  ⟨rfl, rfl, rfl, rfl⟩

theorem stepRocket_vy_far (r : Rocket ℚ) (ht : r.targetY = 50) (hd : 300 ≤ r.y - 50) :
    (stepRocket 600 0.05 r).vy = r.vy + 1 / 20 := by
  rw [(stepRocket_fields 600 0.05 r).2.2.2, ht]
  have h1 : (1 : ℚ) ≤ (r.y - 50) / (600 * 0.5) := by
    rw [le_div_iff₀ (by norm_num)]
    linarith
  rw [min_eq_left h1, max_eq_right (by norm_num)]
  norm_num

theorem stepRocket_vy_near (r : Rocket ℚ) (ht : r.targetY = 50) (h0 : 0 ≤ r.y - 50)
    (hd : r.y - 50 ≤ 300) :
    (stepRocket 600 0.05 r).vy = (r.vy + 1 / 20) * (17 / 20 + 1 / 2000 * (r.y - 50)) := by
  rw [(stepRocket_fields 600 0.05 r).2.2.2, ht]
  have h1 : (r.y - 50) / (600 * 0.5) ≤ 1 := by
    rw [div_le_iff₀ (by norm_num)]
    linarith
  have h2 : (0 : ℚ) ≤ (r.y - 50) / (600 * 0.5) := div_nonneg h0 (by norm_num)
  rw [min_eq_right h1, max_eq_right h2]
  ring

/-- The arithmetic of one tick far from the target (`d ≥ 300`): no deceleration. -/
theorem ascent_arith_far (d u : ℚ) (hd : 300 ≤ d) (hu : u ≤ 20) :
    u - 1 / 20 ≤ 29 / 200 * min (d - u) 300 - 1 / 4000 * (min (d - u) 300) ^ 2 - 1 := by
  rcases le_total 300 (d - u) with hd' | hd'
  · rw [min_eq_right hd']
    linarith
  · rw [min_eq_left hd']
    have h280 : 0 ≤ d - u - 280 := by linarith
    have h300 : 0 ≤ 300 - (d - u) := by linarith
    nlinarith [mul_nonneg h280 h300]

/-- The arithmetic of one tick near the target (`0 < d ≤ 300`): the bound on the upward
speed `u` is kept by `d ↦ d - u`, `u ↦ (u - 1/20) (17/20 + d/2000)`. -/
theorem ascent_arith_near (d u : ℚ) (hu0 : 0 ≤ u) (hu : u ≤ 20)
    (hpsi : u ≤ 29 / 200 * d - 1 / 4000 * d ^ 2 - 1) (hm0 : 0 ≤ 17 / 20 + 1 / 2000 * d) :
    (u - 1 / 20) * (17 / 20 + 1 / 2000 * d)
      ≤ 29 / 200 * (d - u) - 1 / 4000 * (d - u) ^ 2 - 1 := by
  have hkey : (u - 1 / 20) * (17 / 20 + 1 / 2000 * d)
      - (29 / 200 * (d - u) - 1 / 4000 * (d - u) ^ 2 - 1)
      = (u - (29 / 200 * d - 1 / 4000 * d ^ 2 - 1))
        + (1 / 4000 * (u * (u - 20)) - 1 / 20 * (17 / 20 + 1 / 2000 * d)) := by
    ring
  have hneg : u * (u - 20) ≤ 0 := by nlinarith
  linarith

theorem ascent_step (r : Rocket ℚ) (h : ascentInv r) :
    50 < (stepRocket 600 0.05 r).y ∧
    (stepRocket 600 0.05 r).exploded = false ∧
    (rocketDone (stepRocket 600 0.05 r) = true → 0 < (stepRocket 600 0.05 r).vy) ∧
    (rocketDone (stepRocket 600 0.05 r) = false →
      ascentInv (stepRocket 600 0.05 r) ∧ -(stepRocket 600 0.05 r).vy ≤ -r.vy - 1 / 20) := by
  obtain ⟨ht, hy, hv20, hv0, hexp, hpsi⟩ := h
  obtain ⟨ey, et, ee, _⟩ := stepRocket_fields 600 0.05 r
  have hy' : 50 < r.y + r.vy := by
    rcases le_total 300 (r.y - 50) with hd | hd
    · linarith
    · rw [min_eq_left hd] at hpsi
      nlinarith [sq_nonneg (r.y - 50)]
  have hdone : rocketDone (stepRocket 600 0.05 r) = true → 0 < (stepRocket 600 0.05 r).vy := by
    intro hd
    simp only [rocketDone, Bool.or_eq_true, decide_eq_true_eq, et, ht, ey] at hd
    rcases hd with hd | hd
    · linarith
    · exact hd
  refine ⟨by rw [ey]; exact hy', by rw [ee, hexp], hdone, ?_⟩
  intro hnd
  simp only [rocketDone, Bool.or_eq_false_iff, decide_eq_false_iff_not, not_le, not_lt,
    et, ht] at hnd
  obtain ⟨_, hv'⟩ := hnd
  rcases le_total 300 (r.y - 50) with hd | hd
  · -- far from the target: no deceleration yet
    have evy := stepRocket_vy_far r ht hd
    rw [evy] at hv'
    have := ascent_arith_far (r.y - 50) (-r.vy) hd (by linarith)
    refine ⟨⟨by rw [et, ht], by rw [ey]; exact hy', by rw [evy]; linarith,
      by rw [evy]; exact hv', by rw [ee, hexp], ?_⟩, by rw [evy]; linarith⟩
    rw [evy, ey]
    have e1 : r.y + r.vy - 50 = r.y - 50 - -r.vy := by ring
    rw [e1]
    linarith
  · -- near the target: progressive deceleration
    have evy := stepRocket_vy_near r ht (by linarith) hd
    rw [min_eq_left hd] at hpsi
    have hm0 : (0 : ℚ) < 17 / 20 + 1 / 2000 * (r.y - 50) := by nlinarith
    have hm1 : (17 / 20 : ℚ) + 1 / 2000 * (r.y - 50) ≤ 1 := by nlinarith
    rw [evy] at hv'
    have hu : r.vy + 1 / 20 ≤ 0 := by
      by_contra hc
      push_neg at hc
      have := mul_pos hc hm0
      linarith
    have hge : r.vy + 1 / 20 ≤ (r.vy + 1 / 20) * (17 / 20 + 1 / 2000 * (r.y - 50)) := by
      nlinarith
    have := ascent_arith_near (r.y - 50) (-r.vy) (by linarith) (by linarith) hpsi hm0.le
    refine ⟨⟨by rw [et, ht], by rw [ey]; exact hy', by rw [evy]; linarith,
      by rw [evy]; exact hv', by rw [ee, hexp], ?_⟩, by rw [evy]; linarith⟩
    rw [evy, ey]
    have hd' : r.y + r.vy - 50 ≤ 300 := by linarith
    rw [min_eq_left hd']
    have e1 : r.y + r.vy - 50 = r.y - 50 - -r.vy := by ring
    have e2 : -((r.vy + 1 / 20) * (17 / 20 + 1 / 2000 * (r.y - 50)))
        = (-r.vy - 1 / 20) * (17 / 20 + 1 / 2000 * (r.y - 50)) := by ring
    rw [e1, e2]
    exact this

/-! ## The scenario rocket -/

theorem ascent_run (M : JSMath ℚ) :
    ∀ (n : Nat) (r : Rocket ℚ) (s : FireworksCanvas ℚ), ascentInv r → -r.vy ≤ (n : ℚ) / 20 →
      s.rockets = [r] → s.height = 600 → s.gravity = 0.05 →
      ∃ (N : Nat) (c : ExplosionCall ℚ), 1 ≤ N ∧ N ≤ n + 1 ∧ 50 < c.y ∧
        FliesThenExplodes M s 50 N c := by
  intro n
  induction n with
  | zero =>
    intro r s hinv hu hs hH hg
    obtain ⟨hy', he', hdone, hnot⟩ := ascent_step r hinv
    cases hd : rocketDone (stepRocket 600 0.05 r) with
    | true =>
      refine ⟨1, (stepRocket 600 0.05 r).explosion, le_refl _, by omega, hy', ?_⟩
      have := FliesThenExplodes.done M s r hs 50 hinv.1 hinv.2.1 (by rw [hH, hg]; exact hd)
        (by rw [hH, hg]; exact he')
      rw [hH, hg] at this
      exact this
    | false =>
      obtain ⟨hinv', hu'⟩ := hnot hd
      have := hinv'.2.2.2.1
      norm_num at hu
      linarith
  | succ n ih =>
    intro r s hinv hu hs hH hg
    obtain ⟨hy', he', hdone, hnot⟩ := ascent_step r hinv
    cases hd : rocketDone (stepRocket 600 0.05 r) with
    | true =>
      refine ⟨1, (stepRocket 600 0.05 r).explosion, le_refl _, by omega, hy', ?_⟩
      have := FliesThenExplodes.done M s r hs 50 hinv.1 hinv.2.1 (by rw [hH, hg]; exact hd)
        (by rw [hH, hg]; exact he')
      rw [hH, hg] at this
      exact this
    | false =>
      obtain ⟨hinv', hu'⟩ := hnot hd
      obtain ⟨h1, h2, h3, _⟩ := updateRockets_single M s r hs
      rw [hH, hg] at h3
      obtain ⟨hr', _⟩ := h3 hd
      have hu'' : -(stepRocket 600 0.05 r).vy ≤ (n : ℚ) / 20 := by
        push_cast at hu
        linarith
      obtain ⟨N, c, hN1, hN, hc, hrun⟩ := ih (stepRocket 600 0.05 r) (updateRockets M s)
        hinv' hu'' hr' (by rw [h1, hH]) (by rw [h2, hg])
      exact ⟨N + 1, c, by omega, by omega, hc,
        FliesThenExplodes.step M s r hs 50 hinv.1 hinv.2.1 (by rw [hH, hg]; exact hd) N c hrun⟩

theorem scenario_ascentInv (r : Rocket ℚ) (hy : r.y = 600) (hvy : r.vy = -20)
    (ht : r.targetY = 50) (he : r.exploded = false) : ascentInv r := by
  refine ⟨ht, by rw [hy]; norm_num, by rw [hvy], by rw [hvy]; norm_num, he, ?_⟩
  rw [hy, hvy]
  norm_num

/-- C10 (as amended): the rocket with `targetY = 50`, `y = 600`, `vy = -20` on a canvas
of height 600 under gravity `0.05` stays in the collection with `y > 50` for `N - 1`
ticks, `1 ≤ N ≤ 401`; in tick `N` it is removed and `createExplosion` is called exactly
once, at a point with `y > 50`; afterwards nothing more happens. -/
theorem scenario_explodes_short_of_target (M : JSMath ℚ) (s : FireworksCanvas ℚ)
    (r : Rocket ℚ) (hs : s.rockets = [r]) (hH : s.height = 600) (hg : s.gravity = 0.05)
    (hy : r.y = 600) (hvy : r.vy = -20) (ht : r.targetY = 50) (he : r.exploded = false) :
    ∃ (N : Nat) (c : ExplosionCall ℚ), 1 ≤ N ∧ N ≤ 401 ∧ 50 < c.y ∧
      FliesThenExplodes M s 50 N c :=
  ascent_run M 400 r s (scenario_ascentInv r hy hvy ht he) (by rw [hvy]; norm_num) hs hH hg

theorem scenario_explodes_short_of_target_witness :
    ∃ (N : Nat) (c : ExplosionCall ℚ), 1 ≤ N ∧ N ≤ 401 ∧ 50 < c.y ∧
      FliesThenExplodes ratMath sampleEngine 50 N c :=
  scenario_explodes_short_of_target ratMath sampleEngine sampleRocket rfl rfl rfl rfl rfl rfl rfl

theorem scenario_positions (k : Nat) :
    (∀ r ∈ ((updateRockets ratMath)^[k] sampleEngine).rockets, 50 < r.y) ∧
    (∀ c ∈ ((updateRockets ratMath)^[k] sampleEngine).explosionLog, 50 < c.y) := by
  obtain ⟨N, c, _, _, hc, hA, hB⟩ := ascent_run ratMath 400 sampleRocket sampleEngine
    (scenario_ascentInv sampleRocket rfl rfl rfl rfl)
    (by norm_num [sampleRocket]) rfl rfl rfl
  have hlog : sampleEngine.explosionLog = [] := rfl
  rcases Nat.lt_or_ge k N with hk | hk
  · obtain ⟨r, h1, _, h2, h3⟩ := hA k hk
    rw [h1, h3, hlog]
    simp [h2]
  · obtain ⟨h1, h2⟩ := hB k hk
    rw [h1, h2, hlog]
    simp [hc]

/-- C10 (as stated, refuted): in the run of the scenario rocket there is no tick after
which a rocket with `y ≤ 50` is in the collection or an explosion has been generated at
a point with `y ≤ 50`: the rocket never reaches its target altitude. -/
theorem scenario_never_reaches_target :
    ¬ ∃ k : Nat,
      (∃ r ∈ ((updateRockets ratMath)^[k] sampleEngine).rockets, r.y ≤ 50) ∨
      (∃ c ∈ ((updateRockets ratMath)^[k] sampleEngine).explosionLog, c.y ≤ 50) := by
  rintro ⟨k, ⟨r, hr, hy⟩ | ⟨c, hc, hy⟩⟩
  · exact absurd ((scenario_positions k).1 r hr) (not_lt.mpr hy)
  · exact absurd ((scenario_positions k).2 c hc) (not_lt.mpr hy)

/-! ## Repeated `start` -/

theorem animate_host (M : JSMath α) (s : FireworksCanvas α) (hact : s.active = true) :
    (animate M s).intervals = s.intervals ∧
    (animate M s).frames = s.frames ++ [s.nextHandle] ∧
    (animate M s).nextHandle = s.nextHandle + 1 ∧
    (animate M s).animationFrame = some s.nextHandle ∧
    (animate M s).launchInterval = s.launchInterval ∧
    (animate M s).active = true := by
  obtain ⟨ps, k, h⟩ := updateRockets_eq M s
  unfold animate
  simp only [hact, Bool.not_true, Bool.false_eq_true, if_false]
  rw [updateParticles_eq, h]
  simp [draw, hact]

theorem start_host (M : JSMath α) (s : FireworksCanvas α) :
    (start M s).intervals = s.intervals ++ [s.nextHandle + 1] ∧
    (start M s).frames = s.frames ++ [s.nextHandle] ∧
    (start M s).nextHandle = s.nextHandle + 2 ∧
    (start M s).animationFrame = some s.nextHandle ∧
    (start M s).launchInterval = some (s.nextHandle + 1) ∧
    (start M s).active = true := by
  obtain ⟨h1, h2, h3, h4, h5, h6⟩ :=
    animate_host M { s with active := true, display := "block" } rfl
  unfold start
  simp only [h1, h2, h3, h4, h6]
  exact ⟨trivial, trivial, trivial, trivial, trivial, trivial⟩

/-- C7 (as amended): `start()` is not idempotent.  Every call registers one more spawn
timer and one more frame request with the host and stores the new handles; after two
calls in a row two new spawn timers are live and two frames are pending, the engine
holds the handles of the second pair only, and a following `stop()` leaves the first of
the two timers registered. -/
theorem start_registers_new_timers (M : JSMath α) (s : FireworksCanvas α) :
    (start M s).intervals = s.intervals ++ [s.nextHandle + 1] ∧
    (start M s).frames = s.frames ++ [s.nextHandle] ∧
    (start M s).launchInterval = some (s.nextHandle + 1) ∧
    (start M s).animationFrame = some s.nextHandle ∧
    (start M (start M s)).intervals = s.intervals ++ [s.nextHandle + 1, s.nextHandle + 3] ∧
    (start M (start M s)).frames = s.frames ++ [s.nextHandle, s.nextHandle + 2] ∧
    (start M (start M s)).launchInterval = some (s.nextHandle + 3) ∧
    (start M (start M s)).animationFrame = some (s.nextHandle + 2) ∧
    s.nextHandle + 1 ∈ (stop (start M (start M s))).intervals := by
  obtain ⟨h1, h2, h3, h4, h5, _⟩ := start_host M s
  obtain ⟨k1, k2, k3, k4, k5, _⟩ := start_host M (start M s)
  rw [h1, h3] at k1
  rw [h2, h3] at k2
  rw [h3] at k4 k5
  refine ⟨h1, h2, h5, h4, by simpa using k1, by simpa using k2, k5, k4, ?_⟩
  simp only [stop, k4, k5, k1]
  simp

/-- C7 (as stated, refuted): on a fresh engine the second `start()` does not leave the
scheduling state of the first: two spawn timers are live instead of one, two frames are
pending instead of one. -/
theorem start_twice_two_timers :
    (start ratMath (FireworksCanvas.init 800 600 (fun _ => 1 / 2))).intervals = [2] ∧
    (start ratMath (FireworksCanvas.init 800 600 (fun _ => 1 / 2))).frames = [1] ∧
    (start ratMath (start ratMath (FireworksCanvas.init 800 600 (fun _ => 1 / 2)))).intervals
      = [2, 4] ∧
    (start ratMath (start ratMath (FireworksCanvas.init 800 600 (fun _ => 1 / 2)))).frames
      = [1, 3] := by
  simp [start, animate, updateRockets, updateRocketsFrom, updateParticles,
    updateParticlesFrom, draw, colorKeys, FireworksCanvas.init]

/-! ## The deceleration profile -/

theorem progressRatio_bounds (H : α) (r : Rocket α) :
    0 ≤ progressRatio H r ∧ progressRatio H r ≤ 1 :=
  ⟨le_max_left _ _, max_le zero_le_one (min_le_left _ _)⟩

theorem progressRatio_mono (H : α) (hH : 0 < H) (r1 r2 : Rocket α)
    (h : r1.y - r1.targetY ≤ r2.y - r2.targetY) :
    progressRatio H r1 ≤ progressRatio H r2 := by
  have hpos : (0 : α) < H * 0.5 := by norm_num; exact hH
  exact max_le_max (le_refl _) (min_le_min (le_refl _) (div_le_div_of_nonneg_right h hpos.le))

theorem progressRatio_at_target (H : α) (hH : 0 < H) (r : Rocket α)
    (h : r.y - r.targetY ≤ 0) : progressRatio H r = 0 := by
  have hpos : (0 : α) < H * 0.5 := by norm_num; exact hH
  have h1 : (r.y - r.targetY) / (H * 0.5) ≤ 0 := div_nonpos_of_nonpos_of_nonneg h hpos.le
  exact max_eq_left (le_trans (min_le_right _ _) h1)

theorem progressRatio_far (H : α) (hH : 0 < H) (r : Rocket α)
    (h : H / 2 ≤ r.y - r.targetY) : progressRatio H r = 1 := by
  have hpos : (0 : α) < H * 0.5 := by norm_num; exact hH
  have h1 : 1 ≤ (r.y - r.targetY) / (H * 0.5) := by
    rw [le_div_iff₀ hpos]
    norm_num
    linarith
  unfold progressRatio
  simp only
  rw [min_eq_left h1]
  exact max_eq_right zero_le_one

/-- C11: on a canvas of height `H > 0` the tick's `progressRatio` lies in `[0, 1]` and
`deceleration = (1 - progressRatio) * 0.15` in `[0, 0.15]`; it is the factor applied to
`vy`, it does not increase when the distance `y - targetY` grows, it is `0.15` at or
above the target and `0` at distance at least `H / 2`, which holds for the rocket that
`launchRocket` has just pushed. -/
theorem deceleration_profile (H : α) (hH : 0 < H) :
    (∀ r : Rocket α, 0 ≤ progressRatio H r ∧ progressRatio H r ≤ 1 ∧
        0 ≤ deceleration H r ∧ deceleration H r ≤ 0.15) ∧
    (∀ (g : α) (r : Rocket α),
        (stepRocket H g r).vy = (r.vy + g * 1) * (1 - deceleration H r)) ∧
    (∀ r1 r2 : Rocket α, r1.y - r1.targetY ≤ r2.y - r2.targetY →
        deceleration H r2 ≤ deceleration H r1) ∧
    (∀ r : Rocket α, r.y - r.targetY ≤ 0 → deceleration H r = 0.15) ∧
    (∀ r : Rocket α, H / 2 ≤ r.y - r.targetY → deceleration H r = 0) ∧
    (∀ s : FireworksCanvas α, s.height = H → s.rnd (s.cursor + 1) < 1 →
        ∀ r : Rocket α, (launchRocket s).rockets.getLast? = some r →
          H / 2 ≤ r.y - r.targetY ∧ deceleration H r = 0) := by
  have h15 : (0 : α) < 0.15 := by norm_num
  have hfar : ∀ r : Rocket α, H / 2 ≤ r.y - r.targetY → deceleration H r = 0 := by
    intro r h
    simp [deceleration, progressRatio_far H hH r h]
  refine ⟨?_, fun _ _ => rfl, ?_, ?_, hfar, ?_⟩
  · intro r
    obtain ⟨h0, h1⟩ := progressRatio_bounds H r
    refine ⟨h0, h1, mul_nonneg (by linarith) h15.le, ?_⟩
    unfold deceleration
    nlinarith
  · intro r1 r2 h
    have := progressRatio_mono H hH r1 r2 h
    unfold deceleration
    nlinarith
  · intro r h
    simp [deceleration, progressRatio_at_target H hH r h]
  · intro s hs hr r hlast
    have hr' : r.y = s.height ∧
        r.targetY = s.rnd (s.cursor + 1) * s.height * 0.1 + s.height * 0.01 := by
      simp only [launchRocket, List.getLast?_append, List.getLast?_singleton,
        Option.or_some, Option.some.injEq] at hlast
      rw [← hlast]
      exact ⟨rfl, rfl⟩
    have hd : H / 2 ≤ r.y - r.targetY := by
      rw [hr'.1, hr'.2, hs]
      norm_num
      nlinarith
    exact ⟨hd, hfar r hd⟩

theorem deceleration_profile_witness :
    (0 : ℚ) < 600 ∧ deceleration 600 sampleRocket = 0 ∧
    deceleration 600 { sampleRocket with y := 50 } = 0.15 :=
  ⟨by norm_num,
   (deceleration_profile (600 : ℚ) (by norm_num)).2.2.2.2.1 sampleRocket
     (by norm_num [sampleRocket]),
   (deceleration_profile (600 : ℚ) (by norm_num)).2.2.2.1 { sampleRocket with y := 50 }
     (by norm_num [sampleRocket])⟩

/-! ## Removal at the apex -/

theorem updateRockets_mem (M : JSMath α) (s : FireworksCanvas α) (r' : Rocket α) :
    r' ∈ (updateRockets M s).rockets ↔
      ∃ r ∈ s.rockets, stepRocket s.height s.gravity r = r' ∧ rocketDone r' = false := by
  obtain ⟨ps, k, h⟩ := updateRockets_eq M s
  rw [h]
  simp only [List.mem_filter, List.mem_map, Bool.not_eq_true']
  constructor
  · rintro ⟨⟨r, hr, rfl⟩, hd⟩
    exact ⟨r, hr, rfl, hd⟩
  · rintro ⟨r, hr, rfl, hd⟩
    exact ⟨⟨r, hr, rfl⟩, hd⟩

/-- C12 (as amended): a rocket whose `vy` after the tick's velocity update is strictly
positive is removed by `updateRockets` in that tick, whether or not it has reached its
target; a rocket whose updated `vy` is `≤ 0` (in particular exactly `0`) and whose
updated `y` is still greater than `targetY` stays in the collection. -/
theorem rocket_removed_when_falling (M : JSMath α) (s : FireworksCanvas α) (r : Rocket α)
    (hr : r ∈ s.rockets) :
    (0 < (stepRocket s.height s.gravity r).vy →
      stepRocket s.height s.gravity r ∉ (updateRockets M s).rockets) ∧
    ((stepRocket s.height s.gravity r).vy ≤ 0 →
      (stepRocket s.height s.gravity r).targetY < (stepRocket s.height s.gravity r).y →
      stepRocket s.height s.gravity r ∈ (updateRockets M s).rockets) := by
  constructor
  · intro hv hmem
    obtain ⟨_, _, _, hd⟩ := (updateRockets_mem M s _).mp hmem
    simp only [rocketDone, Bool.or_eq_false_iff, decide_eq_false_iff_not, not_lt] at hd
    exact absurd hv (not_lt.mpr hd.2)
  · intro hv hy
    refine (updateRockets_mem M s _).mpr ⟨r, hr, rfl, ?_⟩
    simp only [rocketDone, Bool.or_eq_false_iff, decide_eq_false_iff_not, not_lt, not_le]
    exact ⟨hy, hv⟩

theorem rocket_removed_when_falling_witness :
    sampleRocket ∈ sampleEngine.rockets ∧
    stepRocket sampleEngine.height sampleEngine.gravity sampleRocket
      ∈ (updateRockets ratMath sampleEngine).rockets :=
  ⟨by simp [sampleEngine],
   (rocket_removed_when_falling ratMath sampleEngine sampleRocket
      (by simp [sampleEngine])).2
      (by norm_num [stepRocket, sampleRocket, sampleEngine, FireworksCanvas.init])
      (by norm_num [stepRocket, sampleRocket, sampleEngine, FireworksCanvas.init])⟩

/-- C12 (as stated, refuted): the rocket at `y = 600` with `vy = -0.05` and
`targetY = 50` on the canvas of height 600 has `vy = 0`, which is non-negative, after its
update, and it is still in the collection after the tick. -/
theorem rocket_with_zero_vy_stays :
    (stepRocket 600 0.05 { sampleRocket with vy := -0.05 }).vy = 0 ∧
    (0 : ℚ) ≤ (stepRocket 600 0.05 { sampleRocket with vy := -0.05 }).vy ∧
    (updateRockets ratMath
      { sampleEngine with rockets := [{ sampleRocket with vy := -0.05 }] }).rockets
      = [stepRocket 600 0.05 { sampleRocket with vy := -0.05 }] := by
  have hv : (stepRocket 600 0.05 { sampleRocket with vy := -0.05 }).vy = 0 := by
    norm_num [stepRocket, sampleRocket]
  refine ⟨hv, hv.ge, ?_⟩
  have h := (updateRockets_single ratMath
    { sampleEngine with rockets := [{ sampleRocket with vy := -0.05 }] }
    { sampleRocket with vy := -0.05 } rfl).2.2.1
  have hH : ({ sampleEngine with rockets := [{ sampleRocket with vy := -0.05 }] }
      : FireworksCanvas ℚ).height = 600 := rfl
  have hg : ({ sampleEngine with rockets := [{ sampleRocket with vy := -0.05 }] }
      : FireworksCanvas ℚ).gravity = 0.05 := rfl
  rw [hH, hg] at h
  refine (h ?_).1
  simp only [rocketDone, Bool.or_eq_false_iff, decide_eq_false_iff_not, not_lt, not_le, hv]
  norm_num [stepRocket, sampleRocket]

/-! ## Fill colours -/

set_option maxRecDepth 100000 in
theorem hexByte_nat (n : Nat) (h : n < 256) :
    isHexPair (hexByte (n : ℤ)) = true ∧ hexValue (hexByte (n : ℤ)) = n := by
  revert n
  decide

theorem palette_hex : ∀ c ∈ palette ++ heartColors, isHexColor c = true := by
  decide

theorem hexByte_int (v : ℤ) (h0 : 0 ≤ v) (h1 : v ≤ 255) :
    isHexPair (hexByte v) = true ∧ (hexValue (hexByte v) : ℤ) = v := by
  obtain ⟨n, rfl⟩ := Int.eq_ofNat_of_zero_le h0
  obtain ⟨h2, h3⟩ := hexByte_nat n (by omega)
  exact ⟨h2, by rw [h3]⟩

theorem colorKeys_foldl_mem (ps : List (Particle α)) :
    ∀ (keys : List String) (c : String),
      c ∈ ps.foldl (fun keys p => if p.color ∈ keys then keys else keys ++ [p.color]) keys ↔
        c ∈ keys ∨ ∃ p ∈ ps, p.color = c := by
  induction ps with
  | nil => intro keys c; simp
  | cons p ps ih =>
    intro keys c
    rw [List.foldl_cons, ih]
    by_cases hp : p.color ∈ keys
    · simp only [hp, if_true, List.mem_cons, exists_eq_or_imp]
      constructor
      · rintro (h | h)
        · exact Or.inl h
        · exact Or.inr (Or.inr h)
      · rintro (h | h | h)
        · exact Or.inl h
        · exact Or.inl (h ▸ hp)
        · exact Or.inr h
    · simp only [hp, if_false, List.mem_append, List.mem_singleton, List.mem_cons,
        exists_eq_or_imp, List.not_mem_nil, or_false]
      constructor
      · rintro ((h | h) | h)
        · exact Or.inl h
        · exact Or.inr (Or.inl h.symm)
        · exact Or.inr (Or.inr h)
      · rintro (h | h | h)
        · exact Or.inl (Or.inl h)
        · exact Or.inl (Or.inr h.symm)
        · exact Or.inr h

theorem mem_draw_surface (s : FireworksCanvas α) (op : DrawOp α) :
    op ∈ (draw s).surface ↔
      (∃ r ∈ s.rockets, op ∈ drawRocket r) ∨ (∃ p ∈ s.particles, op ∈ drawParticle p) := by
  simp only [draw, List.mem_append, List.mem_flatMap, List.mem_filter, decide_eq_true_eq,
    colorKeys, colorKeys_foldl_mem, List.not_mem_nil, false_or]
  constructor
  · rintro (h | ⟨c, _, p, ⟨hp, _⟩, hop⟩)
    · exact Or.inl h
    · exact Or.inr ⟨p, hp, hop⟩
  · rintro (h | ⟨p, hp, hop⟩)
    · exact Or.inl h
    · exact Or.inr ⟨p.color, ⟨p, hp, rfl⟩, p, ⟨hp, rfl⟩, hop⟩

theorem alpha_byte_range (a : α) (h0 : 0 ≤ a) (h1 : a ≤ 1) :
    0 ≤ ⌊a * 255⌋ ∧ ⌊a * 255⌋ ≤ 255 := by
  refine ⟨Int.floor_nonneg.mpr (by positivity), ?_⟩
  have : ⌊a * 255⌋ < 256 := by
    rw [Int.floor_lt]
    push_cast
    linarith
  omega

theorem trailAlpha_range (a : α) (h0 : 0 ≤ a) (h1 : a ≤ 1) (index len : Nat)
    (h : index < len) : 0 ≤ ((index : α) / (len : α)) * a ∧ ((index : α) / (len : α)) * a ≤ 1 := by
  have hlen : (0 : α) < (len : α) := by exact_mod_cast (by omega : 0 < len)
  have hq0 : (0 : α) ≤ (index : α) / (len : α) := by positivity
  have hq1 : (index : α) / (len : α) ≤ 1 := by
    rw [div_le_one hlen]
    exact_mod_cast h.le
  exact ⟨mul_nonneg hq0 h0, by nlinarith⟩

theorem mem_drawParticle (p : Particle α) (op : DrawOp α) :
    op ∈ drawParticle p ↔
      op = DrawOp.disc (p.color ++ hexByte ⌊p.alpha * 255⌋) p.x p.y p.size 40 (some p.color) ∨
      ∃ (index : Nat) (pos : TrailPt α), p.trail.get? index = some pos ∧
        op = DrawOp.disc
          (p.color ++ hexByte ⌊((index : α) / (p.trail.length : α)) * p.alpha * 255⌋)
          pos.x pos.y
          (p.size * (0.6 + ((index : α) / (p.trail.length : α)) * p.alpha * 0.4)) 0 none := by
  simp only [drawParticle, List.mem_append, List.mem_map, List.mem_singleton, Prod.exists,
    List.mk_mem_enum_iff_get?, drawTrailPt]
  constructor
  · rintro (⟨i, pos, h, rfl⟩ | h)
    · exact Or.inr ⟨i, pos, h, rfl⟩
    · exact Or.inl h
  · rintro (h | ⟨i, pos, h, rfl⟩)
    · exact Or.inr h
    · exact Or.inl ⟨i, pos, h, rfl⟩

/-- C13: every colour of the palette and of the heart palette is `#` and six hex digits.
For a particle of the collection with `0 < alpha ≤ 1`, `draw` paints the particle with
fill colour `color ++ hh` where `hh` is two hex digits writing `⌊alpha * 255⌋`, and trail
entry `index` with `color ++ hh` where `hh` is two hex digits writing
`⌊(index / trail.length) * alpha * 255⌋`; both numbers are within `0..255`, and nothing
else is painted for the particle. -/
theorem draw_fill_colours (s : FireworksCanvas α) :
    (∀ c ∈ palette ++ heartColors, isHexColor c = true) ∧
    (∀ p ∈ s.particles, 0 < p.alpha → p.alpha ≤ 1 →
      (DrawOp.disc (p.color ++ hexByte ⌊p.alpha * 255⌋) p.x p.y p.size 40 (some p.color)
          ∈ (draw s).surface ∧
        0 ≤ ⌊p.alpha * 255⌋ ∧ ⌊p.alpha * 255⌋ ≤ 255 ∧
        isHexPair (hexByte ⌊p.alpha * 255⌋) = true ∧
        (hexValue (hexByte ⌊p.alpha * 255⌋) : ℤ) = ⌊p.alpha * 255⌋) ∧
      (∀ (index : Nat) (pos : TrailPt α), p.trail.get? index = some pos →
        DrawOp.disc
            (p.color ++ hexByte ⌊((index : α) / (p.trail.length : α)) * p.alpha * 255⌋)
            pos.x pos.y
            (p.size * (0.6 + ((index : α) / (p.trail.length : α)) * p.alpha * 0.4)) 0 none
          ∈ (draw s).surface ∧
        0 ≤ ⌊((index : α) / (p.trail.length : α)) * p.alpha * 255⌋ ∧
        ⌊((index : α) / (p.trail.length : α)) * p.alpha * 255⌋ ≤ 255 ∧
        isHexPair (hexByte ⌊((index : α) / (p.trail.length : α)) * p.alpha * 255⌋) = true ∧
        (hexValue (hexByte ⌊((index : α) / (p.trail.length : α)) * p.alpha * 255⌋) : ℤ)
          = ⌊((index : α) / (p.trail.length : α)) * p.alpha * 255⌋) ∧
      (∀ op ∈ drawParticle p,
        op = DrawOp.disc (p.color ++ hexByte ⌊p.alpha * 255⌋) p.x p.y p.size 40
              (some p.color) ∨
        ∃ (index : Nat) (pos : TrailPt α), p.trail.get? index = some pos ∧
          op = DrawOp.disc
            (p.color ++ hexByte ⌊((index : α) / (p.trail.length : α)) * p.alpha * 255⌋)
            pos.x pos.y
            (p.size * (0.6 + ((index : α) / (p.trail.length : α)) * p.alpha * 0.4))
            0 none)) ∧
    (∀ op ∈ (draw s).surface,
      (∃ r ∈ s.rockets, op ∈ drawRocket r) ∨ (∃ p ∈ s.particles, op ∈ drawParticle p)) := by
  refine ⟨palette_hex, ?_, fun op h => (mem_draw_surface s op).mp h⟩
  intro p hp h0 h1
  refine ⟨?_, ?_, fun op h => (mem_drawParticle p op).mp h⟩
  · obtain ⟨hv0, hv1⟩ := alpha_byte_range p.alpha h0.le h1
    obtain ⟨hx1, hx2⟩ := hexByte_int _ hv0 hv1
    exact ⟨(mem_draw_surface s _).mpr (Or.inr ⟨p, hp, (mem_drawParticle p _).mpr (Or.inl rfl)⟩),
      hv0, hv1, hx1, hx2⟩
  · intro index pos hpos
    have hlt : index < p.trail.length := by
      rw [List.get?_eq_some] at hpos
      exact hpos.1
    obtain ⟨ht0, ht1⟩ := trailAlpha_range p.alpha h0.le h1 index p.trail.length hlt
    obtain ⟨hv0, hv1⟩ := alpha_byte_range _ ht0 ht1
    obtain ⟨hx1, hx2⟩ := hexByte_int _ hv0 hv1
    exact ⟨(mem_draw_surface s _).mpr
      (Or.inr ⟨p, hp, (mem_drawParticle p _).mpr (Or.inr ⟨index, pos, hpos, rfl⟩)⟩),
      hv0, hv1, hx1, hx2⟩

/-! ## Speeds of the other shapes -/

theorem velocity_magnitude (a sp : ℝ) (h : 0 ≤ sp) :
    Real.sqrt ((Real.cos a * sp) ^ 2 + (Real.sin a * sp) ^ 2) = sp := by
  have e : (Real.cos a * sp) ^ 2 + (Real.sin a * sp) ^ 2 = sp ^ 2 := by
    have := Real.sin_sq_add_cos_sq a
    nlinarith
  rw [e, Real.sqrt_sq h]

theorem explosionShape_speed_nonneg (rnd : Nat → ℝ) (hr : ∀ k, 0 ≤ rnd k ∧ rnd k < 1)
    (et n : ℤ) (i k : Nat) : 0 ≤ (explosionShape realMath rnd et n i k).1.2 := by
  have h0 := (hr k).1
  have h1 := (hr (k + 1)).1
  unfold explosionShape
  split_ifs
  · simp only; linarith
  · simp only; linarith
  · simp only [realMath]
    exact mul_nonneg (Real.sqrt_nonneg _) (by norm_num)
  · simp only
    split_ifs <;> linarith
  · simp only; linarith

/-- C14: without `forceHeart` and with every draw in `[0, 1)`, particle `i` of the `n`
particles has velocity `(cos angle * speed, sin angle * speed)` of magnitude `speed`,
where for Circle (type 0) `angle = 2πi/n` and `speed ∈ [3, 6)`, for Ring (type 1)
`angle = 2πi/n` and `speed ∈ [5, 6)`, for Star (type 3) `angle = 2π(i mod 10)/10` and
`speed ∈ [5, 6)` on even, `[2, 3)` on odd slots, and for the Random burst (types 4
and 5) `speed ∈ [2, 6)`. -/
theorem shape_speeds (s : FireworksCanvas ℝ) (x0 y0 : ℝ) (color : String)
    (hr : ∀ k, 0 ≤ s.rnd k ∧ s.rnd k < 1) (i : Nat)
    (hi : i < (⌊s.rnd s.cursor * 20⌋ + 30).toNat) :
    ∃ (p : Particle ℝ) (angle speed : ℝ),
      (createExplosion realMath s x0 y0 color false).particles.get? (s.particles.length + i)
        = some p ∧
      p.vx = Real.cos angle * speed ∧ p.vy = Real.sin angle * speed ∧
      Real.sqrt (p.vx ^ 2 + p.vy ^ 2) = speed ∧
      (⌊s.rnd (s.cursor + 1) * 6⌋ = 0 →
        angle = 2 * Real.pi * i / (⌊s.rnd s.cursor * 20⌋ + 30 : ℤ) ∧ 3 ≤ speed ∧ speed < 6) ∧
      (⌊s.rnd (s.cursor + 1) * 6⌋ = 1 →
        angle = 2 * Real.pi * i / (⌊s.rnd s.cursor * 20⌋ + 30 : ℤ) ∧ 5 ≤ speed ∧ speed < 6) ∧
      (⌊s.rnd (s.cursor + 1) * 6⌋ = 3 →
        angle = 2 * Real.pi * ((i % 10 : ℕ) : ℝ) / 10 ∧
        (i % 10 % 2 = 0 → 5 ≤ speed ∧ speed < 6) ∧
        (i % 10 % 2 = 1 → 2 ≤ speed ∧ speed < 3)) ∧
      (⌊s.rnd (s.cursor + 1) * 6⌋ = 4 ∨ ⌊s.rnd (s.cursor + 1) * 6⌋ = 5 →
        2 ≤ speed ∧ speed < 6) := by
  obtain ⟨ps, k, hlen, hget, heq⟩ := createExplosion_eq realMath s x0 y0 color false
  obtain ⟨k', hk'⟩ := hget i (hlen ▸ hi)
  simp only [Bool.false_eq_true, if_false] at hk'
  set n : ℤ := ⌊s.rnd s.cursor * 20⌋ + 30 with hn
  set et : ℤ := ⌊s.rnd (s.cursor + 1) * 6⌋ with het
  have hsp := explosionShape_speed_nonneg s.rnd hr et n i k'
  obtain ⟨a0, a1⟩ := hr k'
  obtain ⟨b0, b1⟩ := hr (k' + 1)
  refine ⟨newParticle realMath s.rnd x0 y0 color et n i k',
    (explosionShape realMath s.rnd et n i k').1.1,
    (explosionShape realMath s.rnd et n i k').1.2, ?_, rfl, rfl, ?_, ?_, ?_, ?_, ?_⟩
  · rw [heq]
    simp only
    rw [List.get?_append_right (by omega)]
    simpa using hk'
  · exact velocity_magnitude _ _ hsp
  · intro h
    simp only [explosionShape, h, if_true, realMath]
    refine ⟨by ring, by linarith, by linarith⟩
  · intro h
    norm_num [explosionShape, h, realMath]
    exact ⟨by ring, a0, by linarith⟩
  · intro h
    norm_num [explosionShape, h, realMath]
    refine ⟨by ring, ?_, ?_⟩
    · intro hev
      rw [if_pos hev]
      constructor <;> linarith
    · intro hodd
      rw [if_neg (by omega)]
      constructor <;> linarith
  · intro h
    rcases h with h | h
    · norm_num [explosionShape, h, realMath]
      exact ⟨b0, by linarith⟩
    · norm_num [explosionShape, h, realMath]
      exact ⟨b0, by linarith⟩

theorem shape_speeds_witness :
    ∃ (p : Particle ℝ) (angle speed : ℝ),
      (createExplosion realMath sampleRealEngine 400 77 "#FFD700" false).particles.get?
        (sampleRealEngine.particles.length + 7) = some p ∧
      p.vx = Real.cos angle * speed ∧ p.vy = Real.sin angle * speed ∧
      Real.sqrt (p.vx ^ 2 + p.vy ^ 2) = speed := by
  have hr : ∀ k, 0 ≤ sampleRealEngine.rnd k ∧ sampleRealEngine.rnd k < 1 := by
    intro k
    norm_num [sampleRealEngine, FireworksCanvas.init]
  have h : 7 < (⌊sampleRealEngine.rnd sampleRealEngine.cursor * 20⌋ + 30).toNat := by
    have : sampleRealEngine.rnd sampleRealEngine.cursor * 20 = ((10 : ℤ) : ℝ) := by
      norm_num [sampleRealEngine, FireworksCanvas.init]
    rw [this, Int.floor_intCast]
    decide
  obtain ⟨p, angle, speed, h1, h2, h3, h4, _⟩ :=
    shape_speeds sampleRealEngine 400 77 "#FFD700" hr 7 h
  exact ⟨p, angle, speed, h1, h2, h3, h4⟩

/-! ## One frame -/

/-- C15: on an active engine one `animate()` frame is `updateRockets`, then
`updateParticles` on the collection `updateRockets` left, which holds the old particles
followed by those of this frame's explosions, then `draw`, which paints the collections
so obtained and changes neither; on an inactive engine `animate()` changes nothing. -/
theorem animate_order (M : JSMath α) (s : FireworksCanvas α) :
    (s.active = true →
      (animate M s).rockets = (updateRockets M s).rockets ∧
      (∃ spawned : List (Particle α),
        (updateRockets M s).particles = s.particles ++ spawned ∧
        (animate M s).particles =
          ((s.particles ++ spawned).map (stepParticle s.gravity s.friction)).filter
            (fun p => decide (0 < p.alpha))) ∧
      (animate M s).particles = (updateParticles (updateRockets M s)).particles ∧
      (animate M s).surface = (draw (updateParticles (updateRockets M s))).surface ∧
      (∀ op ∈ (animate M s).surface,
        (∃ r ∈ (animate M s).rockets, op ∈ drawRocket r) ∨
        (∃ p ∈ (animate M s).particles, op ∈ drawParticle p))) ∧
    (∀ t : FireworksCanvas α, (draw t).rockets = t.rockets ∧ (draw t).particles = t.particles) ∧
    (s.active = false → animate M s = s) := by
  refine ⟨?_, fun t => ⟨rfl, rfl⟩, ?_⟩
  · intro hact
    obtain ⟨ps, k, h⟩ := updateRockets_eq M s
    have hanim : animate M s =
        { draw (updateParticles (updateRockets M s)) with
          animationFrame := some (draw (updateParticles (updateRockets M s))).nextHandle
          frames := (draw (updateParticles (updateRockets M s))).frames ++
            [(draw (updateParticles (updateRockets M s))).nextHandle]
          nextHandle := (draw (updateParticles (updateRockets M s))).nextHandle + 1 } := by
      simp [animate, hact]
    have hr : (animate M s).rockets = (updateRockets M s).rockets := by
      rw [hanim, updateParticles_eq]
      rfl
    have hp : (animate M s).particles = (updateParticles (updateRockets M s)).particles := by
      rw [hanim]
      rfl
    have hs : (animate M s).surface = (draw (updateParticles (updateRockets M s))).surface := by
      rw [hanim]
    refine ⟨hr, ⟨ps, by rw [h], ?_⟩, hp, hs, ?_⟩
    · rw [hp, updateParticles_eq, h]
    · intro op hop
      rw [hs] at hop
      rw [hp]
      have hr' : (animate M s).rockets = (updateParticles (updateRockets M s)).rockets := by
        rw [hr, updateParticles_eq]
      rw [hr']
      exact (mem_draw_surface _ op).mp hop
  · intro hact
    simp [animate, hact]

/-! ## The relay's game state machine -/

theorem send_heart_below (g : GameState) (hs : g.status = GameStatus.playing)
    (hk : g.totalHearts + 1 < 200) :
    send_heart g =
      ({ g with totalHearts := g.totalHearts + 1,
                progress := ((g.totalHearts + 1 : ℕ) : ℚ) / 200 * 100 },
       [Broadcast.heart_received,
        Broadcast.update_progress (((g.totalHearts + 1 : ℕ) : ℚ) / 200 * 100)
          (some (g.totalHearts + 1))]) := by
  have hlt : (((g.totalHearts + 1 : ℕ) : ℚ)) / 200 * 100 < 100 := by
    have : ((g.totalHearts + 1 : ℕ) : ℚ) < 200 := by exact_mod_cast hk
    linarith
  simp only [send_heart, hs, if_true, WINNING_PROGRESS, REQUIRED_HEARTS, Nat.cast_ofNat,
    min_eq_right hlt.le, ge_iff_le, not_le.mpr hlt, if_false]

theorem send_heart_reaching (g : GameState) (hs : g.status = GameStatus.playing)
    (hk : 200 ≤ g.totalHearts + 1) :
    send_heart g =
      ({ g with totalHearts := g.totalHearts + 1, progress := 100,
                status := GameStatus.finished },
       [Broadcast.heart_received,
        Broadcast.update_progress 100 (some (g.totalHearts + 1)),
        Broadcast.game_over]) := by
  have hge : (100 : ℚ) ≤ (((g.totalHearts + 1 : ℕ) : ℚ)) / 200 * 100 := by
    have : (200 : ℚ) ≤ ((g.totalHearts + 1 : ℕ) : ℚ) := by exact_mod_cast hk
    linarith
  simp only [send_heart, hs, if_true, WINNING_PROGRESS, REQUIRED_HEARTS, Nat.cast_ofNat,
    min_eq_left hge, ge_iff_le, le_refl, List.cons_append, List.nil_append]

theorem runGame_cons (g : GameState) (e : GameEvent) (es : List GameEvent) :
    runGame g (e :: es) = runGame (handleEvent g e).1 es := rfl

theorem runGame_append (g : GameState) (es fs : List GameEvent) :
    runGame g (es ++ fs) = runGame (runGame g es) fs := by
  simp [runGame, List.foldl_append]

theorem hearts_run (k : Nat) :
    ∀ g : GameState, g.status = GameStatus.playing → g.totalHearts + (k + 1) < 200 →
      runGame g (List.replicate (k + 1) GameEvent.send_heart) =
        { g with totalHearts := g.totalHearts + (k + 1),
                 progress := ((g.totalHearts + (k + 1) : ℕ) : ℚ) / 200 * 100 } := by
  induction k with
  | zero =>
    intro g hs hk
    have hh : handleEvent g GameEvent.send_heart = send_heart g := rfl
    rw [List.replicate_succ, runGame_cons, hh, send_heart_below g hs (by omega)]
    rfl
  | succ k ih =>
    intro g hs hk
    have hh : handleEvent g GameEvent.send_heart = send_heart g := rfl
    rw [List.replicate_succ, runGame_cons, hh, send_heart_below g hs (by omega)]
    simp only
    rw [ih { g with totalHearts := g.totalHearts + 1,
                    progress := ((g.totalHearts + 1 : ℕ) : ℚ) / 200 * 100 } hs
      (by simp only; omega)]
    simp only [Nat.add_assoc, Nat.add_comm 1 (k + 1)]

/-- C16 (fails on the code): `start_game` does not reset `totalHearts`.  The first race
ends on its 200th heart and not on the 199th; restarted from `finished`, the relay is
`playing` with progress `0` but still counts 200 hearts, so the first heart of the second
race broadcasts progress `100` with heart count 201 and `game_over`, where the ratio of
that race's hearts is `1 / 200 * 100 = 1 / 2`. -/
theorem restart_finishes_on_first_heart :
    (runGame gameState0
      (GameEvent.start_game :: List.replicate 199 GameEvent.send_heart)).status
        = GameStatus.playing ∧
    runGame gameState0 (GameEvent.start_game :: List.replicate 200 GameEvent.send_heart) =
      { progress := 100, status := GameStatus.finished, players := 0, totalHearts := 200,
        isRaceFinished := some false } ∧
    runGame gameState0
      (GameEvent.start_game :: List.replicate 200 GameEvent.send_heart ++
        [GameEvent.start_game]) =
      { progress := 0, status := GameStatus.playing, players := 0, totalHearts := 200,
        isRaceFinished := some false } ∧
    handleEvent
      (runGame gameState0
        (GameEvent.start_game :: List.replicate 200 GameEvent.send_heart ++
          [GameEvent.start_game]))
      GameEvent.send_heart =
      ({ progress := 100, status := GameStatus.finished, players := 0, totalHearts := 201,
         isRaceFinished := some false },
       [Broadcast.heart_received, Broadcast.update_progress 100 (some 201),
        Broadcast.game_over]) ∧
    min (100 : ℚ) ((1 : ℚ) / 200 * 100) = 1 / 2 := by
  have hstart : (handleEvent gameState0 GameEvent.start_game).1 =
      { progress := 0, status := GameStatus.playing, players := 0, totalHearts := 0,
        isRaceFinished := some false } := by
    simp [handleEvent, start_game, gameState0]
  have h199 : runGame gameState0
      (GameEvent.start_game :: List.replicate 199 GameEvent.send_heart) =
      { progress := 199 / 200 * 100, status := GameStatus.playing, players := 0,
        totalHearts := 199, isRaceFinished := some false } := by
    rw [runGame_cons, hstart, hearts_run 198 _ rfl (by decide)]
    norm_num
  have h200 : runGame gameState0
      (GameEvent.start_game :: List.replicate 200 GameEvent.send_heart) =
      { progress := 100, status := GameStatus.finished, players := 0, totalHearts := 200,
        isRaceFinished := some false } := by
    have e : GameEvent.start_game :: List.replicate 200 GameEvent.send_heart =
        (GameEvent.start_game :: List.replicate 199 GameEvent.send_heart) ++
          [GameEvent.send_heart] := by
      rw [List.cons_append, ← List.replicate_succ']
    rw [e, runGame_append, h199]
    have hh : ∀ g : GameState, runGame g [GameEvent.send_heart] = (send_heart g).1 :=
      fun _ => rfl
    rw [hh, send_heart_reaching _ rfl (by decide)]
  have hre : runGame gameState0
      (GameEvent.start_game :: List.replicate 200 GameEvent.send_heart ++
        [GameEvent.start_game]) =
      { progress := 0, status := GameStatus.playing, players := 0, totalHearts := 200,
        isRaceFinished := some false } := by
    rw [runGame_append, h200]
    simp [runGame, handleEvent, start_game]
  refine ⟨by rw [h199], h200, hre, ?_, by norm_num⟩
  rw [hre]
  have hh : ∀ g : GameState, handleEvent g GameEvent.send_heart = send_heart g :=
    fun _ => rfl
  rw [hh, send_heart_reaching _ rfl (by decide)]

/-! ## The heart counter -/

/-- C17 (fails on the code): the position computed by the `init_state` handler is always
within `[5, 98]`, the one computed by the `update_progress` handler is within `[5, 100]`
and is `100`, beyond the 98 of its comment, at progress `100`. -/
theorem heart_counter_left_reaches_100 :
    (∀ p : ℚ, 5 ≤ heartLeftInit p ∧ heartLeftInit p ≤ 98) ∧
    (∀ p : ℚ, 5 ≤ heartLeftUpdate p ∧ heartLeftUpdate p ≤ 100) ∧
    heartLeftUpdate (100 : ℚ) = 100 ∧
    ¬ heartLeftUpdate (100 : ℚ) ≤ 98 := by
  have h100 : heartLeftUpdate (100 : ℚ) = 100 := by
    norm_num [heartLeftUpdate]
  refine ⟨fun p => ⟨le_max_left _ _, max_le (by norm_num) (min_le_left _ _)⟩,
    fun p => ⟨le_max_left _ _, max_le (by norm_num) (min_le_left _ _)⟩, h100, ?_⟩
  rw [h100]
  norm_num

/-! ## Every rocket leaves (exact arithmetic) -/

theorem updateRockets_frame (M : JSMath α) (s : FireworksCanvas α) :
    (updateRockets M s).height = s.height ∧ (updateRockets M s).gravity = s.gravity := by
  obtain ⟨ps, k, h⟩ := updateRockets_eq M s
  rw [h]
  exact ⟨rfl, rfl⟩

theorem updateRockets_explosion_mem (M : JSMath α) (s : FireworksCanvas α) (r : Rocket α)
    (hr : r ∈ s.rockets) (hd : rocketDone (stepRocket s.height s.gravity r) = true)
    (he : r.exploded = false) :
    (stepRocket s.height s.gravity r).explosion ∈ (updateRockets M s).explosionLog := by
  obtain ⟨ps, k, h⟩ := updateRockets_eq M s
  rw [h]
  simp only [List.mem_append, List.mem_map, List.mem_filter, List.mem_reverse,
    Bool.and_eq_true, Bool.not_eq_true']
  exact Or.inr ⟨_, ⟨⟨r, hr, rfl⟩, hd, he⟩, rfl⟩

/-- One tick under gravity `0.05`: while `vy ≤ -0.05` the update raises `vy` by at least
`0.05` and keeps it `≤ 0`; from `vy > -0.05` the update ends with `vy > 0`. -/
theorem stepRocket_vy_rise (H : α) (r : Rocket α) :
    (r.vy + 1 / 20 ≤ 0 → r.vy + 1 / 20 ≤ (stepRocket H 0.05 r).vy) ∧
    (0 < r.vy + 1 / 20 → 0 < (stepRocket H 0.05 r).vy) := by
  obtain ⟨h0, h1⟩ := progressRatio_bounds H r
  have e : (stepRocket H 0.05 r).vy
      = (r.vy + 1 / 20) * (1 - (1 - progressRatio H r) * (3 / 20)) := by
    have : (stepRocket H 0.05 r).vy
        = (r.vy + 0.05 * 1) * (1 - (1 - progressRatio H r) * 0.15) := rfl
    rw [this]
    norm_num
  have hm0 : 0 < 1 - (1 - progressRatio H r) * (3 / 20) := by nlinarith
  have hm1 : 1 - (1 - progressRatio H r) * (3 / 20) ≤ 1 := by nlinarith
  rw [e]
  constructor
  · intro h
    nlinarith
  · intro h
    exact mul_pos h hm0

theorem rocket_leaves (M : JSMath α) :
    ∀ (n : Nat) (s : FireworksCanvas α) (r : Rocket α), r ∈ s.rockets → r.exploded = false →
      s.gravity = 0.05 → -r.vy < ((n : α) + 1) * (1 / 20) →
      ∃ N : Nat, 1 ≤ N ∧ N ≤ n + 1 ∧
        rocketDone ((stepRocket s.height s.gravity)^[N] r) = true ∧
        (∀ j, j < N →
          (stepRocket s.height s.gravity)^[j] r ∈ ((updateRockets M)^[j] s).rockets) ∧
        (stepRocket s.height s.gravity)^[N] r ∉ ((updateRockets M)^[N] s).rockets ∧
        ((stepRocket s.height s.gravity)^[N] r).explosion
          ∈ ((updateRockets M)^[N] s).explosionLog := by
  intro n
  induction n with
  | zero =>
    intro s r hr he hg hu
    have hpos : 0 < r.vy + 1 / 20 := by
      simp only [Nat.cast_zero, zero_add, one_mul] at hu
      linarith
    have hv := (stepRocket_vy_rise s.height r).2 hpos
    rw [← hg] at hv
    have hd : rocketDone (stepRocket s.height s.gravity r) = true := by
      simp only [rocketDone, Bool.or_eq_true, decide_eq_true_eq]
      exact Or.inr hv
    refine ⟨1, le_refl _, le_refl _, hd, ?_, ?_, ?_⟩
    · intro j hj
      obtain rfl : j = 0 := by omega
      exact hr
    · intro hmem
      obtain ⟨_, _, _, hnd⟩ := (updateRockets_mem M s _).mp hmem
      rw [Function.iterate_one] at hnd
      rw [hd] at hnd
      exact Bool.noConfusion hnd
    · exact updateRockets_explosion_mem M s r hr hd he
  | succ n ih =>
    intro s r hr he hg hu
    cases hd : rocketDone (stepRocket s.height s.gravity r) with
    | true =>
      refine ⟨1, le_refl _, by omega, hd, ?_, ?_, ?_⟩
      · intro j hj
        obtain rfl : j = 0 := by omega
        exact hr
      · intro hmem
        obtain ⟨_, _, _, hnd⟩ := (updateRockets_mem M s _).mp hmem
        rw [Function.iterate_one] at hnd
        rw [hd] at hnd
        exact Bool.noConfusion hnd
      · exact updateRockets_explosion_mem M s r hr hd he
    | false =>
      obtain ⟨hH, hG⟩ := updateRockets_frame M s
      have hmem : stepRocket s.height s.gravity r ∈ (updateRockets M s).rockets :=
        (updateRockets_mem M s _).mpr ⟨r, hr, rfl, hd⟩
      have hv' : (stepRocket s.height s.gravity r).vy ≤ 0 := by
        simp only [rocketDone, Bool.or_eq_false_iff, decide_eq_false_iff_not, not_lt] at hd
        exact hd.2
      have hle : r.vy + 1 / 20 ≤ 0 := by
        by_contra hc
        push_neg at hc
        have := (stepRocket_vy_rise s.height r).2 hc
        rw [← hg] at this
        exact absurd this (not_lt.mpr hv')
      have hrise := (stepRocket_vy_rise s.height r).1 hle
      rw [← hg] at hrise
      have hu' : -(stepRocket s.height s.gravity r).vy < ((n : α) + 1) * (1 / 20) := by
        push_cast at hu
        linarith
      obtain ⟨N, hN1, hN, hdN, hfly, hout, hlog⟩ := ih (updateRockets M s)
        (stepRocket s.height s.gravity r) hmem he (by rw [hG, hg]) hu'
      rw [hH, hG] at hdN hfly hout hlog
      refine ⟨N + 1, by omega, by omega, ?_, ?_, ?_, ?_⟩
      · rw [Function.iterate_succ_apply]
        exact hdN
      · intro j hj
        cases j with
        | zero => exact hr
        | succ j =>
          rw [Function.iterate_succ_apply, Function.iterate_succ_apply]
          exact hfly j (by omega)
      · rw [Function.iterate_succ_apply, Function.iterate_succ_apply]
        exact hout
      · rw [Function.iterate_succ_apply, Function.iterate_succ_apply]
        exact hlog

/-- In exact arithmetic (the behaviour in binary64 is stated in the last section):
under gravity `0.05` an unexploded rocket of the collection with `vy < 0` is
followed through the ticks until, at some tick `N` with
`1 ≤ N ≤ ⌊|vy| / 0.05⌋ + 1`, its termination test succeeds: it is in the collection
before tick `N`, not after it, and its explosion has then been generated.  Each tick
started with `vy ≤ -0.05` raises `vy` by at least `0.05`, a tick started with
`vy > -0.05` ends with `vy > 0`.  For the rocket `launchRocket` pushes (draws in `[0, 1)`)
the bound is at most 450 ticks. -/
theorem rocket_removed_within_bound (M : JSMath α) (s : FireworksCanvas α) (r : Rocket α)
    (hr : r ∈ s.rockets) (he : r.exploded = false) (hg : s.gravity = 0.05)
    (hv : r.vy < 0) :
    (∃ N : Nat, 1 ≤ N ∧ N ≤ ⌊|r.vy| / 0.05⌋.toNat + 1 ∧
        rocketDone ((stepRocket s.height s.gravity)^[N] r) = true ∧
        (∀ j, j < N →
          (stepRocket s.height s.gravity)^[j] r ∈ ((updateRockets M)^[j] s).rockets) ∧
        (stepRocket s.height s.gravity)^[N] r ∉ ((updateRockets M)^[N] s).rockets ∧
        ((stepRocket s.height s.gravity)^[N] r).explosion
          ∈ ((updateRockets M)^[N] s).explosionLog) ∧
    (∀ (H : α) (q : Rocket α),
        (q.vy ≤ -0.05 → q.vy + 0.05 ≤ (stepRocket H 0.05 q).vy) ∧
        (-0.05 < q.vy → 0 < (stepRocket H 0.05 q).vy)) ∧
    (∀ t : FireworksCanvas α, 0 ≤ t.rnd (t.cursor + 5) → t.rnd (t.cursor + 5) < 1 →
        ∀ q : Rocket α, (launchRocket t).rockets.getLast? = some q →
          q.vy < 0 ∧ q.exploded = false ∧ ⌊|q.vy| / 0.05⌋.toNat + 1 ≤ 450) := by
  have e05 : (0.05 : α) = 1 / 20 := by norm_num
  refine ⟨?_, ?_, ?_⟩
  · have habs : |r.vy| = -r.vy := abs_of_neg hv
    have hfl : -r.vy / 0.05 < ((⌊|r.vy| / 0.05⌋.toNat : ℕ) : α) + 1 := by
      have h1 := Int.lt_floor_add_one (-r.vy / (0.05 : α))
      have h2 : 0 ≤ ⌊-r.vy / (0.05 : α)⌋ :=
        Int.floor_nonneg.mpr (div_nonneg (by linarith) (by norm_num))
      rw [habs]
      have h3 : ((⌊-r.vy / (0.05 : α)⌋.toNat : ℕ) : α) = ((⌊-r.vy / (0.05 : α)⌋ : ℤ) : α) := by
        have := Int.toNat_of_nonneg h2
        exact_mod_cast this
      rw [h3]
      exact h1
    have hu : -r.vy < ((⌊|r.vy| / 0.05⌋.toNat : α) + 1) * (1 / 20) := by
      rw [e05] at hfl ⊢
      rw [div_lt_iff₀ (by norm_num)] at hfl
      linarith
    exact rocket_leaves M _ s r hr he hg hu
  · intro H q
    obtain ⟨h1, h2⟩ := stepRocket_vy_rise H q
    constructor
    · intro h
      have h' : q.vy + 1 / 20 ≤ 0 := by rw [e05] at h; linarith
      have := h1 h'
      rw [e05]
      rw [e05] at this
      exact this
    · intro h
      have h' : 0 < q.vy + 1 / 20 := by rw [e05] at h; linarith
      exact h2 h'
  · intro t h0 h1 q hq
    have hq' : q.vy = -(t.rnd (t.cursor + 5) * 3.9 + 18.6) ∧ q.exploded = false := by
      simp only [launchRocket, List.getLast?_append, List.getLast?_singleton,
        Option.or_some, Option.some.injEq] at hq
      rw [← hq]
      exact ⟨rfl, rfl⟩
    have hneg : q.vy < 0 := by
      rw [hq'.1]
      norm_num
      nlinarith
    refine ⟨hneg, hq'.2, ?_⟩
    have hlt : ⌊|q.vy| / (0.05 : α)⌋ < 450 := by
      rw [Int.floor_lt, abs_of_neg hneg, hq'.1, e05]
      rw [div_lt_iff₀ (by norm_num)]
      norm_num
      linarith
    omega

theorem rocket_removed_within_bound_witness :
    sampleRocket ∈ sampleEngine.rockets ∧ sampleRocket.vy < 0 ∧
    ∃ N : Nat, 1 ≤ N ∧ N ≤ ⌊|sampleRocket.vy| / 0.05⌋.toNat + 1 ∧
      rocketDone ((stepRocket sampleEngine.height sampleEngine.gravity)^[N] sampleRocket)
        = true :=
  ⟨by simp [sampleEngine], by norm_num [sampleRocket],
   by
    obtain ⟨N, h1, h2, h3, _⟩ := (rocket_removed_within_bound ratMath sampleEngine
      sampleRocket (by simp [sampleEngine]) rfl rfl (by norm_num [sampleRocket])).1
    exact ⟨N, h1, h2, h3⟩⟩

/-! ## Life time of a particle (exact arithmetic) -/

theorem newParticle_alpha_decay (M : JSMath α) (rnd : Nat → α) (x y : α) (color : String)
    (et n : ℤ) (i k : Nat) :
    (newParticle M rnd x y color et n i k).alpha = 1 ∧
    (newParticle M rnd x y color et n i k).decay
      = rnd (explosionShape M rnd et n i k).2 * 0.02 + 0.015 :=
  ⟨rfl, rfl⟩

/-- In exact arithmetic (the behaviour in binary64 is stated further below): a
particle of the collection with `alpha = 1` and `decay = d` in
`[0.015, 0.035)`, as `createExplosion` makes them from draws in `[0, 1)`, is in the
collection after `k ≥ 1` ticks of `updateParticles` exactly when `k < ⌈1 / d⌉`, so it is
removed in tick `⌈1 / d⌉`, and `29 ≤ ⌈1 / d⌉ ≤ 67`; a collection whose particles all
have `alpha ≤ 1` and `decay ≥ 0.015` is empty after 67 ticks. -/
theorem particle_lifetime (s : FireworksCanvas α) (p : Particle α) (hp : p ∈ s.particles)
    (ha : p.alpha = 1) (hd0 : 0.015 ≤ p.decay) (hd1 : p.decay < 0.035)
    (hall : ∀ q ∈ s.particles, q.alpha ≤ 1 ∧ 0.015 ≤ q.decay) :
    29 ≤ ⌈1 / p.decay⌉ ∧ ⌈1 / p.decay⌉ ≤ 67 ∧
    (∀ k : Nat, 1 ≤ k →
      ((stepParticle s.gravity s.friction)^[k] p ∈ (updateParticles^[k] s).particles ↔
        (k : ℤ) < ⌈1 / p.decay⌉)) ∧
    (updateParticles^[67] s).particles = [] ∧
    (∀ (M : JSMath α) (rnd : Nat → α) (x y : α) (color : String) (et n : ℤ) (i k : Nat),
      (∀ j, 0 ≤ rnd j ∧ rnd j < 1) →
        (newParticle M rnd x y color et n i k).alpha = 1 ∧
        0.015 ≤ (newParticle M rnd x y color et n i k).decay ∧
        (newParticle M rnd x y color et n i k).decay < 0.035) := by
  have e15 : (0.015 : α) = 3 / 200 := by norm_num
  have e35 : (0.035 : α) = 7 / 200 := by norm_num
  rw [e15] at hd0
  rw [e35] at hd1
  have hdpos : 0 < p.decay := by linarith
  have hdecay : ∀ q ∈ s.particles, 0 ≤ q.decay := by
    intro q hq
    have := (hall q hq).2
    rw [e15] at this
    linarith
  have hlt : ∀ k : Nat, ((k : ℤ) < ⌈1 / p.decay⌉ ↔ 0 < 1 - (k : α) * p.decay) := by
    intro k
    rw [Int.lt_ceil, lt_div_iff₀ hdpos]
    push_cast
    constructor <;> intro h <;> linarith
  refine ⟨?_, ?_, ?_, ?_, ?_⟩
  · have : (28 : ℤ) < ⌈1 / p.decay⌉ := by
      rw [Int.lt_ceil, lt_div_iff₀ hdpos]
      push_cast
      linarith
    omega
  · rw [Int.ceil_le, div_le_iff₀ hdpos]
    push_cast
    linarith
  · intro k hk
    obtain ⟨j, rfl⟩ : ∃ j, k = j + 1 := ⟨k - 1, by omega⟩
    rw [updateParticles_iterate_eq s hdecay j, hlt]
    simp only [List.mem_map, List.mem_filter, decide_eq_true_eq]
    constructor
    · rintro ⟨q, ⟨_, hq⟩, heq⟩
      have h1 := stepParticle_iterate_alpha s.gravity s.friction q (j + 1)
      have h2 := stepParticle_iterate_alpha s.gravity s.friction p (j + 1)
      rw [heq] at h1
      rw [h2.1, ha] at h1
      rw [h1.1]
      push_cast
      exact hq
    · intro h
      refine ⟨p, ⟨hp, ?_⟩, rfl⟩
      rw [ha]
      push_cast at h
      exact h
  · rw [updateParticles_iterate_eq s hdecay 66]
    simp only [List.map_eq_nil_iff, List.filter_eq_nil_iff, decide_eq_true_eq, not_lt]
    intro q hq
    obtain ⟨h1, h2⟩ := hall q hq
    rw [e15] at h2
    norm_num
    linarith
  · intro M rnd x y color et n i k hr
    obtain ⟨h0, h1⟩ := hr (explosionShape M rnd et n i k).2
    obtain ⟨ea, ed⟩ := newParticle_alpha_decay M rnd x y color et n i k
    rw [ed]
    refine ⟨ea, ?_, ?_⟩
    · norm_num
      exact h0
    · norm_num
      linarith

theorem particle_lifetime_witness :
    sampleParticle ∈ sampleEngine.particles ∧ sampleParticle.alpha = 1 ∧
    ⌈1 / sampleParticle.decay⌉ = 40 ∧
    (updateParticles^[67] sampleEngine).particles = [] := by
  have h := particle_lifetime sampleEngine sampleParticle (by simp [sampleEngine]) rfl
    (by norm_num [sampleParticle]) (by norm_num [sampleParticle])
    (by
      intro q hq
      simp only [sampleEngine, List.mem_singleton] at hq
      subst hq
      norm_num [sampleParticle])
  refine ⟨by simp [sampleEngine], rfl, ?_, h.2.2.2.1⟩
  have : (1 : ℚ) / sampleParticle.decay = ((40 : ℤ) : ℚ) := by
    norm_num [sampleParticle]
  rw [this, Int.ceil_intCast]

/-! ## Rounded arithmetic: the error of one operation -/

/-- Rounding a fraction to the nearest integer is off by at most one half. -/
theorem roundHalfEven_err (N D : Nat) (hD : 0 < D) :
    |((roundHalfEven N D : Nat) : ℚ) - (N : ℚ) / (D : ℚ)| ≤ 1 / 2 := by
  have hDq : (0 : ℚ) < (D : ℚ) := by exact_mod_cast hD
  have hN : (N : ℚ) = (D : ℚ) * ((N / D : Nat) : ℚ) + ((N % D : Nat) : ℚ) := by
    exact_mod_cast (Nat.div_add_mod N D).symm
  have hr : ((N % D : Nat) : ℚ) < (D : ℚ) := by exact_mod_cast Nat.mod_lt N hD
  have hr0 : (0 : ℚ) ≤ ((N % D : Nat) : ℚ) := by positivity
  have hq : (N : ℚ) / (D : ℚ) = ((N / D : Nat) : ℚ) + ((N % D : Nat) : ℚ) / (D : ℚ) := by
    rw [hN]; field_simp; ring
  have key0 : |(((N / D : Nat) : ℚ)) - (N : ℚ) / (D : ℚ)| ≤ 1 / 2 ↔
      2 * ((N % D : Nat) : ℚ) ≤ (D : ℚ) := by
    rw [hq, abs_le]
    constructor
    · rintro ⟨h1, -⟩
      have : ((N % D : Nat) : ℚ) / (D : ℚ) ≤ 1 / 2 := by linarith
      rw [div_le_iff₀ hDq] at this; linarith
    · intro h
      have h2 : ((N % D : Nat) : ℚ) / (D : ℚ) ≤ 1 / 2 := by
        rw [div_le_iff₀ hDq]; linarith
      have h3 : 0 ≤ ((N % D : Nat) : ℚ) / (D : ℚ) := by positivity
      constructor <;> linarith
  have key1 : |(((N / D + 1 : Nat) : Nat) : ℚ) - (N : ℚ) / (D : ℚ)| ≤ 1 / 2 ↔
      (D : ℚ) ≤ 2 * ((N % D : Nat) : ℚ) := by
    rw [hq, abs_le]
    push_cast
    constructor
    · rintro ⟨-, h1⟩
      have : 1 / 2 ≤ ((N % D : Nat) : ℚ) / (D : ℚ) := by linarith
      rw [le_div_iff₀ hDq] at this; linarith
    · intro h
      have h2 : 1 / 2 ≤ ((N % D : Nat) : ℚ) / (D : ℚ) := by
        rw [le_div_iff₀ hDq]; linarith
      have h3 : ((N % D : Nat) : ℚ) / (D : ℚ) ≤ 1 := by
        rw [div_le_iff₀ hDq]; linarith
      constructor <;> linarith
  unfold roundHalfEven
  simp only
  by_cases h1 : 2 * (N % D) < D
  · rw [if_pos h1]
    apply key0.2
    have : ((2 * (N % D) : Nat) : ℚ) < (D : ℚ) := by exact_mod_cast h1
    push_cast at this; linarith
  · rw [if_neg h1]
    by_cases h2 : D < 2 * (N % D)
    · rw [if_pos h2]
      apply key1.2
      have : (D : ℚ) < ((2 * (N % D) : Nat) : ℚ) := by exact_mod_cast h2
      push_cast at this; linarith
    · rw [if_neg h2]
      have h3 : 2 * (N % D) = D := by omega
      have h3q : 2 * ((N % D : Nat) : ℚ) = (D : ℚ) := by exact_mod_cast h3
      by_cases h4 : N / D % 2 = 0
      · rw [if_pos h4]; exact key0.2 (le_of_eq h3q)
      · rw [if_neg h4]; exact key1.2 (le_of_eq h3q.symm)

/-- With enough fuel `bitLength` is the number of binary digits. -/
theorem bitLength_spec : ∀ (fuel n : Nat), n ≤ fuel → 0 < n →
    n < 2 ^ bitLength fuel n ∧ 2 ^ bitLength fuel n ≤ 2 * n
  | 0, n, h, h0 => by omega
  | fuel + 1, n, h, h0 => by
    have hn : n ≠ 0 := by omega
    simp only [bitLength, if_neg hn]
    by_cases h2 : n / 2 = 0
    · have h1 : n = 1 := by omega
      subst h1
      cases fuel with
      | zero => simp [bitLength]
      | succ f => simp [bitLength]
    · have ih := bitLength_spec fuel (n / 2) (by omega) (by omega)
      rw [pow_succ]
      constructor <;> omega

/-- The exponent of `binadeExp` is not above the binary logarithm of the fraction. -/
theorem binadeExp_le (n d : Nat) (hn : 0 < n) (hd : 0 < d) :
    (d : ℚ) * (2 : ℚ) ^ binadeExp n d ≤ (n : ℚ) := by
  unfold binadeExp
  simp only
  split_ifs with h
  · exact h
  · obtain ⟨-, hn2⟩ := bitLength_spec n n le_rfl hn
    obtain ⟨hd1, -⟩ := bitLength_spec d d le_rfl hd
    have hn2q : (2 : ℚ) ^ bitLength n n ≤ 2 * (n : ℚ) := by exact_mod_cast hn2
    have hd1q : (d : ℚ) < (2 : ℚ) ^ bitLength d d := by exact_mod_cast hd1
    have e : (2 : ℚ) ^ ((bitLength n n : ℤ) - (bitLength d d : ℤ) - 1) =
        (2 : ℚ) ^ bitLength n n / (2 : ℚ) ^ bitLength d d / 2 := by
      rw [zpow_sub₀ (by norm_num), zpow_sub₀ (by norm_num), zpow_natCast, zpow_natCast, zpow_one]
    rw [e]
    have hpd : (0 : ℚ) < (2 : ℚ) ^ bitLength d d := by positivity
    have hpn : (0 : ℚ) < (2 : ℚ) ^ bitLength n n := by positivity
    have h1 : (d : ℚ) * ((2 : ℚ) ^ bitLength n n / (2 : ℚ) ^ bitLength d d / 2) =
        ((d : ℚ) / (2 : ℚ) ^ bitLength d d) * ((2 : ℚ) ^ bitLength n n / 2) := by
      field_simp
    rw [h1]
    have h2 : (d : ℚ) / (2 : ℚ) ^ bitLength d d ≤ 1 := by
      rw [div_le_one hpd]; exact le_of_lt hd1q
    have h3 : (2 : ℚ) ^ bitLength n n / 2 ≤ (n : ℚ) := by
      rw [div_le_iff₀ (by norm_num)]; linarith
    have h4 : (0 : ℚ) ≤ (2 : ℚ) ^ bitLength n n / 2 := by positivity
    calc (d : ℚ) / (2 : ℚ) ^ bitLength d d * ((2 : ℚ) ^ bitLength n n / 2)
        ≤ 1 * ((2 : ℚ) ^ bitLength n n / 2) := mul_le_mul_of_nonneg_right h2 h4
      _ ≤ (n : ℚ) := by linarith

/-- Binary64 rounding has relative error at most `2^-53`. -/
theorem fl64_isRounding : IsRounding fl64 := by
  intro x
  by_cases hx : x = 0
  · subst hx; simp [fl64]
  have hn : 0 < x.num.natAbs := Int.natAbs_pos.2 (Rat.num_ne_zero.2 hx)
  have hd : 0 < x.den := x.den_pos
  have hdq : (0 : ℚ) < (x.den : ℚ) := by exact_mod_cast hd
  have habs : |x| = (x.num.natAbs : ℚ) / (x.den : ℚ) := by
    conv_lhs => rw [← Rat.num_div_den x]
    rw [abs_div, Nat.cast_natAbs, Int.cast_abs, abs_of_pos hdq]
  have hle := binadeExp_le x.num.natAbs x.den hn hd
  set n := x.num.natAbs with hn_def
  set d := x.den with hd_def
  set e := binadeExp n d with he_def
  have h2e : (2 : ℚ) ^ e ≤ |x| := by
    rw [habs, le_div_iff₀ hdq]; linarith
  have hs_pos : (0 : ℚ) < (2 : ℚ) ^ (e - 52) := by positivity
  have hse : (2 : ℚ) ^ e = (2 : ℚ) ^ (e - 52) * 2 ^ 52 := by
    rw [zpow_sub₀ (by norm_num)]
    have : ((2 : ℚ) ^ (52 : ℤ)) = 2 ^ 52 := by norm_num
    rw [this]; field_simp
  -- the scaled fraction
  obtain ⟨N, D, hD, hND, hfl⟩ : ∃ N D : Nat, 0 < D ∧
      (N : ℚ) / (D : ℚ) = |x| / (2 : ℚ) ^ (e - 52) ∧
      fl64 x = (if x < 0 then -1 else 1) * ((roundHalfEven N D : Nat) : ℚ) * (2 : ℚ) ^ (e - 52) := by
    by_cases hs : 0 ≤ e - 52
    · refine ⟨n, d * 2 ^ (e - 52).toNat, by positivity, ?_, ?_⟩
      · rw [habs]
        have : (2 : ℚ) ^ (e - 52) = (2 : ℚ) ^ (e - 52).toNat := by
          conv_lhs => rw [← Int.toNat_of_nonneg hs]
          rw [zpow_natCast]
        rw [this]; push_cast; field_simp
      · simp only [fl64, if_neg hx]
        rw [← hn_def, ← hd_def, ← he_def, if_pos hs, if_pos hs]
    · refine ⟨n * 2 ^ (-(e - 52)).toNat, d, hd, ?_, ?_⟩
      · rw [habs]
        have hneg : 0 ≤ -(e - 52) := by omega
        have : (2 : ℚ) ^ (e - 52) = ((2 : ℚ) ^ (-(e - 52)).toNat)⁻¹ := by
          rw [← zpow_natCast, Int.toNat_of_nonneg hneg, zpow_neg, inv_inv]
        rw [this]; push_cast; field_simp
      · simp only [fl64, if_neg hx]
        rw [← hn_def, ← hd_def, ← he_def, if_neg hs, if_neg hs]
  have herr := roundHalfEven_err N D hD
  rw [hND] at herr
  set m : ℚ := ((roundHalfEven N D : Nat) : ℚ) with hm_def
  set p : ℚ := (2 : ℚ) ^ (e - 52) with hp_def
  have herr2 : abs (m * p - abs x) ≤ p / 2 := by
    have : m * p - |x| = (m - |x| / p) * p := by field_simp
    rw [this, abs_mul, abs_of_pos hs_pos]
    calc abs (m - abs x / p) * p ≤ 1 / 2 * p := mul_le_mul_of_nonneg_right herr hs_pos.le
      _ = p / 2 := by ring
  have hbound : p / 2 ≤ |x| / 2 ^ 53 := by
    rw [div_le_div_iff (by norm_num) (by norm_num)]
    have : p * 2 ^ 52 ≤ |x| := by rw [← hse]; exact h2e
    nlinarith
  rw [hfl]
  rcases lt_or_gt_of_ne hx with hneg | hpos
  · rw [if_pos hneg]
    have hxa : x = -|x| := by rw [abs_of_neg hneg]; ring
    have : -1 * m * p - x = -(m * p - |x|) := by
      conv_lhs => rw [hxa]
      ring
    rw [this, abs_neg]
    exact le_trans herr2 hbound
  · rw [if_neg (not_lt.2 hpos.le)]
    have hxa : x = |x| := by rw [abs_of_pos hpos]
    have : 1 * m * p - x = m * p - |x| := by
      conv_lhs => rw [hxa]
      ring
    rw [this]
    exact le_trans herr2 hbound

/-! ## Rounded arithmetic: what the loops compute -/

theorem updateParticlesFromFl_eq (fl : α → α) :
    ∀ (n : Nat) (s : FireworksCanvas α) (pre post : List (Particle α)),
    s.particles = pre ++ post → pre.length = n →
    updateParticlesFromFl fl n s =
      { s with particles :=
          ((pre.map (stepParticleFl fl s.gravity s.friction)).filter (fun p => decide (0 < p.alpha)))
            ++ post } := by
  intro n
  induction n with
  | zero =>
    intro s pre post hs hlen
    have : pre = [] := List.length_eq_zero.mp hlen
    subst this
    simp [updateParticlesFromFl, ← hs]
  | succ n ih =>
    intro s pre post hs hlen
    obtain ⟨pre', p, rfl⟩ : ∃ pre' p, pre = pre' ++ [p] := by
      rcases List.eq_nil_or_concat pre with h | ⟨l, a, h⟩
      · simp [h] at hlen
      · exact ⟨l, a, by simpa using h⟩
    have hlen' : pre'.length = n := by simpa using hlen
    have hget : s.particles.get? n = some p := by
      rw [hs, List.append_assoc, List.get?_append_right (by omega)]
      simp [hlen']
    rw [updateParticlesFromFl]
    unfold updateParticleAtFl
    rw [hget]
    simp only
    have hset : s.particles.set n (stepParticleFl fl s.gravity s.friction p)
        = pre' ++ (stepParticleFl fl s.gravity s.friction p :: post) := by
      rw [hs, List.append_assoc, ← hlen']
      simp
    by_cases hdead : (stepParticleFl fl s.gravity s.friction p).alpha ≤ 0
    · rw [if_pos hdead]
      have herase : (s.particles.set n (stepParticleFl fl s.gravity s.friction p)).eraseIdx n
          = pre' ++ post := by
        rw [hset, ← hlen']
        simp [List.eraseIdx_append_of_length_le]
      rw [ih _ pre' post (by simpa using herase) hlen']
      simp [List.filter_append, not_lt.mpr hdead]
    · rw [if_neg hdead]
      rw [ih _ pre' (stepParticleFl fl s.gravity s.friction p :: post) (by simpa using hset) hlen']
      simp [List.filter_append, not_le.mp hdead]

theorem updateParticlesFl_eq (fl : α → α) (s : FireworksCanvas α) :
    updateParticlesFl fl s =
      { s with particles :=
          (s.particles.map (stepParticleFl fl s.gravity s.friction)).filter (fun p => decide (0 < p.alpha)) } := by
  unfold updateParticlesFl
  rw [updateParticlesFromFl_eq fl s.particles.length s s.particles [] (by simp) rfl]
  simp

theorem updateRocketsFromFl_eq (fl : α → α) (M : JSMath α) :
    ∀ (n : Nat) (s : FireworksCanvas α) (pre post : List (Rocket α)),
    s.rockets = pre ++ post → pre.length = n →
    ∃ (ps : List (Particle α)) (k : Nat),
    updateRocketsFromFl fl M n s =
      { s with
        rockets := ((pre.map (stepRocketFl fl s.height s.gravity)).filter (fun r => !rocketDone r)) ++ post
        particles := s.particles ++ ps
        cursor := k
        explosionLog := s.explosionLog ++
          (((pre.map (stepRocketFl fl s.height s.gravity)).reverse.filter
            (fun r => rocketDone r && !r.exploded)).map Rocket.explosion) } := by
  intro n
  induction n with
  | zero =>
    intro s pre post hs hlen
    have : pre = [] := List.length_eq_zero.mp hlen
    subst this
    exact ⟨[], s.cursor, by simp [updateRocketsFromFl, ← hs]⟩
  | succ n ih =>
    intro s pre post hs hlen
    obtain ⟨pre', r, rfl⟩ : ∃ pre' r, pre = pre' ++ [r] := by
      rcases List.eq_nil_or_concat pre with h | ⟨l, a, h⟩
      · simp [h] at hlen
      · exact ⟨l, a, by simpa using h⟩
    have hlen' : pre'.length = n := by simpa using hlen
    have hget : s.rockets.get? n = some r := by
      rw [hs, List.append_assoc, List.get?_append_right (by omega)]
      simp [hlen']
    have hset : ∀ r' : Rocket α, (pre' ++ ([r] ++ post)).set n r' = pre' ++ (r' :: post) := by
      intro r'
      rw [← hlen']
      simp
    have herase : ∀ r' : Rocket α, (pre' ++ (r' :: post)).eraseIdx n = pre' ++ post := by
      intro r'
      rw [← hlen']
      simp [List.eraseIdx_append_of_length_le]
    have hset2 : ∀ r' r'' : Rocket α, (pre' ++ (r' :: post)).set n r'' = pre' ++ (r'' :: post) := by
      intro r' r''
      rw [← hlen']
      simp
    rw [updateRocketsFromFl]
    unfold updateRocketAtFl
    rw [hget]
    simp only
    rw [hs, List.append_assoc, hset]
    by_cases hdone : rocketDone (stepRocketFl fl s.height s.gravity r) = true
    · rw [if_pos hdone]
      by_cases hexp : (stepRocketFl fl s.height s.gravity r).exploded = true
      · simp only [hexp, Bool.not_true, Bool.false_eq_true, if_false, herase]
        obtain ⟨ps, k, heq⟩ := ih { s with rockets := pre' ++ post } pre' post rfl hlen'
        refine ⟨ps, k, ?_⟩
        rw [heq]
        simp [List.filter_append, hdone, hexp]
      · simp only [Bool.not_eq_true] at hexp
        simp only [hexp, Bool.not_false, if_true]
        obtain ⟨ps1, k1, heq1⟩ := createExplosion_frame M
          { s with rockets := pre' ++ (stepRocketFl fl s.height s.gravity r :: post) }
          (stepRocketFl fl s.height s.gravity r).x (stepRocketFl fl s.height s.gravity r).y
          (stepRocketFl fl s.height s.gravity r).color (stepRocketFl fl s.height s.gravity r).isHeart
        rw [heq1]
        simp only [hset2, herase]
        obtain ⟨ps, k, heq⟩ := ih
          { s with rockets := pre' ++ post, particles := s.particles ++ ps1, cursor := k1,
                   explosionLog := s.explosionLog ++ [(stepRocketFl fl s.height s.gravity r).explosion] }
          pre' post rfl hlen'
        refine ⟨ps1 ++ ps, k, ?_⟩
        rw [Rocket.explosion] at heq
        rw [heq]
        simp [List.filter_append, hdone, hexp, Rocket.explosion]
    · rw [if_neg hdone]
      obtain ⟨ps, k, heq⟩ := ih
        { s with rockets := pre' ++ (stepRocketFl fl s.height s.gravity r :: post) }
        pre' (stepRocketFl fl s.height s.gravity r :: post) rfl hlen'
      refine ⟨ps, k, ?_⟩
      rw [heq]
      simp [List.filter_append, hdone]

theorem updateRocketsFl_eq (fl : α → α) (M : JSMath α) (s : FireworksCanvas α) :
    ∃ (ps : List (Particle α)) (k : Nat),
    updateRocketsFl fl M s =
      { s with
        rockets := (s.rockets.map (stepRocketFl fl s.height s.gravity)).filter (fun r => !rocketDone r)
        particles := s.particles ++ ps
        cursor := k
        explosionLog := s.explosionLog ++
          (((s.rockets.map (stepRocketFl fl s.height s.gravity)).reverse.filter
            (fun r => rocketDone r && !r.exploded)).map Rocket.explosion) } := by
  obtain ⟨ps, k, h⟩ := updateRocketsFromFl_eq fl M s.rockets.length s s.rockets [] (by simp) rfl
  exact ⟨ps, k, by rw [updateRocketsFl, h]; simp⟩

theorem updateRocketsFl_mem (fl : α → α) (M : JSMath α) (s : FireworksCanvas α) (r' : Rocket α) :
    r' ∈ (updateRocketsFl fl M s).rockets ↔
      ∃ r ∈ s.rockets, stepRocketFl fl s.height s.gravity r = r' ∧ rocketDone r' = false := by
  obtain ⟨ps, k, h⟩ := updateRocketsFl_eq fl M s
  rw [h]
  simp only [List.mem_filter, List.mem_map, Bool.not_eq_true']
  constructor
  · rintro ⟨⟨r, hr, rfl⟩, hd⟩
    exact ⟨r, hr, rfl, hd⟩
  · rintro ⟨r, hr, rfl, hd⟩
    exact ⟨⟨r, hr, rfl⟩, hd⟩

theorem updateRocketsFl_frame (fl : α → α) (M : JSMath α) (s : FireworksCanvas α) :
    (updateRocketsFl fl M s).height = s.height ∧ (updateRocketsFl fl M s).gravity = s.gravity := by
  obtain ⟨ps, k, h⟩ := updateRocketsFl_eq fl M s
  rw [h]
  exact ⟨rfl, rfl⟩

theorem updateRocketsFl_explosion_mem (fl : α → α) (M : JSMath α) (s : FireworksCanvas α) (r : Rocket α)
    (hr : r ∈ s.rockets) (hd : rocketDone (stepRocketFl fl s.height s.gravity r) = true)
    (he : r.exploded = false) :
    (stepRocketFl fl s.height s.gravity r).explosion ∈ (updateRocketsFl fl M s).explosionLog := by
  obtain ⟨ps, k, h⟩ := updateRocketsFl_eq fl M s
  rw [h]
  simp only [List.mem_append, List.mem_map, List.mem_filter, List.mem_reverse,
    Bool.and_eq_true, Bool.not_eq_true']
  exact Or.inr ⟨_, ⟨⟨r, hr, rfl⟩, hd, he⟩, rfl⟩

/-! ## Rounded arithmetic: consequences of the error bound -/

theorem rounding_bounds {fl : ℚ → ℚ} (hfl : IsRounding fl) (x : ℚ) :
    x - |x| / 2 ^ 53 ≤ fl x ∧ fl x ≤ x + |x| / 2 ^ 53 := by
  have h := abs_le.mp (hfl x)
  constructor <;> linarith [h.1, h.2]

theorem rounding_unit : (0 : ℚ) < 1 / 2 ^ 53 ∧ (1 : ℚ) / 2 ^ 53 ≤ 1 / 8000000000000000 := by
  constructor <;> norm_num

theorem rounding_nonneg {fl : ℚ → ℚ} (hfl : IsRounding fl) {x : ℚ} (hx : 0 ≤ x) :
    x * (1 - 1 / 2 ^ 53) ≤ fl x ∧ fl x ≤ x * (1 + 1 / 2 ^ 53) ∧ 0 ≤ fl x := by
  obtain ⟨h1, h2⟩ := rounding_bounds hfl x
  rw [abs_of_nonneg hx] at h1 h2
  have h3 : 0 ≤ x * (1 - 1 / 2 ^ 53) := mul_nonneg hx (by norm_num)
  refine ⟨by linarith, by linarith, by linarith⟩

theorem rounding_nonpos {fl : ℚ → ℚ} (hfl : IsRounding fl) {x : ℚ} (hx : x ≤ 0) :
    x * (1 + 1 / 2 ^ 53) ≤ fl x ∧ fl x ≤ x * (1 - 1 / 2 ^ 53) ∧ fl x ≤ 0 := by
  obtain ⟨h1, h2⟩ := rounding_bounds hfl x
  rw [abs_of_nonpos hx] at h1 h2
  have h3 : x * (1 - 1 / 2 ^ 53) ≤ 0 := mul_nonpos_of_nonpos_of_nonneg hx (by norm_num)
  refine ⟨by linarith, by linarith, by linarith⟩

theorem rounding_pos {fl : ℚ → ℚ} (hfl : IsRounding fl) {x : ℚ} (hx : 0 < x) : 0 < fl x := by
  have h := (rounding_nonneg hfl hx.le).1
  have h3 : 0 < x * (1 - 1 / 2 ^ 53) := mul_pos hx (by norm_num)
  linarith

theorem rounding_neg {fl : ℚ → ℚ} (hfl : IsRounding fl) {x : ℚ} (hx : x < 0) : fl x < 0 := by
  have h := (rounding_nonpos hfl hx.le).2.1
  have h3 : x * (1 - 1 / 2 ^ 53) < 0 := mul_neg_of_neg_of_pos hx (by norm_num)
  linarith

/-! ## Rounded arithmetic: the alpha of a particle -/

theorem stepParticleFl_iterate_decay (fl : α → α) (g f : α) (p : Particle α) (k : Nat) :
    ((stepParticleFl fl g f)^[k] p).decay = p.decay ∧
    ((stepParticleFl fl g f)^[k + 1] p).alpha
      = fl (((stepParticleFl fl g f)^[k] p).alpha - p.decay) := by
  induction k with
  | zero => exact ⟨rfl, rfl⟩
  | succ k ih =>
    have h1 : ((stepParticleFl fl g f)^[k + 1] p).decay = p.decay := by
      rw [Function.iterate_succ_apply']
      exact ih.1
    refine ⟨h1, ?_⟩
    rw [Function.iterate_succ_apply' _ (k + 1)]
    show fl (((stepParticleFl fl g f)^[k + 1] p).alpha - ((stepParticleFl fl g f)^[k + 1] p).decay) = _
    rw [h1]

/-- While the particle lives each tick lowers alpha by at least `decay - 2^-53`. -/
theorem particleFl_upper {fl : ℚ → ℚ} (hfl : IsRounding fl) (g f : ℚ) (p : Particle ℚ)
    (ha : p.alpha ≤ 1) (hd : 1 / 2 ^ 53 ≤ p.decay) :
    ∀ k : Nat, (∀ j, 1 ≤ j → j ≤ k → 0 < ((stepParticleFl fl g f)^[j] p).alpha) →
      ((stepParticleFl fl g f)^[k] p).alpha ≤ p.alpha - (k : ℚ) * (p.decay - 1 / 2 ^ 53) := by
  intro k
  induction k with
  | zero => intro _; simp
  | succ k ih =>
    intro hal
    have ihk := ih (fun j h1 h2 => hal j h1 (by omega))
    have hpos := hal (k + 1) (by omega) le_rfl
    rw [(stepParticleFl_iterate_decay fl g f p k).2] at hpos ⊢
    set a := ((stepParticleFl fl g f)^[k] p).alpha with ha_def
    have hk0 : (0 : ℚ) ≤ (k : ℚ) := Nat.cast_nonneg k
    have hz : 0 < a - p.decay := by
      by_contra hc
      push_neg at hc
      exact absurd hpos (not_lt.mpr (rounding_nonpos hfl hc).2.2)
    have h2 := (rounding_nonneg hfl hz.le).2.1
    have hk1 : (k : ℚ) * (p.decay - 1 / 2 ^ 53) ≥ 0 := mul_nonneg hk0 (by linarith)
    have hz1 : a - p.decay ≤ 1 := by linarith
    have h3 : (a - p.decay) * (1 / 2 ^ 53) ≤ 1 * (1 / 2 ^ 53) :=
      mul_le_mul_of_nonneg_right hz1 (by norm_num)
    push_cast
    linarith

/-- While the particle lives each tick lowers alpha by at most `decay + 2^-53`. -/
theorem particleFl_lower {fl : ℚ → ℚ} (hfl : IsRounding fl) (g f : ℚ) (p : Particle ℚ)
    (ha : p.alpha ≤ 1) (hd : 1 / 2 ^ 53 ≤ p.decay) (hd1 : p.decay ≤ 1) :
    ∀ k : Nat, (∀ j, j < k → 0 < ((stepParticleFl fl g f)^[j] p).alpha) →
      p.alpha - (k : ℚ) * (p.decay + 1 / 2 ^ 53) ≤ ((stepParticleFl fl g f)^[k] p).alpha := by
  intro k
  induction k with
  | zero => intro _; simp
  | succ k ih =>
    intro hal
    have ihk := ih (fun j h1 => hal j (by omega))
    have hup := particleFl_upper hfl g f p ha hd k (fun j _ h2 => hal j (by omega))
    have hpos := hal k (by omega)
    rw [(stepParticleFl_iterate_decay fl g f p k).2]
    set a := ((stepParticleFl fl g f)^[k] p).alpha with ha_def
    have hk0 : (0 : ℚ) ≤ (k : ℚ) := Nat.cast_nonneg k
    have hk1 : (k : ℚ) * (p.decay - 1 / 2 ^ 53) ≥ 0 := mul_nonneg hk0 (by linarith)
    have habs : |a - p.decay| ≤ 1 := by
      rw [abs_le]
      constructor <;> linarith [rounding_unit.1]
    have h2 := (rounding_bounds hfl (a - p.decay)).1
    have h3 : |a - p.decay| / 2 ^ 53 ≤ 1 / 2 ^ 53 :=
      div_le_div_of_nonneg_right habs (by norm_num)
    push_cast
    linarith

/-! ## Rounded arithmetic: the particle collection -/

theorem updateParticlesFl_mem (fl : α → α) (s : FireworksCanvas α) (p' : Particle α) :
    p' ∈ (updateParticlesFl fl s).particles ↔
      ∃ q ∈ s.particles, stepParticleFl fl s.gravity s.friction q = p' ∧ 0 < p'.alpha := by
  rw [updateParticlesFl_eq]
  simp only [List.mem_filter, List.mem_map, decide_eq_true_eq]
  constructor
  · rintro ⟨⟨q, hq, rfl⟩, h⟩
    exact ⟨q, hq, rfl, h⟩
  · rintro ⟨q, hq, rfl, h⟩
    exact ⟨⟨q, hq, rfl⟩, h⟩

theorem updateParticlesFl_iterate_frame (fl : α → α) (s : FireworksCanvas α) (k : Nat) :
    ((updateParticlesFl fl)^[k] s).gravity = s.gravity ∧
    ((updateParticlesFl fl)^[k] s).friction = s.friction := by
  induction k with
  | zero => exact ⟨rfl, rfl⟩
  | succ k ih =>
    rw [Function.iterate_succ_apply', updateParticlesFl_eq]
    exact ih

/-- The particles of the collection after `k` ticks are the particles of the start that
were alive after each of these ticks, updated `k` times. -/
theorem updateParticlesFl_iterate_mem (fl : α → α) (s : FireworksCanvas α) (k : Nat)
    (p' : Particle α) :
    p' ∈ ((updateParticlesFl fl)^[k] s).particles ↔
      ∃ q ∈ s.particles, (stepParticleFl fl s.gravity s.friction)^[k] q = p' ∧
        ∀ j, 1 ≤ j → j ≤ k → 0 < ((stepParticleFl fl s.gravity s.friction)^[j] q).alpha := by
  induction k generalizing p' with
  | zero =>
    simp only [Function.iterate_zero, id_eq]
    constructor
    · intro h
      exact ⟨p', h, rfl, fun j h1 h2 => by omega⟩
    · rintro ⟨q, hq, rfl, _⟩
      exact hq
  | succ k ih =>
    obtain ⟨hg, hf⟩ := updateParticlesFl_iterate_frame fl s k
    rw [Function.iterate_succ_apply', updateParticlesFl_mem, hg, hf]
    constructor
    · rintro ⟨q', hq', rfl, hpos⟩
      obtain ⟨q, hq, rfl, hal⟩ := (ih q').mp hq'
      refine ⟨q, hq, (Function.iterate_succ_apply' _ _ _), ?_⟩
      intro j h1 h2
      rcases Nat.lt_or_ge j (k + 1) with h | h
      · exact hal j h1 (by omega)
      · obtain rfl : j = k + 1 := by omega
        rw [Function.iterate_succ_apply']
        exact hpos
    · rintro ⟨q, hq, rfl, hal⟩
      refine ⟨(stepParticleFl fl s.gravity s.friction)^[k] q, ?_,
        (Function.iterate_succ_apply' _ _ _).symm, hal (k + 1) (by omega) le_rfl⟩
      exact (ih _).mpr ⟨q, hq, rfl, fun j h1 h2 => hal j h1 (by omega)⟩

theorem decayFl_range {fl : ℚ → ℚ} (hfl : IsRounding fl) (r : ℚ) (h0 : 0 ≤ r) (h1 : r < 1) :
    299 / 20000 ≤ decayFl fl r ∧ decayFl fl r ≤ 71 / 2000 := by
  unfold decayFl
  have hε : (0 : ℚ) ≤ 1 + 1 / 2 ^ 53 := by norm_num
  have hε1 : (0 : ℚ) ≤ 1 - 1 / 2 ^ 53 := by norm_num
  obtain ⟨_, a2, a3⟩ := rounding_nonneg hfl (show (0 : ℚ) ≤ 0.02 by norm_num)
  obtain ⟨b1, b2, b3⟩ := rounding_nonneg hfl (show (0 : ℚ) ≤ 0.015 by norm_num)
  have hm : 0 ≤ r * fl 0.02 := mul_nonneg h0 a3
  obtain ⟨_, c2, c3⟩ := rounding_nonneg hfl hm
  have hs : 0 ≤ fl (r * fl 0.02) + fl 0.015 := add_nonneg c3 b3
  obtain ⟨d1, d2, _⟩ := rounding_nonneg hfl hs
  have hA : fl 0.02 ≤ 201 / 10000 := by norm_num at a2 ⊢; linarith
  have hB1 : 1499 / 100000 ≤ fl 0.015 := by norm_num at b1 ⊢; linarith
  have hB2 : fl 0.015 ≤ 1501 / 100000 := by norm_num at b2 ⊢; linarith
  have hM : r * fl 0.02 ≤ 201 / 10000 := by
    calc r * fl 0.02 ≤ 1 * fl 0.02 := mul_le_mul_of_nonneg_right h1.le a3
      _ ≤ 201 / 10000 := by linarith
  have hC : fl (r * fl 0.02) ≤ 202 / 10000 := by
    have := mul_le_mul_of_nonneg_right hM hε
    norm_num at this
    linarith
  have hS1 : 1499 / 100000 ≤ fl (r * fl 0.02) + fl 0.015 := by linarith
  have hS2 : fl (r * fl 0.02) + fl 0.015 ≤ 3521 / 100000 := by linarith
  have k1 := mul_le_mul_of_nonneg_right hS1 hε1
  have k2 := mul_le_mul_of_nonneg_right hS2 hε
  norm_num at k1 k2
  constructor
  · linarith
  · linarith

/-! ## Life time of a particle in binary64 -/

/-- C19 (as stated, refuted): in binary64 the draw `4128299658422955 / 2^52` gives a
particle the decay `d = 0.03333333333333334` with `⌈1 / d⌉ = 30`; after its 30th tick
that particle has `alpha = 3 / 2^54 > 0` and is still in the collection, and it is
removed in tick 31. -/
theorem particle_outlives_ceil :
    (0 : ℚ) ≤ 4128299658422955 / 2 ^ 52 ∧ (4128299658422955 : ℚ) / 2 ^ 52 < 1 ∧
    decayFl fl64 (4128299658422955 / 2 ^ 52) = thirtiethParticle.decay ∧
    thirtiethParticle.alpha = 1 ∧
    (0.015 : ℚ) ≤ thirtiethParticle.decay ∧ thirtiethParticle.decay < 0.035 ∧
    ⌈1 / thirtiethParticle.decay⌉ = 30 ∧
    ((stepParticleFl fl64 (fl64 0.05) (fl64 0.98))^[30] thirtiethParticle).alpha
      = 3 / 18014398509481984 ∧
    (stepParticleFl fl64 (fl64 0.05) (fl64 0.98))^[30] thirtiethParticle
      ∈ ((updateParticlesFl fl64)^[30] (engine64 [] [thirtiethParticle])).particles ∧
    ((updateParticlesFl fl64)^[31] (engine64 [] [thirtiethParticle])).particles = [] := by
  refine ⟨by norm_num, by norm_num, by decide!, rfl, by norm_num [thirtiethParticle],
    by norm_num [thirtiethParticle], by decide!, by decide!, ?_, by decide!⟩
  have h : ((updateParticlesFl fl64)^[30] (engine64 [] [thirtiethParticle])).particles
      = [(stepParticleFl fl64 (fl64 0.05) (fl64 0.98))^[30] thirtiethParticle] := by decide!
  rw [h]
  exact List.mem_singleton.mpr rfl

/-- C19 (as amended): with every operation rounded to binary64 precision (relative error
at most `2^-53`), a particle of the collection with `alpha = 1` and decay `d` in
`[0.01495, 0.0355]`, the range of the rounded `Math.random() * 0.02 + 0.015`, stays in the
collection through the ticks before some tick `N` and is removed in tick `N`, where `N`
is within one of `⌈1 / d⌉` and `29 ≤ N ≤ 67`; a collection whose particles all have
`alpha ≤ 1` and `decay ≥ 0.01495` is empty after 67 ticks. -/
theorem particle_lifetime_rounded (fl : ℚ → ℚ) (hfl : IsRounding fl) (s : FireworksCanvas ℚ)
    (p : Particle ℚ) (hp : p ∈ s.particles) (ha : p.alpha = 1)
    (hd0 : 299 / 20000 ≤ p.decay) (hd1 : p.decay ≤ 71 / 2000)
    (hall : ∀ q ∈ s.particles, q.alpha ≤ 1 ∧ 299 / 20000 ≤ q.decay) :
    (∃ N : Nat, 29 ≤ N ∧ N ≤ 67 ∧
      ⌈1 / p.decay⌉ - 1 ≤ (N : ℤ) ∧ (N : ℤ) ≤ ⌈1 / p.decay⌉ + 1 ∧
      (∀ k, k < N → 0 < ((stepParticleFl fl s.gravity s.friction)^[k] p).alpha ∧
        (stepParticleFl fl s.gravity s.friction)^[k] p
          ∈ ((updateParticlesFl fl)^[k] s).particles) ∧
      ((stepParticleFl fl s.gravity s.friction)^[N] p).alpha ≤ 0 ∧
      (stepParticleFl fl s.gravity s.friction)^[N] p
        ∉ ((updateParticlesFl fl)^[N] s).particles) ∧
    ((updateParticlesFl fl)^[67] s).particles = [] ∧
    (∀ r : ℚ, 0 ≤ r → r < 1 →
      299 / 20000 ≤ decayFl fl r ∧ decayFl fl r ≤ 71 / 2000) := by
  obtain ⟨e0, e1⟩ := rounding_unit
  have hdε : (1 : ℚ) / 2 ^ 53 ≤ p.decay := by linarith
  have hdpos : 0 < p.decay := by linarith
  have hup := particleFl_upper hfl s.gravity s.friction p (le_of_eq ha) hdε
  have hlow := particleFl_lower hfl s.gravity s.friction p (le_of_eq ha) hdε (by linarith)
  have hsucc := fun k => (stepParticleFl_iterate_decay fl s.gravity s.friction p k).2
  -- some tick ends with alpha ≤ 0
  have hex : ∃ k, ((stepParticleFl fl s.gravity s.friction)^[k] p).alpha ≤ 0 := by
    by_contra hc
    push_neg at hc
    have h := hup 67 (fun j _ _ => hc j)
    have h' := hc 67
    rw [ha] at h
    push_cast at h
    linarith
  classical
  let N := Nat.find hex
  have hN : ((stepParticleFl fl s.gravity s.friction)^[N] p).alpha ≤ 0 := Nat.find_spec hex
  have hlive : ∀ k, k < N → 0 < ((stepParticleFl fl s.gravity s.friction)^[k] p).alpha :=
    fun k hk => not_le.mp (Nat.find_min hex hk)
  have hlowN := hlow N hlive
  rw [ha] at hlowN
  have hN67 : N ≤ 67 := by
    by_contra hc
    have h := hup 67 (fun j _ h2 => hlive j (by omega))
    have h' := hlive 67 (by omega)
    rw [ha] at h
    push_cast at h
    linarith
  have hNq : (N : ℚ) ≤ 67 := by exact_mod_cast hN67
  have hN0 : (0 : ℚ) ≤ (N : ℚ) := Nat.cast_nonneg N
  have hNd : 1 ≤ (N : ℚ) * (p.decay + 1 / 2 ^ 53) := by linarith
  have hK1 : ((⌈1 / p.decay⌉ : ℤ) : ℚ) - 1 < 1 / p.decay := by
    have := Int.ceil_lt_add_one (1 / p.decay)
    linarith
  have hK2 : 1 / p.decay ≤ ((⌈1 / p.decay⌉ : ℤ) : ℚ) := Int.le_ceil _
  have hK1' : (((⌈1 / p.decay⌉ : ℤ) : ℚ) - 1) * p.decay < 1 := by
    rwa [lt_div_iff₀ hdpos] at hK1
  have hK2' : 1 ≤ ((⌈1 / p.decay⌉ : ℤ) : ℚ) * p.decay := by
    rwa [div_le_iff₀ hdpos] at hK2
  have hNε : (N : ℚ) * (1 / 2 ^ 53) ≤ 67 * (1 / 2 ^ 53) :=
    mul_le_mul_of_nonneg_right hNq e0.le
  refine ⟨⟨N, ?_, hN67, ?_, ?_, ?_, hN, ?_⟩, ?_, fun r h0 h1 => decayFl_range hfl r h0 h1⟩
  · -- 29 ≤ N
    by_contra hc
    have hN28 : (N : ℚ) ≤ 28 := by exact_mod_cast (show N ≤ 28 by omega)
    have : (N : ℚ) * p.decay ≤ 28 * (71 / 2000) := by
      calc (N : ℚ) * p.decay ≤ 28 * p.decay := mul_le_mul_of_nonneg_right hN28 hdpos.le
        _ ≤ 28 * (71 / 2000) := by linarith
    linarith
  · -- ⌈1 / d⌉ - 1 ≤ N
    by_contra hc
    push_neg at hc
    have hc' : (N : ℤ) + 2 ≤ ⌈1 / p.decay⌉ := by omega
    have hcq : (N : ℚ) + 2 ≤ ((⌈1 / p.decay⌉ : ℤ) : ℚ) := by exact_mod_cast hc'
    have : ((N : ℚ) + 1) * p.decay ≤ (((⌈1 / p.decay⌉ : ℤ) : ℚ) - 1) * p.decay :=
      mul_le_mul_of_nonneg_right (by linarith) hdpos.le
    linarith
  · -- N ≤ ⌈1 / d⌉ + 1
    by_contra hc
    push_neg at hc
    have hKpos : 0 < ⌈1 / p.decay⌉ := Int.ceil_pos.mpr (by positivity)
    obtain ⟨K, hK⟩ : ∃ K : Nat, (K : ℤ) = ⌈1 / p.decay⌉ :=
      ⟨⌈1 / p.decay⌉.toNat, Int.toNat_of_nonneg hKpos.le⟩
    have hKN : K + 1 < N := by omega
    have hKq : ((⌈1 / p.decay⌉ : ℤ) : ℚ) = (K : ℚ) := by rw [← hK]; simp
    rw [hKq] at hK2'
    have h := hup K (fun j _ h2 => hlive j (by omega))
    rw [ha] at h
    have h' := hlive (K + 1) hKN
    rw [hsucc K] at h'
    have hK67 : (K : ℚ) ≤ 67 := by exact_mod_cast (show K ≤ 67 by omega)
    have hKε : (K : ℚ) * (1 / 2 ^ 53) ≤ 67 * (1 / 2 ^ 53) :=
      mul_le_mul_of_nonneg_right hK67 e0.le
    have hz : ((stepParticleFl fl s.gravity s.friction)^[K] p).alpha - p.decay ≤ 0 := by
      linarith
    exact absurd h' (not_lt.mpr (rounding_nonpos hfl hz).2.2)
  · intro k hk
    refine ⟨hlive k hk, ?_⟩
    exact (updateParticlesFl_iterate_mem fl s k _).mpr
      ⟨p, hp, rfl, fun j _ h2 => hlive j (by omega)⟩
  · intro hmem
    obtain ⟨q, _, heq, hal⟩ := (updateParticlesFl_iterate_mem fl s N _).mp hmem
    have hN1 : 1 ≤ N := by
      rcases Nat.eq_zero_or_pos N with h | h
      · have h0 : (N : ℚ) = 0 := by exact_mod_cast h
        rw [h0] at hNd
        linarith
      · exact h
    have := hal N hN1 le_rfl
    rw [heq] at this
    exact absurd this (not_lt.mpr hN)
  · -- the collection is empty after 67 ticks
    rw [List.eq_nil_iff_forall_not_mem]
    intro p' hmem
    obtain ⟨q, hq, _, hal⟩ := (updateParticlesFl_iterate_mem fl s 67 p').mp hmem
    obtain ⟨hq1, hq2⟩ := hall q hq
    have h := particleFl_upper hfl s.gravity s.friction q hq1 (by linarith) 67 hal
    have h' := hal 67 (by omega) le_rfl
    push_cast at h
    linarith

theorem particle_lifetime_rounded_witness :
    IsRounding fl64 ∧ thirtiethParticle ∈ (engine64 [] [thirtiethParticle]).particles ∧
    thirtiethParticle.alpha = 1 ∧
    ∃ N : Nat, 29 ≤ N ∧ N ≤ 67 ∧
      ⌈1 / thirtiethParticle.decay⌉ - 1 ≤ (N : ℤ) ∧
      (N : ℤ) ≤ ⌈1 / thirtiethParticle.decay⌉ + 1 ∧
      ((stepParticleFl fl64 (engine64 [] [thirtiethParticle]).gravity
        (engine64 [] [thirtiethParticle]).friction)^[N] thirtiethParticle).alpha ≤ 0 := by
  have hmem : thirtiethParticle ∈ (engine64 [] [thirtiethParticle]).particles := by
    simp [engine64]
  obtain ⟨N, h1, h2, h3, h4, _, h5, _⟩ :=
    (particle_lifetime_rounded fl64 fl64_isRounding (engine64 [] [thirtiethParticle])
      thirtiethParticle hmem rfl (by norm_num [thirtiethParticle])
      (by norm_num [thirtiethParticle])
      (by
        intro q hq
        simp only [engine64, List.mem_singleton] at hq
        subst hq
        norm_num [thirtiethParticle])).1
  exact ⟨fl64_isRounding, hmem, rfl, N, h1, h2, h3, h4, h5⟩

/-! ## Every rocket leaves, in binary64 -/

/-- The rounded factor `1 - deceleration` is positive and at most `1 + 2^-53`. -/
theorem factorFl_bounds {fl : ℚ → ℚ} (hfl : IsRounding fl) (pr : ℚ) (h0 : 0 ≤ pr)
    (h1 : pr ≤ 1) :
    0 < fl (1 - fl (fl (1 - pr) * fl 0.15)) ∧
    fl (1 - fl (fl (1 - pr) * fl 0.15)) ≤ 1 + 1 / 2 ^ 53 := by
  have hε : (0 : ℚ) ≤ 1 + 1 / 2 ^ 53 := by norm_num
  obtain ⟨_, t2, t3⟩ := rounding_nonneg hfl (show (0 : ℚ) ≤ 1 - pr by linarith)
  obtain ⟨_, c2, c3⟩ := rounding_nonneg hfl (show (0 : ℚ) ≤ 0.15 by norm_num)
  have hprod : 0 ≤ fl (1 - pr) * fl 0.15 := mul_nonneg t3 c3
  obtain ⟨_, d2, d3⟩ := rounding_nonneg hfl hprod
  have ht : fl (1 - pr) ≤ 101 / 100 := by
    have := mul_le_mul_of_nonneg_right (show 1 - pr ≤ 1 by linarith) hε
    norm_num at this
    linarith
  have hc : fl 0.15 ≤ 151 / 1000 := by norm_num at c2 ⊢; linarith
  have hp : fl (1 - pr) * fl 0.15 ≤ 101 / 100 * (151 / 1000) :=
    mul_le_mul ht hc c3 (by norm_num)
  have hd : fl (fl (1 - pr) * fl 0.15) ≤ 16 / 100 := by
    have := mul_le_mul_of_nonneg_right hp hε
    norm_num at this
    linarith
  have hpos : 0 < 1 - fl (fl (1 - pr) * fl 0.15) := by linarith
  refine ⟨rounding_pos hfl hpos, ?_⟩
  have h2 := (rounding_nonneg hfl hpos.le).2.1
  have h3 := mul_le_mul_of_nonneg_right
    (show 1 - fl (fl (1 - pr) * fl 0.15) ≤ 1 by linarith) hε
  linarith

/-- The rounded gravity term `fl (fl 0.05 * 1)` is at least `0.05 - 10^-15`. -/
theorem gravityFl_lower {fl : ℚ → ℚ} (hfl : IsRounding fl) :
    1 / 20 - 1 / 10 ^ 15 ≤ fl (fl 0.05 * 1) := by
  obtain ⟨a1, _, a3⟩ := rounding_nonneg hfl (show (0 : ℚ) ≤ 0.05 by norm_num)
  rw [mul_one]
  obtain ⟨b1, _, _⟩ := rounding_nonneg hfl a3
  have h1 : 1 / 20 - 1 / 10 ^ 16 ≤ fl 0.05 := by norm_num at a1 ⊢; linarith
  have h2 := mul_le_mul_of_nonneg_right h1 (show (0 : ℚ) ≤ 1 - 1 / 2 ^ 53 by norm_num)
  norm_num at h2 b1 ⊢
  linarith

/-- One rounded tick under gravity `fl 0.05`, for `-1000 ≤ vy`: from
`vy > -(0.05 - 10^-12)` the update ends with `vy > 0`, and an update that ends with
`vy ≤ 0` has raised `vy` by at least `0.05 - 10^-12`. -/
theorem stepRocketFl_vy_rise {fl : ℚ → ℚ} (hfl : IsRounding fl) (H : ℚ) (r : Rocket ℚ)
    (hv1 : -1000 ≤ r.vy) :
    (0 < r.vy + (1 / 20 - 1 / 10 ^ 12) → 0 < (stepRocketFl fl H (fl 0.05) r).vy) ∧
    ((stepRocketFl fl H (fl 0.05) r).vy ≤ 0 →
      r.vy + (1 / 20 - 1 / 10 ^ 12) ≤ (stepRocketFl fl H (fl 0.05) r).vy) := by
  have hε : (0 : ℚ) ≤ 1 / 2 ^ 53 := by norm_num
  have hg := gravityFl_lower hfl
  obtain ⟨hm0, hm1⟩ := factorFl_bounds hfl
    (max 0 (min 1 (fl (fl (r.y - r.targetY) / fl (H * fl 0.5)))))
    (le_max_left _ _) (max_le (by norm_num) (min_le_left _ _))
  have e : (stepRocketFl fl H (fl 0.05) r).vy
      = fl (fl (r.vy + fl (fl 0.05 * 1)) *
          fl (1 - fl (fl (1 - max 0 (min 1 (fl (fl (r.y - r.targetY) / fl (H * fl 0.5)))))
            * fl 0.15))) := rfl
  rw [e]
  set m := fl (1 - fl (fl (1 - max 0 (min 1 (fl (fl (r.y - r.targetY) / fl (H * fl 0.5)))))
            * fl 0.15)) with hm_def
  set g1 := fl (fl 0.05 * 1) with hg1_def
  have hpos : 0 < r.vy + g1 → 0 < fl (fl (r.vy + g1) * m) := by
    intro h
    exact rounding_pos hfl (mul_pos (rounding_pos hfl h) hm0)
  constructor
  · intro h
    exact hpos (by linarith)
  · intro hle
    have ha : r.vy + g1 ≤ 0 := by
      by_contra hc
      push_neg at hc
      exact absurd (hpos hc) (not_lt.mpr hle)
    have ha1 : -1000 ≤ r.vy + g1 := by linarith
    obtain ⟨b1, _, b3⟩ := rounding_nonpos hfl ha
    -- b = fl (vy + g1) is within 1000 * 2^-53 below vy + g1
    have k1 := mul_le_mul_of_nonneg_right ha1 hε
    have hb : r.vy + g1 - 1000 * (1 / 2 ^ 53) ≤ fl (r.vy + g1) := by linarith
    have hb1 : -1001 ≤ fl (r.vy + g1) := by norm_num at hb ⊢; linarith
    -- the product with the factor
    have hbm0 : fl (r.vy + g1) * m ≤ 0 := mul_nonpos_of_nonpos_of_nonneg b3 hm0.le
    have hbm : fl (r.vy + g1) * (1 + 1 / 2 ^ 53) ≤ fl (r.vy + g1) * m :=
      mul_le_mul_of_nonpos_left hm1 b3
    have k2 := mul_le_mul_of_nonneg_right hb1 hε
    have hbm1 : fl (r.vy + g1) - 1001 * (1 / 2 ^ 53) ≤ fl (r.vy + g1) * m := by linarith
    have hbm2 : -1002 ≤ fl (r.vy + g1) * m := by norm_num at hbm1 ⊢; linarith
    obtain ⟨c1, _, _⟩ := rounding_nonpos hfl hbm0
    have k3 := mul_le_mul_of_nonneg_right hbm2 hε
    have hc : fl (r.vy + g1) * m - 1002 * (1 / 2 ^ 53) ≤ fl (fl (r.vy + g1) * m) := by
      linarith
    norm_num at hb hbm1 hc hg ⊢
    linarith

theorem rocketFl_leaves {fl : ℚ → ℚ} (hfl : IsRounding fl) (M : JSMath ℚ) :
    ∀ (n : Nat) (s : FireworksCanvas ℚ) (r : Rocket ℚ), r ∈ s.rockets → r.exploded = false →
      s.gravity = fl 0.05 → -1000 ≤ r.vy → -r.vy < ((n : ℚ) + 1) * (1 / 20 - 1 / 10 ^ 12) →
      ∃ N : Nat, 1 ≤ N ∧ N ≤ n + 1 ∧
        rocketDone ((stepRocketFl fl s.height s.gravity)^[N] r) = true ∧
        (∀ j, j < N →
          (stepRocketFl fl s.height s.gravity)^[j] r ∈ ((updateRocketsFl fl M)^[j] s).rockets) ∧
        (stepRocketFl fl s.height s.gravity)^[N] r ∉ ((updateRocketsFl fl M)^[N] s).rockets ∧
        ((stepRocketFl fl s.height s.gravity)^[N] r).explosion
          ∈ ((updateRocketsFl fl M)^[N] s).explosionLog := by
  intro n
  induction n with
  | zero =>
    intro s r hr he hg hv1 hu
    have hpos : 0 < r.vy + (1 / 20 - 1 / 10 ^ 12) := by
      simp only [Nat.cast_zero, zero_add, one_mul] at hu
      linarith
    have hv := (stepRocketFl_vy_rise hfl s.height r hv1).1 hpos
    rw [← hg] at hv
    have hd : rocketDone (stepRocketFl fl s.height s.gravity r) = true := by
      simp only [rocketDone, Bool.or_eq_true, decide_eq_true_eq]
      exact Or.inr hv
    refine ⟨1, le_refl _, le_refl _, hd, ?_, ?_, ?_⟩
    · intro j hj
      obtain rfl : j = 0 := by omega
      exact hr
    · intro hmem
      obtain ⟨_, _, _, hnd⟩ := (updateRocketsFl_mem fl M s _).mp hmem
      rw [Function.iterate_one] at hnd
      rw [hd] at hnd
      exact Bool.noConfusion hnd
    · exact updateRocketsFl_explosion_mem fl M s r hr hd he
  | succ n ih =>
    intro s r hr he hg hv1 hu
    cases hd : rocketDone (stepRocketFl fl s.height s.gravity r) with
    | true =>
      refine ⟨1, le_refl _, by omega, hd, ?_, ?_, ?_⟩
      · intro j hj
        obtain rfl : j = 0 := by omega
        exact hr
      · intro hmem
        obtain ⟨_, _, _, hnd⟩ := (updateRocketsFl_mem fl M s _).mp hmem
        rw [Function.iterate_one] at hnd
        rw [hd] at hnd
        exact Bool.noConfusion hnd
      · exact updateRocketsFl_explosion_mem fl M s r hr hd he
    | false =>
      obtain ⟨hH, hG⟩ := updateRocketsFl_frame fl M s
      have hmem : stepRocketFl fl s.height s.gravity r ∈ (updateRocketsFl fl M s).rockets :=
        (updateRocketsFl_mem fl M s _).mpr ⟨r, hr, rfl, hd⟩
      have hv' : (stepRocketFl fl s.height s.gravity r).vy ≤ 0 := by
        simp only [rocketDone, Bool.or_eq_false_iff, decide_eq_false_iff_not, not_lt] at hd
        exact hd.2
      have hrise := (stepRocketFl_vy_rise hfl s.height r hv1).2 (by rw [← hg]; exact hv')
      rw [← hg] at hrise
      have hu' : -(stepRocketFl fl s.height s.gravity r).vy
          < ((n : ℚ) + 1) * (1 / 20 - 1 / 10 ^ 12) := by
        push_cast at hu
        linarith
      obtain ⟨N, hN1, hN, hdN, hfly, hout, hlog⟩ := ih (updateRocketsFl fl M s)
        (stepRocketFl fl s.height s.gravity r) hmem he (by rw [hG, hg]) (by linarith) hu'
      rw [hH, hG] at hdN hfly hout hlog
      refine ⟨N + 1, by omega, by omega, ?_, ?_, ?_, ?_⟩
      · rw [Function.iterate_succ_apply]
        exact hdN
      · intro j hj
        cases j with
        | zero => exact hr
        | succ j =>
          rw [Function.iterate_succ_apply, Function.iterate_succ_apply]
          exact hfly j (by omega)
      · rw [Function.iterate_succ_apply, Function.iterate_succ_apply]
        exact hout
      · rw [Function.iterate_succ_apply, Function.iterate_succ_apply]
        exact hlog

theorem launchVyFl_range {fl : ℚ → ℚ} (hfl : IsRounding fl) (r : ℚ) (h0 : 0 ≤ r) (h1 : r < 1) :
    launchVyFl fl r < 0 ∧ -(22501 / 1000) ≤ launchVyFl fl r := by
  unfold launchVyFl
  have hε : (0 : ℚ) ≤ 1 + 1 / 2 ^ 53 := by norm_num
  have hε' : (0 : ℚ) < 1 - 1 / 2 ^ 53 := by norm_num
  obtain ⟨_, a2, a3⟩ := rounding_nonneg hfl (show (0 : ℚ) ≤ 3.9 by norm_num)
  obtain ⟨b1, b2, b3⟩ := rounding_nonneg hfl (show (0 : ℚ) ≤ 18.6 by norm_num)
  have hm : 0 ≤ r * fl 3.9 := mul_nonneg h0 a3
  obtain ⟨_, c2, c3⟩ := rounding_nonneg hfl hm
  have hs : 0 ≤ fl (r * fl 3.9) + fl 18.6 := add_nonneg c3 b3
  obtain ⟨d1, d2, _⟩ := rounding_nonneg hfl hs
  have hA : fl 3.9 ≤ 39001 / 10000 := by norm_num at a2 ⊢; linarith
  have hB1 : 18 ≤ fl 18.6 := by norm_num at b1 ⊢; linarith
  have hB2 : fl 18.6 ≤ 186001 / 10000 := by norm_num at b2 ⊢; linarith
  have hM : r * fl 3.9 ≤ 39001 / 10000 := by
    calc r * fl 3.9 ≤ 1 * fl 3.9 := mul_le_mul_of_nonneg_right h1.le a3
      _ ≤ 39001 / 10000 := by linarith
  have hC : fl (r * fl 3.9) ≤ 39002 / 10000 := by
    have := mul_le_mul_of_nonneg_right hM hε
    norm_num at this
    linarith
  have hS1 : 18 ≤ fl (r * fl 3.9) + fl 18.6 := by linarith
  have hS2 : fl (r * fl 3.9) + fl 18.6 ≤ 225003 / 10000 := by linarith
  have k1 := mul_le_mul_of_nonneg_right hS1 hε'.le
  have k2 := mul_le_mul_of_nonneg_right hS2 hε
  norm_num at k1 k2
  constructor
  · linarith
  · linarith

/-- One binary64 tick leaves `y = 2^120`, `vy = -2^60` and `targetY = 50` as they are. -/
theorem absorbedRocket_step (q : Rocket ℚ) (hy : q.y = 2 ^ 120) (hv : q.vy = -(2 ^ 60))
    (ht : q.targetY = 50) :
    (stepRocketFl fl64 600 (fl64 0.05) q).y = 2 ^ 120 ∧
    (stepRocketFl fl64 600 (fl64 0.05) q).vy = -(2 ^ 60) ∧
    (stepRocketFl fl64 600 (fl64 0.05) q).targetY = 50 := by
  refine ⟨?_, ?_, ht⟩
  · show fl64 (q.y + q.vy) = 2 ^ 120
    rw [hy, hv]
    decide!
  · show fl64 (fl64 (q.vy + fl64 (fl64 0.05 * 1)) *
        fl64 (1 - fl64 (fl64 (1 - max 0 (min 1 (fl64 (fl64 (q.y - q.targetY) /
          fl64 (600 * fl64 0.5))))) * fl64 0.15))) = -(2 ^ 60)
    rw [hy, hv, ht]
    decide!

theorem absorbedRocket_iterate (k : Nat) :
    ((stepRocketFl fl64 600 (fl64 0.05))^[k] absorbedRocket).y = 2 ^ 120 ∧
    ((stepRocketFl fl64 600 (fl64 0.05))^[k] absorbedRocket).vy = -(2 ^ 60) ∧
    ((stepRocketFl fl64 600 (fl64 0.05))^[k] absorbedRocket).targetY = 50 := by
  induction k with
  | zero => exact ⟨rfl, rfl, rfl⟩
  | succ k ih =>
    rw [Function.iterate_succ_apply']
    exact absorbedRocket_step _ ih.1 ih.2.1 ih.2.2

theorem absorbedRocket_never_done (k : Nat) :
    rocketDone ((stepRocketFl fl64 600 (fl64 0.05))^[k] absorbedRocket) = false := by
  obtain ⟨hy, hv, ht⟩ := absorbedRocket_iterate k
  simp only [rocketDone, hy, hv, ht, Bool.or_eq_false_iff, decide_eq_false_iff_not]
  constructor <;> norm_num

theorem updateRocketsFl_iterate_frame (fl : α → α) (M : JSMath α) (s : FireworksCanvas α)
    (k : Nat) :
    ((updateRocketsFl fl M)^[k] s).height = s.height ∧
    ((updateRocketsFl fl M)^[k] s).gravity = s.gravity := by
  induction k with
  | zero => exact ⟨rfl, rfl⟩
  | succ k ih =>
    rw [Function.iterate_succ_apply']
    obtain ⟨h1, h2⟩ := updateRocketsFl_frame fl M ((updateRocketsFl fl M)^[k] s)
    rw [h1, h2]
    exact ih

/-- The absorbed rocket is in the collection after every number of binary64 ticks. -/
theorem absorbedRocket_stays (k : Nat) :
    (stepRocketFl fl64 600 (fl64 0.05))^[k] absorbedRocket
      ∈ ((updateRocketsFl fl64 ratMath)^[k] (engine64 [absorbedRocket] [])).rockets := by
  induction k with
  | zero => simp [engine64]
  | succ k ih =>
    obtain ⟨h1, h2⟩ := updateRocketsFl_iterate_frame fl64 ratMath
      (engine64 [absorbedRocket] []) k
    have hH : (engine64 [absorbedRocket] []).height = 600 := rfl
    have hG : (engine64 [absorbedRocket] []).gravity = fl64 0.05 := rfl
    rw [Function.iterate_succ_apply', Function.iterate_succ_apply']
    refine (updateRocketsFl_mem fl64 ratMath _ _).mpr
      ⟨(stepRocketFl fl64 600 (fl64 0.05))^[k] absorbedRocket, ih, ?_, ?_⟩
    · rw [h1, h2, hH, hG]
    · have hnd := absorbedRocket_never_done (k + 1)
      rw [Function.iterate_succ_apply'] at hnd
      exact hnd

/-- C18 (as stated, refuted): in binary64, on a canvas of height 600 under gravity
`0.05`, the unexploded rocket with `vy = -0.3` at `y = 600` and target 50 has
`⌊|vy| / 0.05⌋ + 1 = 6`, but after 6 ticks of `updateRockets` it is still in the
collection (its `vy` is then `-2^-56`) and no explosion has been generated; its
termination test succeeds in tick 7.  Its third tick raises `vy` from `-0.2` to
`-0.15000000000000002`, by less than `0.05`.  The unexploded rocket with `vy = -2^60` at
`y = 2^120` is in the collection after every number of ticks: adding `0.05` to its `vy`
and its `vy` to its `y` is absorbed by the rounding. -/
theorem rocket_outlasts_bound :
    slowRocket ∈ (engine64 [slowRocket] []).rockets ∧ slowRocket.exploded = false ∧
    (engine64 [slowRocket] []).height = 600 ∧
    (engine64 [slowRocket] []).gravity = fl64 0.05 ∧
    slowRocket.vy = fl64 (-0.3) ∧ slowRocket.vy < 0 ∧
    ⌊|slowRocket.vy| / 0.05⌋.toNat + 1 = 6 ∧
    (stepRocketFl fl64 600 (fl64 0.05))^[6] slowRocket
      ∈ ((updateRocketsFl fl64 ratMath)^[6] (engine64 [slowRocket] [])).rockets ∧
    ((updateRocketsFl fl64 ratMath)^[6] (engine64 [slowRocket] [])).explosionLog = [] ∧
    ((stepRocketFl fl64 600 (fl64 0.05))^[6] slowRocket).vy = -(1 / 2 ^ 56) ∧
    rocketDone ((stepRocketFl fl64 600 (fl64 0.05))^[7] slowRocket) = true ∧
    ((stepRocketFl fl64 600 (fl64 0.05))^[2] slowRocket).vy < 0 ∧
    ((stepRocketFl fl64 600 (fl64 0.05))^[3] slowRocket).vy
      < ((stepRocketFl fl64 600 (fl64 0.05))^[2] slowRocket).vy + 0.05 ∧
    absorbedRocket.vy < 0 ∧ absorbedRocket.exploded = false ∧
    (∀ k : Nat, (stepRocketFl fl64 600 (fl64 0.05))^[k] absorbedRocket
      ∈ ((updateRocketsFl fl64 ratMath)^[k] (engine64 [absorbedRocket] [])).rockets) := by
  refine ⟨by simp [engine64], rfl, rfl, rfl, by decide!, by norm_num [slowRocket],
    by decide!, ?_, by decide!, by decide!, by decide!, by decide!, by decide!,
    by norm_num [absorbedRocket], rfl, absorbedRocket_stays⟩
  have h : ((updateRocketsFl fl64 ratMath)^[6] (engine64 [slowRocket] [])).rockets
      = [(stepRocketFl fl64 600 (fl64 0.05))^[6] slowRocket] := by decide!
  rw [h]
  exact List.mem_singleton.mpr rfl

/-- C18 (as amended): with every operation rounded to binary64 precision (relative error
at most `2^-53`) and gravity the rounded `0.05`, an unexploded rocket of the collection
with `-1000 ≤ vy < 0` (any position, target and height) is followed through the ticks
until, at some tick `N` with `1 ≤ N ≤ ⌊|vy| / 0.05⌋ + 2`, its termination test succeeds:
it is in the collection before tick `N`, not after it, and its explosion has then been
generated.  For `-1000 ≤ vy` a tick started with `vy > -(0.05 - 10^-12)` ends with
`vy > 0`, and a tick that ends with `vy ≤ 0` has raised `vy` by at least `0.05 - 10^-12`.
For the `vy` that `launchRocket` computes from a draw in `[0, 1)` the bound is at most
452 ticks. -/
theorem rocket_removed_within_bound_rounded (fl : ℚ → ℚ) (hfl : IsRounding fl)
    (M : JSMath ℚ) (s : FireworksCanvas ℚ) (r : Rocket ℚ)
    (hr : r ∈ s.rockets) (he : r.exploded = false) (hg : s.gravity = fl 0.05)
    (hv : r.vy < 0) (hv1 : -1000 ≤ r.vy) :
    (∃ N : Nat, 1 ≤ N ∧ N ≤ ⌊|r.vy| / 0.05⌋.toNat + 2 ∧
        rocketDone ((stepRocketFl fl s.height s.gravity)^[N] r) = true ∧
        (∀ j, j < N →
          (stepRocketFl fl s.height s.gravity)^[j] r ∈ ((updateRocketsFl fl M)^[j] s).rockets) ∧
        (stepRocketFl fl s.height s.gravity)^[N] r ∉ ((updateRocketsFl fl M)^[N] s).rockets ∧
        ((stepRocketFl fl s.height s.gravity)^[N] r).explosion
          ∈ ((updateRocketsFl fl M)^[N] s).explosionLog) ∧
    (∀ (H : ℚ) (q : Rocket ℚ), -1000 ≤ q.vy →
        (-(0.05 - 1 / 10 ^ 12) < q.vy → 0 < (stepRocketFl fl H (fl 0.05) q).vy) ∧
        ((stepRocketFl fl H (fl 0.05) q).vy ≤ 0 →
          q.vy + (0.05 - 1 / 10 ^ 12) ≤ (stepRocketFl fl H (fl 0.05) q).vy)) ∧
    (∀ ρ : ℚ, 0 ≤ ρ → ρ < 1 →
        launchVyFl fl ρ < 0 ∧ -1000 ≤ launchVyFl fl ρ ∧
        ⌊|launchVyFl fl ρ| / 0.05⌋.toNat + 2 ≤ 452) := by
  have e05 : (0.05 : ℚ) = 1 / 20 := by norm_num
  refine ⟨?_, ?_, ?_⟩
  · have habs : |r.vy| = -r.vy := abs_of_neg hv
    have h2 : 0 ≤ ⌊|r.vy| / (0.05 : ℚ)⌋ :=
      Int.floor_nonneg.mpr (div_nonneg (abs_nonneg _) (by norm_num))
    have h3 : ((⌊|r.vy| / (0.05 : ℚ)⌋.toNat : ℕ) : ℚ) = ((⌊|r.vy| / (0.05 : ℚ)⌋ : ℤ) : ℚ) := by
      have := Int.toNat_of_nonneg h2
      exact_mod_cast this
    have hfl1 : |r.vy| / 0.05 < ((⌊|r.vy| / (0.05 : ℚ)⌋.toNat : ℕ) : ℚ) + 1 := by
      rw [h3]
      exact Int.lt_floor_add_one _
    have hfl2 : ((⌊|r.vy| / (0.05 : ℚ)⌋.toNat : ℕ) : ℚ) ≤ |r.vy| / 0.05 := by
      rw [h3]
      exact Int.floor_le _
    generalize ⌊|r.vy| / (0.05 : ℚ)⌋.toNat = n0 at hfl1 hfl2 ⊢
    rw [habs, e05, div_lt_iff₀ (by norm_num)] at hfl1
    rw [habs, e05, le_div_iff₀ (by norm_num)] at hfl2
    have hu : -r.vy < (((n0 + 1 : ℕ) : ℚ) + 1) * (1 / 20 - 1 / 10 ^ 12) := by
      push_cast
      norm_num at hfl1 hfl2 ⊢
      linarith
    obtain ⟨N, h⟩ := rocketFl_leaves hfl M _ s r hr he hg hv1 hu
    exact ⟨N, h⟩
  · intro H q hq
    obtain ⟨h1, h2⟩ := stepRocketFl_vy_rise hfl H q hq
    constructor
    · intro h
      apply h1
      rw [e05] at h
      linarith
    · intro h
      have h3 := h2 h
      have e : q.vy + ((0.05 : ℚ) - 1 / 10 ^ 12) = q.vy + (1 / 20 - 1 / 10 ^ 12) := by
        norm_num
      rw [e]
      exact h3
  · intro ρ h0 h1
    obtain ⟨hneg, hlow⟩ := launchVyFl_range hfl ρ h0 h1
    refine ⟨hneg, by linarith, ?_⟩
    have hlt : ⌊|launchVyFl fl ρ| / (0.05 : ℚ)⌋ < 451 := by
      rw [Int.floor_lt, abs_of_neg hneg, e05, div_lt_iff₀ (by norm_num)]
      norm_num
      linarith
    omega

theorem rocket_removed_within_bound_rounded_witness :
    IsRounding fl64 ∧ slowRocket ∈ (engine64 [slowRocket] []).rockets ∧
    slowRocket.vy < 0 ∧ -1000 ≤ slowRocket.vy ∧
    ∃ N : Nat, 1 ≤ N ∧ N ≤ 7 ∧
      rocketDone ((stepRocketFl fl64 (engine64 [slowRocket] []).height
        (engine64 [slowRocket] []).gravity)^[N] slowRocket) = true := by
  have hmem : slowRocket ∈ (engine64 [slowRocket] []).rockets := by simp [engine64]
  have hn : ⌊|slowRocket.vy| / 0.05⌋.toNat + 2 = 7 := by decide!
  obtain ⟨N, h1, h2, h3, _⟩ :=
    (rocket_removed_within_bound_rounded fl64 fl64_isRounding ratMath
      (engine64 [slowRocket] []) slowRocket hmem rfl rfl (by norm_num [slowRocket])
      (by norm_num [slowRocket])).1
  rw [hn] at h2
  exact ⟨fl64_isRounding, hmem, by norm_num [slowRocket], by norm_num [slowRocket],
    N, h1, h2, h3⟩

end Fireworks
